import Mathlib

/-!
ELL: a verification development in four parts, the definitions of all parts first and
their theorems after them: the parallel for-loop lowering (`IRParallelLoopEmitter.cpp`),
the tensors of the value library (`Tensor.cpp`), the map (`Map.h`) and the retarget
trainer (`retargetTrainer/src/main.cpp`).

The parallel for-loop lowering: a shallow embedding of
`IRParallelForLoopEmitter::EmitLoop` (both overloads) and
`IRParallelForLoopEmitter::GetTaskFunction`, together with theorems about the task
partition they generate.

Modelling conventions.

* `int` values and emitted `i32` values are integers (`Int`) of the range
  `[-2^31, 2^31)`.  Every arithmetic operation of the source is 32-bit: its result is reduced
  to that range by `wrap32` (two's complement), operation by operation (`add32`, `sub32`,
  `mul32`, `div32`).  For the emitted `i32` code this is what the LLVM instructions compute.
  For the host `int` arithmetic of lines 28-29 signed overflow is undefined in C++; the
  model takes the two's-complement result there, and the theorems that relate the computed
  count to the iteration count of the spec assume a representable span.
* `/` on `int` and on `IRLocalScalar` is C++ / LLVM signed division, which truncates
  towards zero: `Int.tdiv`.
* The counter of the `For` loop (not among the sources) is a mathematical integer; the
  general theorems about runs carry range hypotheses under which it stays a 32-bit value.
* The emitter is stateful: it adds functions to the module and appends instructions to
  the function being emitted.  This is explicit state passing on `EmitterState`.
* The user supplied `BodyFunction` is opaque; an emitted loop records the captured values
  it hands to the body, and running a loop yields the list of body invocations.
-/

namespace Emitters

/-! ## Data model -/

/-- LLVM types that occur in the lowering: `Void`, `Int32`, and any other type (the types
of captured values), identified by a tag. -/
inductive LLVMType where
  | Void
  | Int32
  | Other (tag : Nat)
deriving DecidableEq, Repr

/-- An `LLVMValue`: its LLVM type and the run-time content it stands for. -/
structure LLVMValue where
  ty : LLVMType
  val : Int
deriving DecidableEq, Repr

/-- The value of an `IRLocalScalar` holding a 32-bit integer. -/
def LocalScalar (v : Int) : LLVMValue := ⟨LLVMType.Int32, v⟩

/-- The fields of `CompilerOptions` that `EmitLoop` reads. -/
structure CompilerOptions where
  parallelize : Bool
  maxThreads : Int
deriving DecidableEq, Repr

/-- The `ParallelLoopOptions` passed by the caller; `numTasks == 0` means unspecified. -/
structure ParallelLoopOptions where
  numTasks : Int
deriving DecidableEq, Repr

/-- The function emitted by `GetTaskFunction`.  Its body is fixed by the source: a `For`
loop over its first three arguments whose body receives the next `numCapturedValues`
arguments as `innerCapturedValues`. -/
structure TaskFunction where
  name : String
  returnType : LLVMType
  argTypes : List LLVMType
  numCapturedValues : Nat
deriving DecidableEq, Repr

/-- An `IRTaskArray`: the task function and one argument list per task. -/
structure IRTaskArray where
  taskFunction : TaskFunction
  taskArgs : List (List LLVMValue)
deriving DecidableEq, Repr

/-- What `EmitLoop` emits into the calling function. -/
inductive Instr where
  | For (begin end_ increment : Int) (capturedValues : List LLVMValue)
  | StartTasks (tasks : IRTaskArray)
  | WaitAll (tasks : IRTaskArray)
deriving DecidableEq, Repr

/-- State of the emitter: the functions of the module, and the instructions emitted so
far into the function that calls `EmitLoop`. -/
structure EmitterState where
  functions : List TaskFunction
  code : List Instr
deriving DecidableEq, Repr

/-! ## `GetTaskFunction` and `EmitLoop` -/

/-- `GetLLVMTypes(capturedValues)`. -/
def GetLLVMTypes (capturedValues : List LLVMValue) : List LLVMType :=
  capturedValues.map LLVMValue.ty

/-- `IRParallelForLoopEmitter::GetTaskFunction`: begins the function `parForTask` in the
module with argument types `Int32, Int32, Int32` followed by the captured types, emits the
loop over `(blockStart, blockEnd, increment)` into it and ends it.  Returns the new state
and the function. -/
def GetTaskFunction (capturedValues : List LLVMValue) (s : EmitterState) :
    EmitterState × TaskFunction :=
  let name := "parForTask"
  let returnType := LLVMType.Void
  let argTypes := [LLVMType.Int32, LLVMType.Int32, LLVMType.Int32]
  let capturedTypes := GetLLVMTypes capturedValues
  let argTypes := argTypes ++ capturedTypes
  let numCapturedValues := capturedValues.length
  let taskFunction := TaskFunction.mk name returnType argTypes numCapturedValues
  (EmitterState.mk (s.functions ++ [taskFunction]) s.code, taskFunction)

/-- The value of a signed 32-bit result: the representative in `[-2^31, 2^31)` of the
mathematical result modulo `2^32` (two's-complement wrap-around). -/
def wrap32 (x : Int) : Int :=
  (x + 2147483648) % 4294967296 - 2147483648

/-- 32-bit `a + b`. -/
def add32 (a b : Int) : Int := wrap32 (a + b)

/-- 32-bit `a - b`. -/
def sub32 (a b : Int) : Int := wrap32 (a - b)

/-- 32-bit `a * b`. -/
def mul32 (a b : Int) : Int := wrap32 (a * b)

/-- 32-bit signed `a / b`, truncating towards zero (the one quotient that leaves the range,
`-2^31 / -1`, wraps as well). -/
def div32 (a b : Int) : Int := wrap32 (a.tdiv b)

/-- Line 43: the task count the `IRLocalScalar` overload works with. -/
def numTasks (compilerSettings : CompilerOptions) (options : ParallelLoopOptions) : Int :=
  if options.numTasks = 0 then compilerSettings.maxThreads else options.numTasks

/-- Lines 44-45: `numIterations` as the `IRLocalScalar` overload computes it, in emitted
32-bit arithmetic: `span = end - begin`, `numIterations = (span - 1) / increment + 1`. -/
def numIterations (begin end_ increment : Int) : Int :=
  let span := sub32 end_ begin
  add32 (div32 (sub32 span 1) increment) 1

/-- Line 48: `taskSize = (numIterations - 1) / numTasks + 1`, in emitted 32-bit
arithmetic. -/
def taskSize (begin end_ increment numTasks : Int) : Int :=
  add32 (div32 (sub32 (numIterations begin end_ increment) 1) numTasks) 1

/-- Line 56: `blockStart = begin + taskIndex * taskSize * increment`, in emitted 32-bit
arithmetic. -/
def blockStart (begin increment taskSize taskIndex : Int) : Int :=
  add32 begin (mul32 (mul32 taskIndex taskSize) increment)

/-- Line 57: `blockEnd = Min(blockStart + taskSize * increment, end)`, the sum and the
product in emitted 32-bit arithmetic, `Min` the signed minimum. -/
def blockEnd (begin end_ increment taskSize taskIndex : Int) : Int :=
  min (add32 (blockStart begin increment taskSize taskIndex) (mul32 taskSize increment)) end_

/-- Lines 53-61: the loop `for (taskIndex = 0; taskIndex < numTasks; ++taskIndex)` that
builds one argument list per task. -/
def taskArgs (begin end_ increment numTasks : Int) (capturedValues : List LLVMValue) :
    List (List LLVMValue) :=
  (List.range numTasks.toNat).map fun (taskIndex : Nat) =>
    let taskSize := taskSize begin end_ increment numTasks
    let blockStart := blockStart begin increment taskSize taskIndex
    let blockEnd := blockEnd begin end_ increment taskSize taskIndex
    [LocalScalar blockStart, LocalScalar blockEnd, LocalScalar increment] ++ capturedValues

/-- `IRParallelForLoopEmitter::EmitLoop(IRLocalScalar begin, IRLocalScalar end,
IRLocalScalar increment, options, capturedValues, body)`. -/
def EmitLoop (compilerSettings : CompilerOptions) (begin end_ increment : Int)
    (options : ParallelLoopOptions) (capturedValues : List LLVMValue) (s : EmitterState) :
    EmitterState :=
  let numTasks := numTasks compilerSettings options
  if compilerSettings.parallelize && decide (numTasks > 1) then
    let (s, taskFunction) := GetTaskFunction capturedValues s
    let taskArgs := taskArgs begin end_ increment numTasks capturedValues
    let tasks := IRTaskArray.mk taskFunction taskArgs
    let s := EmitterState.mk s.functions (s.code ++ [Instr.StartTasks tasks])
    EmitterState.mk s.functions (s.code ++ [Instr.WaitAll tasks])
  else
    EmitterState.mk s.functions (s.code ++ [Instr.For begin end_ increment capturedValues])

/-- Lines 28-29 of the `int` overload: `span = end - begin` and
`span > 0 ? (span - 1) / increment + 1 : 0`, in 32-bit `int` arithmetic. -/
def numIterationsInt (begin end_ increment : Int) : Int :=
  let span := sub32 end_ begin
  if span > 0 then add32 (div32 (sub32 span 1) increment) 1 else 0

/-- Lines 32-36 of the `int` overload: the options handed on to the second overload. -/
def newOptions (compilerSettings : CompilerOptions) (begin end_ increment : Int)
    (options : ParallelLoopOptions) : ParallelLoopOptions :=
  if options.numTasks = 0 then
    ParallelLoopOptions.mk (min (numIterationsInt begin end_ increment) compilerSettings.maxThreads)
  else options

/-- `IRParallelForLoopEmitter::EmitLoop(int begin, int end, int increment, options,
capturedValues, body)`. -/
def EmitLoopInt (compilerSettings : CompilerOptions) (begin end_ increment : Int)
    (options : ParallelLoopOptions) (capturedValues : List LLVMValue) (s : EmitterState) :
    EmitterState :=
  EmitLoop compilerSettings begin end_ increment
    (newOptions compilerSettings begin end_ increment options) capturedValues s

/-! ## Running the emitted code -/

/-- Modelled from the spec: `IRFunctionEmitter::For(begin, end, increment, body)` is not
among the sources; the contract says it iterates the scalar range `[start, stop)` by
`step`, i.e. `for (i = begin; i < end; i += increment) body(i)`.  The result is the list
of indices the body runs at, `none` when `fuel` iterations do not finish the loop. -/
def runFor : Nat → Int → Int → Int → Option (List Int)
  | 0, i, end_, _ => if i < end_ then none else some []
  | fuel + 1, i, end_, increment =>
    if i < end_ then (runFor fuel (i + increment) end_ increment).map (List.cons i)
    else some []

/-- Runs `f` on the elements of a list in order; `none` as soon as one run does not
finish. -/
def runAll {α β : Type} (f : α → Option β) : List α → Option (List β)
  | [] => some []
  | a :: as =>
    match f a, runAll f as with
    | some b, some bs => some (b :: bs)
    | _, _ => none

/-- One invocation of the loop body: the index and the captured values it receives. -/
abbrev Visit := Int × List LLVMValue

/-- Running the task function on one argument list: the loop of `GetTaskFunction` over
`(blockStart, blockEnd, increment)`, its body receiving the following
`numCapturedValues` arguments. -/
def runTask (fuel : Nat) (f : TaskFunction) : List LLVMValue → Option (List Visit)
  | blockStart :: blockEnd :: increment :: rest =>
    (runFor fuel blockStart.val blockEnd.val increment.val).map
      (List.map fun i => (i, rest.take f.numCapturedValues))
  | _ => none

/-- Modelled from the spec: `IRFunctionEmitter::StartTasks` is not among the sources; it
invokes the task function once per argument list.  The tasks write disjoint ranges, so
their order is not observable; they are run here in task-index order, task 0 first, as
the reference backend does.  The result has one list of visits per task. -/
def runTasks (fuel : Nat) (tasks : IRTaskArray) : Option (List (List Visit)) :=
  runAll (runTask fuel tasks.taskFunction) tasks.taskArgs

/-- The body invocations made by one emitted instruction: a loop runs its body, a
dispatch runs its tasks, and the wait (`IRTaskArray::WaitAll`, which only joins the
tasks) runs no body. -/
def runInstr (fuel : Nat) : Instr → Option (List Visit)
  | Instr.For begin end_ increment capturedValues =>
    (runFor fuel begin end_ increment).map (List.map fun i => (i, capturedValues))
  | Instr.StartTasks tasks => (runTasks fuel tasks).map List.flatten
  | Instr.WaitAll _ => some []

/-- The body invocations made by a sequence of emitted instructions. -/
def runCode (fuel : Nat) (code : List Instr) : Option (List Visit) :=
  (runAll (runInstr fuel) code).map List.flatten

/-- The instructions a call of `EmitLoop` appends to the calling function. -/
def emittedCode (compilerSettings : CompilerOptions) (begin end_ increment : Int)
    (options : ParallelLoopOptions) (capturedValues : List LLVMValue) : List Instr :=
  (EmitLoop compilerSettings begin end_ increment options capturedValues
    (EmitterState.mk [] [])).code

/-- The number of sequential loops among the instructions emitted into the calling
function. -/
def sequentialLoops (code : List Instr) : Nat :=
  (code.filter fun instr =>
    match instr with
    | Instr.For _ _ _ _ => true
    | _ => false).length

/-- The number of dispatch instructions (`StartTasks`) among the emitted instructions. -/
def dispatches (code : List Instr) : Nat :=
  (code.filter fun instr =>
    match instr with
    | Instr.StartTasks _ => true
    | _ => false).length

/-- The number of task invocations dispatched by the emitted instructions: one per
argument list handed to `StartTasks`. -/
def dispatchedTasks (code : List Instr) : Nat :=
  (code.map fun instr =>
    match instr with
    | Instr.StartTasks tasks => tasks.taskArgs.length
    | _ => 0).sum

/-- The array `a = [1..16]` of the sum-reduction scenario. -/
def scenarioArray : List Int := (List.range 16).map fun (k : Nat) => (k : Int) + 1

/-- The body `acc += a[i]` of the sum-reduction scenario, run over a list of visits with
the accumulator starting at `0`. -/
def accumulate (a : List Int) (visits : List Visit) : Int :=
  visits.foldl (fun acc v => acc + a.getD v.1.toNat 0) 0

/-- The iteration count of the spec, over the integers: `ceil((end - begin) / increment)`
for a positive span, written as the quotient `(span - 1) / increment + 1`, and zero for an
empty or negative span. -/
def iterationCount (begin end_ increment : Int) : Int :=
  let span := end_ - begin
  if span > 0 then (span - 1).tdiv increment + 1 else 0

/-- The index sequence the spec ascribes to the loop over `[begin, end)`: `begin`,
`begin + increment`, `begin + 2 * increment`, ... as long as the value is below `end`;
there are `ceil((end - begin) / increment)` of them (none for an empty span). -/
def sequentialIndices (begin end_ increment : Int) : List Int :=
  (List.range (iterationCount begin end_ increment).toNat).map
    fun (k : Nat) => begin + (k : Int) * increment

/-! ## The divisions -/

/-- Signed division of `int` values and of emitted `i32` values: the truncating 32-bit
quotient, and undefined (`none`) when the divisor is zero. -/
def checkedDiv (a b : Int) : Option Int :=
  if b = 0 then none else some (div32 a b)

/-- Lines 43-48 with the two divisions of the `IRLocalScalar` overload checked: the
`taskSize` it computes, `none` when a divisor is zero. -/
def taskSizeChecked (compilerSettings : CompilerOptions) (begin end_ increment : Int)
    (options : ParallelLoopOptions) : Option Int :=
  let numTasks := numTasks compilerSettings options
  let span := sub32 end_ begin
  (checkedDiv (sub32 span 1) increment).bind fun quotient =>
    let numIterations := add32 quotient 1
    (checkedDiv (sub32 numIterations 1) numTasks).map fun quotient => add32 quotient 1

/-- Lines 28-29 with the division of the `int` overload checked; the division is only
evaluated for a positive span. -/
def numIterationsIntChecked (begin end_ increment : Int) : Option Int :=
  let span := sub32 end_ begin
  if span > 0 then (checkedDiv (sub32 span 1) increment).map fun quotient => add32 quotient 1
  else some 0

/-- The `int` overload with all its divisions checked (lines 28-37, then lines 43-48 of the
overload it calls): the `taskSize` computed, `none` when a divisor is zero. -/
def taskSizeIntChecked (compilerSettings : CompilerOptions) (begin end_ increment : Int)
    (options : ParallelLoopOptions) : Option Int :=
  (numIterationsIntChecked begin end_ increment).bind fun numIterations =>
    let newOptions :=
      if options.numTasks = 0 then
        ParallelLoopOptions.mk (min numIterations compilerSettings.maxThreads)
      else options
    taskSizeChecked compilerSettings begin end_ increment newOptions

end Emitters

/-!
The value library (`Tensor.cpp`).

`Value`, `MemoryLayout`, `Scalar` and the `EmitterContext` operations are declared in
headers that are not among the sources; the parts of them that `Tensor.cpp` relies on are
modelled from the spec and marked so.  A value is a handle (an address into the memory of
the context, a base type and a layout); the immediate backend keeps the memory, one cell
per element.  The element arithmetic of a base type is a parameter `binaryOp`.
-/

namespace value

/-! ## Layouts and values -/

/-- The kinds of `InputException` thrown in `Tensor.cpp` and `Map.h`. -/
inductive InputExceptionErrors where
  | indexOutOfRange
  | invalidArgument
  | typeMismatch
deriving DecidableEq, Repr

/-- What an operation can raise: an `InputException`, the spec's `UndefinedValue` error
for an operation on an undefined value, or an access outside the storage of the context
(undefined behaviour of the C++ program). -/
inductive Exception where
  | InputException (error : InputExceptionErrors)
  | UndefinedValue
  | memoryFault
deriving DecidableEq, Repr

/-- Modelled from the spec: the base element type of a value, "boolean, integer classes,
floating-point classes"; `Undefined` is the type of a value without storage. -/
inductive ValueType where
  | Undefined
  | Boolean
  | Int32
  | Int64
  | Float
  | Double
deriving DecidableEq, Repr

/-- Modelled from the spec: `MemoryLayout` is not among the sources.  Per physical
dimension (outermost first) the active size, the extent (active size plus padding) and the
offset of the active part inside the extent; `dimensionOrder[i]` is the logical dimension
stored at physical position `i` (as line 102 of `Tensor.cpp` uses it). -/
structure MemoryLayout where
  size : List Int
  extent : List Int
  offset : List Int
  dimensionOrder : List Nat
deriving DecidableEq, Repr

/-- The layout of a scalar: no dimensions. -/
def ScalarLayout : MemoryLayout := MemoryLayout.mk [] [] [] []

/-- `MemoryLayout::NumDimensions`. -/
def MemoryLayout.NumDimensions (layout : MemoryLayout) : Nat := layout.size.length

/-- Modelled from the spec: `MemoryLayout::GetPhysicalDimension(logicalDimension)`, the
physical position at which a logical dimension is stored. -/
def MemoryLayout.GetPhysicalDimension (layout : MemoryLayout) (logicalDimension : Nat) : Nat :=
  layout.dimensionOrder.indexOf logicalDimension

/-- Modelled from the spec: `MemoryLayout::GetLogicalDimensionActiveSize(index)`, the
active size of a logical dimension. -/
def MemoryLayout.GetLogicalDimensionActiveSize (layout : MemoryLayout) (index : Nat) : Int :=
  layout.size.getD (layout.GetPhysicalDimension index) 0

/-- Modelled from the spec: `MemoryLayout::GetSliceLayout(dimension)` removes one physical
dimension; "slicing/reducing a layout must preserve the relative order of remaining axes":
the entries of the other dimensions stay in order, and the logical dimensions above the
removed one are renumbered one down. -/
def MemoryLayout.GetSliceLayout (layout : MemoryLayout) (dimension : Nat) : MemoryLayout :=
  let removed := layout.dimensionOrder.getD dimension 0
  MemoryLayout.mk (layout.size.eraseIdx dimension) (layout.extent.eraseIdx dimension)
    (layout.offset.eraseIdx dimension)
    ((layout.dimensionOrder.eraseIdx dimension).map fun (d : Nat) =>
      if removed < d then d - 1 else d)

/-- Modelled from the spec: the memory increment of each physical dimension, the product
of the extents of the dimensions inside it (row-major storage). -/
def cumulativeIncrement : List Int → List Int
  | [] => []
  | _ :: extents => extents.prod :: cumulativeIncrement extents

/-- The coordinates of an entry in physical order: position `i` holds the logical
coordinate of dimension `dimensionOrder[i]`. -/
def MemoryLayout.physicalCoordinates (layout : MemoryLayout) (logicalCoordinates : List Int) :
    List Int :=
  layout.dimensionOrder.map fun (d : Nat) => logicalCoordinates.getD d 0

/-- The sum of `(coordinate + offset) * increment` over the physical dimensions. -/
def entryOffset : List Int → List Int → List Int → Int
  | c :: coordinates, o :: offsets, i :: increments =>
    (c + o) * i + entryOffset coordinates offsets increments
  | _, _, _ => 0

/-- Modelled from the spec: `MemoryLayout::GetLogicalEntryOffset`, the distance in elements
from the start of the storage to the entry with the given logical coordinates. -/
def MemoryLayout.GetLogicalEntryOffset (layout : MemoryLayout) (logicalCoordinates : List Int) :
    Int :=
  entryOffset (layout.physicalCoordinates logicalCoordinates) layout.offset
    (cumulativeIncrement layout.extent)

/-- Whether every physical coordinate lies inside the extent of its dimension (in the
active part or in the padding). -/
def insideExtent : List Int → List Int → List Int → Bool
  | c :: coordinates, o :: offsets, e :: extents =>
    decide (0 ≤ c + o) && decide (c + o < e) && insideExtent coordinates offsets extents
  | _, _, _ => true

/-- Modelled from the spec: a `Value` is a handle: the address of its first element in the
memory of the context (`none` for an undefined value), its base type, and its layout
(`none` for an unconstrained value). -/
structure Value where
  data : Option Int
  baseType : ValueType
  layout : Option MemoryLayout
deriving DecidableEq, Repr

/-- `Value::IsDefined`. -/
def Value.IsDefined (v : Value) : Bool := v.data.isSome

/-- `Value::IsConstrained`. -/
def Value.IsConstrained (v : Value) : Bool := v.layout.isSome

/-- `Value::GetBaseType`. -/
def Value.GetBaseType (v : Value) : ValueType := v.baseType

/-- `Value::SetLayout`. -/
def Value.SetLayout (v : Value) (layout : MemoryLayout) : Value :=
  Value.mk v.data v.baseType (some layout)

/-- Modelled from the spec: `Offset(base, indices)` "computes an addressed sub-element;
fails if `indices` count does not match `base`'s dimensionality or the coordinate is out of
the active range (unless the request is for layout-valid padding)".  The result is the
handle moved to the addressed entry. -/
def Offset (begin : Value) (indices : List Int) : Except Exception Value :=
  match begin.data, begin.layout with
  | some address, some layout =>
    if indices.length ≠ layout.NumDimensions then
      Except.error (Exception.InputException InputExceptionErrors.invalidArgument)
    else if !insideExtent (layout.physicalCoordinates indices) layout.offset layout.extent then
      Except.error (Exception.InputException InputExceptionErrors.invalidArgument)
    else
      Except.ok (Value.mk (some (address + layout.GetLogicalEntryOffset indices))
        begin.baseType begin.layout)
  | _, _ => Except.error Exception.UndefinedValue

/-- The state of the immediate backend that `Tensor.cpp` acts on: the element storage, one
cell per element, and the names given to values (`_namedValues` of `ComputeContext`). -/
structure ComputeContext (α : Type) where
  memory : List α
  namedValues : List (Value × String)

/-- `ComputeContext::SetNameImpl`: records the name of a value. -/
def ComputeContext.SetName {α : Type} (context : ComputeContext α) (value : Value)
    (name : String) : ComputeContext α :=
  ComputeContext.mk context.memory ((value, name) :: context.namedValues)

/-! ## `Tensor` -/

/-- A `Tensor` wraps a `Value` (`_value`). -/
structure Tensor where
  _value : Value
deriving DecidableEq, Repr

/-- `Tensor::Tensor(Value value, const std::string& name)`: throws `invalidArgument` unless
the value is defined, constrained and three-dimensional, then sets the name if it is not
empty.  The operands of `||` are evaluated left to right, so the layout is only read of a
constrained value. -/
def Tensor.new {α : Type} (value : Value) (name : String) (context : ComputeContext α) :
    Except Exception Tensor × ComputeContext α :=
  if !value.IsDefined || !value.IsConstrained ||
      (match value.layout with
        | some layout => layout.NumDimensions != 3
        | none => true) then
    (Except.error (Exception.InputException InputExceptionErrors.invalidArgument), context)
  else if !name.isEmpty then
    (Except.ok (Tensor.mk value), context.SetName value name)
  else
    (Except.ok (Tensor.mk value), context)

/-- `Tensor::GetValue`. -/
def Tensor.GetValue (t : Tensor) : Value := t._value

/-- The layout of the wrapped value (`_value.GetLayout()`); the scalar layout stands for
the missing layout of an unconstrained value. -/
def Tensor.GetLayout (t : Tensor) : MemoryLayout := t._value.layout.getD ScalarLayout

/-- `static_cast<size_t>(x)` of an `int`: the value modulo `2^64`, which is `x` itself for
the sizes of a layout, as these are not negative. -/
def toSizeT (x : Int) : Nat := (x % 2 ^ 64).toNat

/-- `Tensor::Rows`: the active size of the logical dimension 0, as the integer that the
layout holds; the function returns it converted to `size_t` (`toSizeT`). -/
def Tensor.Rows (t : Tensor) : Int := t.GetLayout.GetLogicalDimensionActiveSize 0

/-- `Tensor::Columns`: as `Tensor::Rows`, for the logical dimension 1. -/
def Tensor.Columns (t : Tensor) : Int := t.GetLayout.GetLogicalDimensionActiveSize 1

/-- `Tensor::Channels`: as `Tensor::Rows`, for the logical dimension 2. -/
def Tensor.Channels (t : Tensor) : Int := t.GetLayout.GetLogicalDimensionActiveSize 2

/-- `Tensor::Type`. -/
def Tensor.Type_ (t : Tensor) : ValueType := t._value.GetBaseType

/-- `Tensor::operator()(rowIndex, columnIndex, channelIndex)`: the handle of one element. -/
def Tensor.operatorCall (t : Tensor) (rowIndex columnIndex channelIndex : Int) : Except Exception Value :=
  (Offset t._value [rowIndex, columnIndex, channelIndex]).map fun indexedValue =>
    indexedValue.SetLayout ScalarLayout

/-- `Matrix Tensor::Slice(Scalar row, Slice, Slice)`. -/
def Tensor.SliceRow (t : Tensor) (row : Int) : Except Exception Value :=
  (Offset t._value [row, 0, 0]).map fun indexedValue =>
    let currentLayout := t.GetLayout
    indexedValue.SetLayout (currentLayout.GetSliceLayout (currentLayout.GetPhysicalDimension 0))

/-- `Matrix Tensor::Slice(Slice, Scalar column, Slice)`. -/
def Tensor.SliceColumn (t : Tensor) (column : Int) : Except Exception Value :=
  (Offset t._value [0, column, 0]).map fun indexedValue =>
    let currentLayout := t.GetLayout
    indexedValue.SetLayout (currentLayout.GetSliceLayout (currentLayout.GetPhysicalDimension 1))

/-- `Matrix Tensor::Slice(Slice, Slice, Scalar channel)`. -/
def Tensor.SliceChannel (t : Tensor) (channel : Int) : Except Exception Value :=
  (Offset t._value [0, 0, channel]).map fun indexedValue =>
    let currentLayout := t.GetLayout
    indexedValue.SetLayout (currentLayout.GetSliceLayout (currentLayout.GetPhysicalDimension 2))

/-- `Vector Tensor::Slice(Scalar row, Scalar column, Slice)`. -/
def Tensor.SliceRowColumn (t : Tensor) (row column : Int) : Except Exception Value :=
  (Offset t._value [row, column, 0]).map fun indexedValue =>
    let currentLayout := t.GetLayout
    let newLayout := currentLayout.GetSliceLayout (currentLayout.GetPhysicalDimension 0)
    let newLayout := newLayout.GetSliceLayout (newLayout.GetPhysicalDimension 0)
    indexedValue.SetLayout newLayout

/-- `Vector Tensor::Slice(Scalar row, Slice, Scalar channel)`. -/
def Tensor.SliceRowChannel (t : Tensor) (row channel : Int) : Except Exception Value :=
  (Offset t._value [row, 0, channel]).map fun indexedValue =>
    let currentLayout := t.GetLayout
    let newLayout := currentLayout.GetSliceLayout (currentLayout.GetPhysicalDimension 0)
    let newLayout := newLayout.GetSliceLayout (newLayout.GetPhysicalDimension 1)
    indexedValue.SetLayout newLayout

/-- `Vector Tensor::Slice(Slice, Scalar column, Scalar channel)`. -/
def Tensor.SliceColumnChannel (t : Tensor) (column channel : Int) : Except Exception Value :=
  (Offset t._value [0, column, channel]).map fun indexedValue =>
    let currentLayout := t.GetLayout
    let newLayout := currentLayout.GetSliceLayout (currentLayout.GetPhysicalDimension 1)
    let newLayout := newLayout.GetSliceLayout (newLayout.GetPhysicalDimension 1)
    indexedValue.SetLayout newLayout

/-! ## Element storage and the element-wise operators -/

/-- The arithmetic operators of `ValueBinaryOperation` used by `Tensor.cpp`. -/
inductive ValueBinaryOperation where
  | add
  | subtract
  | multiply
  | divide
deriving DecidableEq, Repr

/-- Reads the element stored at an address; `none` outside the storage. -/
def ComputeContext.read {α : Type} (context : ComputeContext α) (address : Int) : Option α :=
  if 0 ≤ address then context.memory[address.toNat]? else none

/-- Stores an element at an address; `none` outside the storage. -/
def ComputeContext.write {α : Type} (context : ComputeContext α) (address : Int) (x : α) :
    Option (ComputeContext α) :=
  if 0 ≤ address ∧ address.toNat < context.memory.length then
    some (ComputeContext.mk (context.memory.set address.toNat x) context.namedValues)
  else none

/-- Runs `fn` on the entries of a list in order and stops at the first exception. -/
def forEach {σ β : Type} (fn : β → σ → Except Exception Unit × σ) :
    List β → σ → Except Exception Unit × σ
  | [], s => (Except.ok (), s)
  | b :: rest, s =>
    match fn b s with
    | (Except.ok _, s') => forEach fn rest s'
    | (Except.error e, s') => (Except.error e, s')

/-- The physical coordinates of the active entries of a three-dimensional layout in
row-major order: the outermost physical dimension varies slowest. -/
def MemoryLayout.physicalEntries (layout : MemoryLayout) : List (List Int) :=
  (List.product (List.range (layout.size.getD 0 0).toNat)
    (List.product (List.range (layout.size.getD 1 0).toNat)
      (List.range (layout.size.getD 2 0).toNat))).map
    fun (p : Nat × Nat × Nat) => [(p.1 : Int), (p.2.1 : Int), (p.2.2 : Int)]

/-- The logical coordinates of an entry given by its physical coordinates. -/
def MemoryLayout.logicalCoordinates (layout : MemoryLayout) (physical : List Int) : List Int :=
  (List.range layout.NumDimensions).map fun (d : Nat) =>
    physical.getD (layout.GetPhysicalDimension d) 0

/-- Modelled from the spec: `For(tensor, fn)` is not among the sources; the contract says
it "iterates every coordinate of a layout in row-major (physical) order" and "must visit
each coordinate exactly once".  `fn` receives the logical coordinates
`(row, column, channel)`. -/
def Tensor.For {σ : Type} (t : Tensor)
    (fn : Int → Int → Int → σ → Except Exception Unit × σ) (s : σ) :
    Except Exception Unit × σ :=
  match t._value.layout with
  | none => (Except.error Exception.UndefinedValue, s)
  | some layout =>
    forEach (fun (coordinates : List Int) =>
        fn (coordinates.getD 0 0) (coordinates.getD 1 0) (coordinates.getD 2 0))
      (layout.physicalEntries.map layout.logicalCoordinates) s

/-- Modelled from the spec: `Scalar::operator+=` (and `-=`, `*=`, `/=`) is not among the
sources; a binary operation combines the element of the destination with the element of
the source and stores the result in the destination, and "operand type mismatch fails
with a type error".  Both scalars are handles: their elements are read from the storage
when the operation runs. -/
def Scalar.operatorAssign {α : Type} (binaryOp : ValueBinaryOperation → α → α → α)
    (op : ValueBinaryOperation) (destination source : Value) (context : ComputeContext α) :
    Except Exception Unit × ComputeContext α :=
  if source.GetBaseType ≠ destination.GetBaseType then
    (Except.error (Exception.InputException InputExceptionErrors.typeMismatch), context)
  else
    match destination.data, source.data with
    | some d, some a =>
      match context.read d, context.read a with
      | some x, some y =>
        match context.write d (binaryOp op x y) with
        | some context' => (Except.ok (), context')
        | none => (Except.error Exception.memoryFault, context)
      | _, _ => (Except.error Exception.memoryFault, context)
    | _, _ => (Except.error Exception.UndefinedValue, context)

/-- `Tensor::operator+=(Scalar s)`, `operator-=`, `operator*=` and `operator/=`: the four
bodies differ only in the operator applied to the element, here `op`.  Returns `*this`. -/
def Tensor.operatorAssign {α : Type} (binaryOp : ValueBinaryOperation → α → α → α)
    (op : ValueBinaryOperation) (t : Tensor) (s : Value) (context : ComputeContext α) :
    Except Exception Tensor × ComputeContext α :=
  if s.GetBaseType ≠ t.Type_ then
    (Except.error (Exception.InputException InputExceptionErrors.typeMismatch), context)
  else
    match t.For (fun row column channel context =>
        match t.operatorCall row column channel with
        | Except.ok element => Scalar.operatorAssign binaryOp op element s context
        | Except.error e => (Except.error e, context)) context with
    | (Except.ok _, context') => (Except.ok t, context')
    | (Except.error e, context') => (Except.error e, context')

/-- The number of elements of the storage of a layout: the product of the extents. -/
def MemoryLayout.GetMemorySize (layout : MemoryLayout) : Int := layout.extent.prod

/-- Modelled from the spec: `Allocate(type, layout)` "reserves new storage; fails with an
allocation error if layout is degenerate (zero dimensions)".  The new storage follows the
storage in use; `zero` is the content of a fresh element. -/
def Allocate {α : Type} (zero : α) (type : ValueType) (layout : MemoryLayout)
    (context : ComputeContext α) : Except Exception Value × ComputeContext α :=
  if layout.NumDimensions = 0 then
    (Except.error (Exception.InputException InputExceptionErrors.invalidArgument), context)
  else
    (Except.ok (Value.mk (some (context.memory.length : Int)) type (some layout)),
      ComputeContext.mk
        (context.memory ++ List.replicate layout.GetMemorySize.toNat zero)
        context.namedValues)

/-- Modelled from the spec: the assignment `newValue = _value` to a value that has storage
is the copy operation, an "element-wise transfer honoring each side's layout"; it
requires both sides to have the same element type and active sizes. -/
def CopyData {α : Type} (source destination : Value) (context : ComputeContext α) :
    Except Exception Unit × ComputeContext α :=
  match source.layout, destination.layout with
  | some sourceLayout, some destinationLayout =>
    if source.GetBaseType ≠ destination.GetBaseType ∨
        (List.range sourceLayout.NumDimensions).map sourceLayout.GetLogicalDimensionActiveSize
          ≠ (List.range destinationLayout.NumDimensions).map
              destinationLayout.GetLogicalDimensionActiveSize then
      (Except.error (Exception.InputException InputExceptionErrors.typeMismatch), context)
    else
      forEach (fun (coordinates : List Int) (context : ComputeContext α) =>
          match Offset source coordinates, Offset destination coordinates with
          | Except.ok sourceElement, Except.ok destinationElement =>
            match sourceElement.data.bind context.read with
            | some x =>
              match destinationElement.data.bind fun d => context.write d x with
              | some context' => (Except.ok (), context')
              | none => (Except.error Exception.memoryFault, context)
            | none => (Except.error Exception.memoryFault, context)
          | Except.error e, _ => (Except.error e, context)
          | _, Except.error e => (Except.error e, context))
        (destinationLayout.physicalEntries.map destinationLayout.logicalCoordinates) context
  | _, _ => (Except.error Exception.UndefinedValue, context)

/-- `Tensor::Copy`: allocates a value of the same base type and layout, assigns the
tensor's value to it, and returns it as a tensor (through `Tensor::Tensor(Value)` with an
empty name). -/
def Tensor.Copy {α : Type} (zero : α) (t : Tensor) (context : ComputeContext α) :
    Except Exception Tensor × ComputeContext α :=
  match t._value.layout with
  | none => (Except.error Exception.UndefinedValue, context)
  | some layout =>
    match Allocate zero t._value.GetBaseType layout context with
    | (Except.error e, context) => (Except.error e, context)
    | (Except.ok newValue, context) =>
      match CopyData t._value newValue context with
      | (Except.error e, context) => (Except.error e, context)
      | (Except.ok _, context) => Tensor.new newValue "" context

/-- The free operators `operator+(Tensor t, Scalar s)`, `operator-`, `operator*` and
`operator/`: `Tensor copy = t.Copy(); return copy op= s;`. -/
def Tensor.operatorBinary {α : Type} (zero : α) (binaryOp : ValueBinaryOperation → α → α → α)
    (op : ValueBinaryOperation) (t : Tensor) (s : Value) (context : ComputeContext α) :
    Except Exception Tensor × ComputeContext α :=
  match t.Copy zero context with
  | (Except.error e, context) => (Except.error e, context)
  | (Except.ok copy, context) => copy.operatorAssign binaryOp op s context

/-- `Tensor::SubTensor(row, column, channel, numRows, numColumns, numChannels)` (lines
83-108): the bounds check on the three counts, the handle of the first element, and the new
layout with `physicalDimensions[index] = logicalDimensions[dimensionOrder[index]]`, the
extent of the current layout, offset `{ 0, 0, 0 }` and the current dimension order.  The
value is returned as a tensor through `Tensor::Tensor(Value)` with an empty name.  Reading
the layout of a value that has none is an operation on an undefined value. -/
def Tensor.SubTensor {α : Type} (t : Tensor)
    (row column channel numRows numColumns numChannels : Int) (context : ComputeContext α) :
    Except Exception Tensor × ComputeContext α :=
  match t._value.layout with
  | none => (Except.error Exception.UndefinedValue, context)
  | some currentLayout =>
    if numRows > currentLayout.GetLogicalDimensionActiveSize 0 ∨
        numColumns > currentLayout.GetLogicalDimensionActiveSize 1 ∨
        numChannels > currentLayout.GetLogicalDimensionActiveSize 2 then
      (Except.error (Exception.InputException InputExceptionErrors.indexOutOfRange), context)
    else
      match Offset t._value [row, column, channel] with
      | Except.error e => (Except.error e, context)
      | Except.ok indexedValue =>
        let dimensionOrder := currentLayout.dimensionOrder
        let logicalDimensions := [numRows, numColumns, numChannels]
        let physicalDimensions := (List.range 3).map fun (index : Nat) =>
          logicalDimensions.getD (dimensionOrder.getD index 0) 0
        let newLayout :=
          MemoryLayout.mk physicalDimensions currentLayout.extent [0, 0, 0] dimensionOrder
        Tensor.new (indexedValue.SetLayout newLayout) "" context

/-- The element `t(row, column, channel)` as stored in a context: the element at the
address that `Tensor::operator()` yields. -/
def Tensor.get {α : Type} (t : Tensor) (context : ComputeContext α)
    (row column channel : Int) : Option α :=
  match t.operatorCall row column channel with
  | Except.ok element => element.data.bind context.read
  | Except.error _ => none

/-- The address of the element `t(row, column, channel)`, if `Tensor::operator()` yields
one. -/
def Tensor.elementAddress (t : Tensor) (row column channel : Int) : Option Int :=
  match t.operatorCall row column channel with
  | Except.ok element => element.data
  | Except.error _ => none

/-- Whether the active part of every dimension lies inside its extent: sizes and offsets
are not negative and `offset + size ≤ extent`. -/
def activeInsideExtent : List Int → List Int → List Int → Bool
  | s :: sizes, o :: offsets, e :: extents =>
    decide (0 ≤ s) && decide (0 ≤ o) && decide (o + s ≤ e) &&
      activeInsideExtent sizes offsets extents
  | _, _, _ => true

/-- A tensor as the constructor and `Allocate` produce it: its value is defined and has a
three-dimensional layout whose dimension order is a permutation, the active part of each
dimension lies inside the extent, and its storage lies inside the memory of the context
(of `memoryLength` elements). -/
def Tensor.WellFormed (t : Tensor) (memoryLength : Nat) : Prop :=
  ∃ (base : Int) (layout : MemoryLayout),
    t._value.data = some base ∧ t._value.layout = some layout ∧
    layout.size.length = 3 ∧ layout.extent.length = 3 ∧ layout.offset.length = 3 ∧
    layout.dimensionOrder.Perm [0, 1, 2] ∧
    activeInsideExtent layout.size layout.offset layout.extent = true ∧
    0 ≤ base ∧ base + layout.GetMemorySize ≤ memoryLength

/-- The active coordinates of a tensor: `r < Rows()`, `c < Columns()`, `ch < Channels()`. -/
def Tensor.IsActive (t : Tensor) (row column channel : Int) : Prop :=
  (0 ≤ row ∧ row < t.Rows) ∧ (0 ≤ column ∧ column < t.Columns) ∧
    (0 ≤ channel ∧ channel < t.Channels)

/-- The coordinates `(row, column, channel)` at which `For(tensor, fn)` calls `fn`, in the
order of the calls. -/
def Tensor.visited (t : Tensor) : List (List Int) :=
  t.GetLayout.physicalEntries.map t.GetLayout.logicalCoordinates

/-- Integer element arithmetic, for the examples: `/` truncates as in C++. -/
def intBinaryOp : ValueBinaryOperation → Int → Int → Int
  | ValueBinaryOperation.add, x, y => x + y
  | ValueBinaryOperation.subtract, x, y => x - y
  | ValueBinaryOperation.multiply, x, y => x * y
  | ValueBinaryOperation.divide, x, y => x.tdiv y

/-- Example storage: the scalar `5` at address 0, followed by the elements `1, 2, 3, 4` of
a tensor. -/
def exampleContext : ComputeContext Int := ComputeContext.mk [5, 1, 2, 3, 4] []

/-- Example scalar: the `Int32` stored at address 0. -/
def exampleScalar : Value := Value.mk (some 0) ValueType.Int32 (some ScalarLayout)

/-- Example tensor: 1 row, 2 columns, 2 channels of `Int32` in canonical order, stored
from address 1 on. -/
def exampleTensor : Tensor :=
  Tensor.mk (Value.mk (some 1) ValueType.Int32
    (some (MemoryLayout.mk [1, 2, 2] [1, 2, 2] [0, 0, 0] [0, 1, 2])))

/-- The scalar `exampleTensor(0, 0, 0)` that the non-const `Tensor::operator()` returns: a
handle to the first element of the tensor. -/
def aliasingScalar : Value := Value.mk (some 1) ValueType.Int32 (some ScalarLayout)

/-- Example tensor with channels outermost: dimension order `(2, 0, 1)`, so 2 channels, 3
rows and 4 columns are stored as physical sizes `2, 3, 4`, from address 0 on. -/
def channelMajorTensor : Tensor :=
  Tensor.mk (Value.mk (some 0) ValueType.Int32
    (some (MemoryLayout.mk [2, 3, 4] [2, 3, 4] [0, 0, 0] [2, 0, 1])))

end value

/-!
The map (`Map.h`).

`Map.h` holds the templates `Map::Compute`, `Map::SetInputValue`, `Map::ComputeOutput` and
`MapImpl::FromDouble`.  What they call and is not among the sources (the input nodes, the
output ports, the virtual `ComputeXxxOutput` members of `Map.cpp`, `ContextGuard`) is
either a parameter or modelled and marked so.  The state is the map together with the
active context of the value library.
-/

namespace model

/-! ## Numbers -/

/-- A `double`: a finite value (an exact rational), an infinity, or a NaN. -/
inductive Double where
  | finite (q : ℚ)
  | posInf
  | negInf
  | nan
deriving DecidableEq

/-- The C++ types a map input or output can have. -/
inductive ElementType where
  | bool
  | int
  | int64
  | float
  | double
deriving DecidableEq, Repr

/-- An element of one of the five types; `float x` is the `double` `x` converted to
`float`. -/
inductive Element where
  | bool (b : Bool)
  | int (i : Int)
  | int64 (i : Int)
  | float (x : Double)
  | double (x : Double)
deriving DecidableEq

/-- `x != 0` on `double`: false exactly for zero; a NaN compares unequal to everything. -/
def Double.neZero : Double → Bool
  | Double.finite q => decide (q ≠ 0)
  | _ => true

/-- The `static_cast` of a `double` to a signed integer type with values in
`[-2^(w-1), 2^(w-1))`: the fractional part is discarded (truncation toward zero); the
behaviour is undefined (`none`) when the truncated value is not representable. -/
def Double.toInteger (w : Nat) : Double → Option Int
  | Double.finite q =>
    if -(2 : Int) ^ (w - 1) ≤ q.num.tdiv q.den ∧ q.num.tdiv q.den < (2 : Int) ^ (w - 1) then
      some (q.num.tdiv q.den)
    else none
  | _ => none

/-- `MapImpl::FromDouble<T>(double x)`: `static_cast<T>(x)`, and `x != 0` for `bool`. -/
def FromDouble : ElementType → Double → Option Element
  | ElementType.bool, x => some (Element.bool x.neZero)
  | ElementType.int, x => (x.toInteger 32).map Element.int
  | ElementType.int64, x => (x.toInteger 64).map Element.int64
  | ElementType.float, x => some (Element.float x)
  | ElementType.double, x => some (Element.double x)

/-! ## The map -/

/-- `Port::PortType`; `invalid` stands for any other value of the enumeration type. -/
inductive PortType where
  | none
  | smallReal
  | real
  | integer
  | bigInt
  | categorical
  | boolean
  | invalid (value : Nat)
deriving DecidableEq, Repr

/-- The port type of each element type, as the `switch` statements of `Map.h` pair them. -/
def GetPortType : ElementType → PortType
  | ElementType.bool => PortType.boolean
  | ElementType.int => PortType.integer
  | ElementType.int64 => PortType.bigInt
  | ElementType.float => PortType.smallReal
  | ElementType.double => PortType.real

/-- What the functions raise: an `InputException` or anything else (an exception of a
callee that is not among the sources, or undefined behaviour). -/
inductive Exception where
  | InputException (error : value.InputExceptionErrors)
  | other (what : String)
deriving DecidableEq, Repr

/-- An input node: the type and the size of its output port, and the input values last
set on it.  The node is an `InputNode<T>` exactly when its port type is that of `T`. -/
structure InputNodeBase where
  portType : PortType
  size : Nat
  input : List Element
deriving DecidableEq

/-- An output of the map (`OutputPortBase`, also as `PortElementsBase`): its port type and
an identifier. -/
structure PortElementsBase where
  portType : PortType
  id : Nat
deriving DecidableEq, Repr

/-- The map: its input nodes, its named outputs and the identity of its
`_computeContext`. -/
structure Map where
  inputNodes : List InputNodeBase
  outputs : List (String × PortElementsBase)
  computeContext : Nat
deriving DecidableEq

/-- The state the functions act on: the map and the active context of the value library
(`none` when no context is set). -/
structure World where
  map : Map
  activeContext : Option Nat
deriving DecidableEq

/-- `Map::GetOutput(size_t index)`; indexing past the outputs is undefined. -/
def Map.GetOutput (map : Map) (index : Nat) : Except Exception PortElementsBase :=
  match map.outputs[index]? with
  | some output => Except.ok output.2
  | none => Except.error (Exception.other "GetOutput: index out of range")

/-- `Map::GetOutput(const std::string& outputName)`. -/
def Map.GetOutputByName (map : Map) (outputName : String) :
    Except Exception PortElementsBase :=
  match map.outputs.find? (fun output => output.1 == outputName) with
  | some output => Except.ok output.2
  | none => Except.error (Exception.other "GetOutput: unknown output")

/-- `Map::SetNodeInput(node, inputValues)`: sets the input of the node ("the values to set
on the input node"); the node is given by its position. -/
def SetNodeInput (index : Nat) (inputValues : List Element) (w : World) : World :=
  World.mk
    (Map.mk
      (w.map.inputNodes.modify (fun node => InputNodeBase.mk node.portType node.size inputValues)
        index)
      w.map.outputs w.map.computeContext)
    w.activeContext

/-- The `ComputeOutput<ValueType>(const PortElementsBase&)` of `Map.cpp`, which runs the
model: a parameter of the functions below. -/
abbrev ComputeFunction :=
  ElementType → PortElementsBase → World → Except Exception (List Element) × World

/-- Modelled from the spec: `value::ContextGuard<> guard(context)` at the start of a block:
"use this Context for the following block, then restore the previous one", "on every exit
path, including error exits".  The guard saves the active context, installs `context`,
and its destructor puts the saved one back when the block is left, by return or by
exception. -/
def withContextGuard {β : Type} (context : Nat) (block : World → Except Exception β × World)
    (w : World) : Except Exception β × World :=
  let oldContext := w.activeContext
  let result := block (World.mk w.map (some context))
  (result.1, World.mk result.2.map oldContext)

/-- `Map::ComputeOutput<OutputDataVectorType, ElementsValueType>(elements)` (lines
627-635); the data vector returned holds the elements of `resultVector`. -/
def ComputeOutput_typed (compute : ComputeFunction) (elementsValueType : ElementType)
    (elements : PortElementsBase) (w : World) : Except Exception (List Element) × World :=
  withContextGuard w.map.computeContext (fun w => compute elementsValueType elements w) w

/-- `Map::ComputeOutput<DataVectorType>(const PortElementsBase& elements)` (lines
637-668): the `switch` on the port type, under the guard. -/
def ComputeOutput_elements (compute : ComputeFunction) (elements : PortElementsBase)
    (w : World) : Except Exception (List Element) × World :=
  withContextGuard w.map.computeContext (fun w =>
    match elements.portType with
    | PortType.none =>
      (Except.error (Exception.InputException value.InputExceptionErrors.invalidArgument), w)
    | PortType.smallReal => ComputeOutput_typed compute ElementType.float elements w
    | PortType.real => ComputeOutput_typed compute ElementType.double elements w
    | PortType.integer => ComputeOutput_typed compute ElementType.int elements w
    | PortType.bigInt => ComputeOutput_typed compute ElementType.int64 elements w
    | PortType.categorical =>
      (Except.error (Exception.InputException value.InputExceptionErrors.invalidArgument), w)
    | PortType.boolean => ComputeOutput_typed compute ElementType.bool elements w
    | PortType.invalid _ =>
      (Except.error (Exception.InputException value.InputExceptionErrors.invalidArgument), w))
    w

/-- `Map::ComputeOutput<ValueType>(int index)` (lines 671-677). -/
def ComputeOutput_index (compute : ComputeFunction) (valueType : ElementType) (index : Nat)
    (w : World) : Except Exception (List Element) × World :=
  withContextGuard w.map.computeContext (fun w =>
    match w.map.GetOutput index with
    | Except.ok elements => compute valueType elements w
    | Except.error e => (Except.error e, w)) w

/-- `Map::ComputeOutput<DataVectorType>(int index)` (lines 679-685). -/
def ComputeOutput_dataVector_index (compute : ComputeFunction) (index : Nat) (w : World) :
    Except Exception (List Element) × World :=
  withContextGuard w.map.computeContext (fun w =>
    match w.map.GetOutput index with
    | Except.ok elements => ComputeOutput_elements compute elements w
    | Except.error e => (Except.error e, w)) w

/-- `Map::ComputeOutput<ValueType>(const std::string& outputName)` (lines 688-694). -/
def ComputeOutput_name (compute : ComputeFunction) (valueType : ElementType)
    (outputName : String) (w : World) : Except Exception (List Element) × World :=
  withContextGuard w.map.computeContext (fun w =>
    match w.map.GetOutputByName outputName with
    | Except.ok elements => compute valueType elements w
    | Except.error e => (Except.error e, w)) w

/-- `Map::ComputeOutput<DataVectorType>(const std::string& outputName)` (lines 696-702). -/
def ComputeOutput_dataVector_name (compute : ComputeFunction) (outputName : String)
    (w : World) : Except Exception (List Element) × World :=
  withContextGuard w.map.computeContext (fun w =>
    match w.map.GetOutputByName outputName with
    | Except.ok elements => ComputeOutput_elements compute elements w
    | Except.error e => (Except.error e, w)) w

/-- A map with one input node of two `double` values and one `double` output. -/
def exampleWorld : World :=
  World.mk
    (Map.mk [InputNodeBase.mk PortType.real 2 []]
      [("output", PortElementsBase.mk PortType.real 0)] 7)
    none

/-- The integer nearest to a rational, the even one of two nearest (the IEEE 754 default
rounding, round to nearest, ties to even). -/
def roundHalfEven (x : ℚ) : Int :=
  if x - ⌊x⌋ < 1 / 2 then ⌊x⌋
  else if 1 / 2 < x - ⌊x⌋ then ⌊x⌋ + 1
  else if ⌊x⌋ % 2 = 0 then ⌊x⌋
  else ⌊x⌋ + 1

/-- The exponent of the last place of the binary64 numbers around a positive rational `q`:
53 significant bits, and `-1074` in the subnormal range. -/
def lastPlace (q : ℚ) : Int := max (Int.log 2 q - 52) (-1074)

/-- The binary64 number nearest to a positive rational: `q` is rounded to a multiple of
`2 ^ lastPlace q`; a result of `2 ^ 1024` or more overflows to infinity. -/
def roundPositive (q : ℚ) : Double :=
  if (2 : ℚ) ^ (1024 : Nat)
      ≤ (roundHalfEven (q / (2 : ℚ) ^ lastPlace q) : ℚ) * (2 : ℚ) ^ lastPlace q then
    Double.posInf
  else Double.finite ((roundHalfEven (q / (2 : ℚ) ^ lastPlace q) : ℚ) * (2 : ℚ) ^ lastPlace q)

/-- The negation of a `double`. -/
def Double.neg : Double → Double
  | Double.finite q => Double.finite (-q)
  | Double.posInf => Double.negInf
  | Double.negInf => Double.posInf
  | Double.nan => Double.nan

/-- The `double` nearest to a rational number (signed zeros are not distinguished). -/
def Double.ofRat (q : ℚ) : Double :=
  if q = 0 then Double.finite 0
  else if 0 < q then roundPositive q
  else (roundPositive (-q)).neg

/-- The conversion of a `size_t` to `double`. -/
def Double.ofNat (n : Nat) : Double := Double.ofRat n

/-- The quotient `x / y` of two `double` values: the exact quotient rounded to the nearest
`double`, with the IEEE 754 results for zero divisors, infinities and NaN. -/
def Double.div : Double → Double → Double
  | Double.finite a, Double.finite b =>
    if b = 0 then
      if a = 0 then Double.nan else if 0 < a then Double.posInf else Double.negInf
    else Double.ofRat (a / b)
  | Double.finite _, Double.posInf => Double.finite 0
  | Double.finite _, Double.negInf => Double.finite 0
  | Double.posInf, Double.finite b => if 0 ≤ b then Double.posInf else Double.negInf
  | Double.negInf, Double.finite b => if 0 ≤ b then Double.negInf else Double.posInf
  | _, _ => Double.nan

end model

/-!
The retarget trainer (`tools/trainers/retargetTrainer/src/main.cpp`).

`CreateDatasetsForOneVersusRest` and `GetRetargetedModel` are among the sources; the
dataset, predictor and node libraries they call are not.  A dataset is the list of its
examples, an example a shared data vector (a value of a type `δ`, the same value for every
example that shares it) with its metadata.  `size_t` values are natural numbers: the counts
grow by one per example and `totalCount - classCounts[i]` subtracts a count that is at most
the total, so nothing wraps for a dataset of fewer than `2^64` examples.  `double`
arithmetic rounds as in IEEE 754 (`Double.div`).
-/

namespace retargetTrainer

open model

/-! ## Datasets -/

/-- The metadata of a multi-class example (`ClassIndexWeight`). -/
structure ClassIndexWeight where
  weight : Double
  classIndex : Nat
deriving DecidableEq

/-- The metadata of a binary example: `data::WeightLabel{ weight, label }`. -/
structure WeightLabel where
  weight : Double
  label : Double
deriving DecidableEq

/-- An example: the shared pointer to its data vector, and its metadata. -/
structure Example (δ μ : Type) where
  dataVector : δ
  metadata : μ
deriving DecidableEq

/-- `data::AutoSupervisedMultiClassDataset`. -/
abbrev AutoSupervisedMultiClassDataset (δ : Type) := List (Example δ ClassIndexWeight)

/-- `data::AutoSupervisedDataset`. -/
abbrev AutoSupervisedDataset (δ : Type) := List (Example δ WeightLabel)

/-- A `std::map<size_t, size_t>`: its entries, with distinct keys.  Only the number of
entries and the values of keys are read, so the entries are kept in insertion order. -/
abbrev ClassCounts := List (Nat × Nat)

/-- `classCounts[key]`: the value of the key; a key that is absent is inserted with the
value `0`. -/
def ClassCounts.subscript (classCounts : ClassCounts) (key : Nat) : Nat × ClassCounts :=
  match classCounts.lookup key with
  | some count => (count, classCounts)
  | none => (0, classCounts ++ [(key, 0)])

/-- `classCounts[key] += 1` (line 233). -/
def ClassCounts.increment : ClassCounts → Nat → ClassCounts
  | [], key => [(key, 1)]
  | (k, count) :: rest, key =>
    if k = key then (k, count + 1) :: rest
    else (k, count) :: ClassCounts.increment rest key

/-- Lines 227-234: the statistics of the multi-class dataset. -/
def countClasses {δ : Type} (multiclassDataset : AutoSupervisedMultiClassDataset δ) :
    ClassCounts :=
  multiclassDataset.foldl
    (fun classCounts example_ => classCounts.increment example_.metadata.classIndex) []

/-- Lines 250-261: `multiclassDataset.Transform<data::AutoSupervisedExample>(...)` with the
lambda of the source.  `Dataset::Transform` is not among the sources; it builds the new
dataset by applying the function to every example, in order.  The lambda keeps the shared
data vector and sets weight and label by the class. -/
def binaryDataset {δ : Type} (i : Nat) (weightPositiveCase weightNegativeCase : Double)
    (multiclassDataset : AutoSupervisedMultiClassDataset δ) : AutoSupervisedDataset δ :=
  multiclassDataset.map fun example_ =>
    if example_.metadata.classIndex = i then
      Example.mk example_.dataVector (WeightLabel.mk weightPositiveCase (Double.finite 1))
    else
      Example.mk example_.dataVector (WeightLabel.mk weightNegativeCase (Double.finite (-1)))

/-- Lines 248-249: `1.0 / (count ? count : 1.0)`; the count is converted to `double`. -/
def caseWeight (count : Nat) : Double :=
  Double.div (Double.finite 1) (if count ≠ 0 then Double.ofNat count else Double.finite 1)

/-- Lines 240-262: the loop over `i = 0 .. numClasses - 1`, here over the list of the
indices still to do; `classCounts` is the map as the reads of `classCounts[i]` leave it. -/
def createDatasets {δ : Type} (multiclassDataset : AutoSupervisedMultiClassDataset δ)
    (totalCount : Nat) : List Nat → ClassCounts → List (AutoSupervisedDataset δ)
  | [], _ => []
  | i :: rest, classCounts =>
    let (positiveCount, classCounts) := classCounts.subscript i
    let (count, classCounts) := classCounts.subscript i
    let negativeCount := totalCount - count
    let weightPositiveCase := caseWeight positiveCount
    let weightNegativeCase := caseWeight negativeCount
    binaryDataset i weightPositiveCase weightNegativeCase multiclassDataset
      :: createDatasets multiclassDataset totalCount rest classCounts

/-- `CreateDatasetsForOneVersusRest(multiclassDataset)` (lines 222-265). -/
def CreateDatasetsForOneVersusRest {δ : Type}
    (multiclassDataset : AutoSupervisedMultiClassDataset δ) :
    List (AutoSupervisedDataset δ) :=
  let classCounts := countClasses multiclassDataset
  let numClasses := classCounts.length
  let totalCount := multiclassDataset.length
  createDatasets multiclassDataset totalCount (List.range numClasses) classCounts

/-- The number of examples of a class in a multi-class dataset. -/
def classCount {δ : Type} (multiclassDataset : AutoSupervisedMultiClassDataset δ) (i : Nat) :
    Nat :=
  multiclassDataset.countP fun example_ => example_.metadata.classIndex = i

/-- The class indices that occur in a multi-class dataset. -/
def classIndices {δ : Type} (multiclassDataset : AutoSupervisedMultiClassDataset δ) :
    Finset Nat :=
  (multiclassDataset.map fun example_ => example_.metadata.classIndex).toFinset

/-- A multi-class example of the examples: data vector `dataVector`, weight `1`. -/
def multiClassExample (dataVector classIndex : Nat) : Example Nat ClassIndexWeight :=
  Example.mk dataVector (ClassIndexWeight.mk (Double.finite 1) classIndex)

/-- Example dataset: three examples of class 0 and one of class 1. -/
def threeToOne : AutoSupervisedMultiClassDataset Nat :=
  [multiClassExample 10 0, multiClassExample 11 1, multiClassExample 12 0,
    multiClassExample 13 0]

/-- Example dataset with the class indices 0 and 5. -/
def sparseClasses : AutoSupervisedMultiClassDataset Nat :=
  [multiClassExample 10 0, multiClassExample 11 5]

/-! ## `GetRetargetedModel` -/

/-- `PredictorType`, `predictors::LinearPredictor<double>`: its weights and its bias. -/
structure LinearPredictor where
  weights : List Double
  bias : Double
deriving DecidableEq

/-- The calls into the predictor, node and model libraries, which are not among the
sources, as parameters: `predictor.Resize(dimension)`; the output port
`model::Output(nodes::Sink(nodes::LinearPredictor(mapOutput, predictor)))` of the nodes
appended for an element type; `Size()` of an output; and the constructor
`model::Map(model, inputs, outputs)`. -/
structure Library where
  Resize : LinearPredictor → Nat → LinearPredictor
  LinearPredictorNodes : ElementType → PortElementsBase → LinearPredictor → PortElementsBase
  Size : PortElementsBase → Nat
  MakeMap : List InputNodeBase → List (String × PortElementsBase) → Map

/-- `model::Map()`, the default-constructed map (`Map() = default`): no inputs and no
outputs. -/
def emptyMap : Map := Map.mk [] [] 0

/-- `Map::GetOutputType(index)`: "the type of the map's output". -/
def GetOutputType (map : Map) (index : Nat) : Except Exception PortType :=
  match map.GetOutput index with
  | Except.ok output => Except.ok output.portType
  | Except.error e => Except.error e

/-- `AppendTrainedLinearPredictorToMap<ElementType>(trainedPredictor, map, dimension)`
(lines 53-65): the new map has the input of `map` as its input "input" and the output of
the appended nodes as its output "output". -/
def AppendTrainedLinearPredictorToMap (library : Library) (elementType : ElementType)
    (trainedPredictor : LinearPredictor) (map : Map) (dimension : Nat) :
    Except Exception Map :=
  let predictor := library.Resize trainedPredictor dimension
  match map.GetOutput 0 with
  | Except.error e => Except.error e
  | Except.ok mapOutput =>
    let output := library.LinearPredictorNodes elementType mapOutput predictor
    match map.inputNodes[0]? with
    | none => Except.error (Exception.other "GetInput: index out of range")
    | some input =>
      let outputMap := library.MakeMap [input] [("output", output)]
      Except.ok outputMap

/-- `GetRetargetedModel(const PredictorType& trainedPredictor, model::Map& map)` (lines
333-354): the `switch` on the output type assigns the new map to `result` or throws; the
function then ends with `return model::Map();` (line 353). -/
def GetRetargetedModel (library : Library) (trainedPredictor : LinearPredictor) (map : Map) :
    Except Exception Map :=
  match map.GetOutput 0 with
  | Except.error e => Except.error e
  | Except.ok output =>
    let mappedDatasetDimension := library.Size output
    match GetOutputType map 0 with
    | Except.error e => Except.error e
    | Except.ok PortType.smallReal =>
      match AppendTrainedLinearPredictorToMap library ElementType.float trainedPredictor map
          mappedDatasetDimension with
      | Except.error e => Except.error e
      | Except.ok _result => Except.ok emptyMap
    | Except.ok PortType.real =>
      match AppendTrainedLinearPredictorToMap library ElementType.double trainedPredictor map
          mappedDatasetDimension with
      | Except.error e => Except.error e
      | Except.ok _result => Except.ok emptyMap
    | Except.ok _ =>
      Except.error (Exception.InputException value.InputExceptionErrors.invalidArgument)

/-- A library for the examples: predictors are left as they are, the appended nodes end in
output port 3 of the element type, outputs have size 2. -/
def exampleLibrary : Library :=
  Library.mk (fun predictor _ => predictor)
    (fun elementType _ _ => PortElementsBase.mk (GetPortType elementType) 3)
    (fun _ => 2)
    (fun inputs outputs => Map.mk inputs outputs 0)

/-- A trained predictor for the examples. -/
def examplePredictor : LinearPredictor :=
  LinearPredictor.mk [Double.finite 1, Double.finite 2] (Double.finite 0)

end retargetTrainer

namespace Emitters

/-! ## The 32-bit arithmetic -/

/-- A value of the 32-bit range is its own 32-bit representative. -/
theorem wrap32_of_range (x : Int) (h1 : -2147483648 ≤ x) (h2 : x < 2147483648) :
    wrap32 x = x := by
  unfold wrap32
  omega

/-- The 32-bit representative lies in the 32-bit range. -/
theorem wrap32_range (x : Int) : -2147483648 ≤ wrap32 x ∧ wrap32 x < 2147483648 := by
  unfold wrap32
  omega

/-- The 32-bit representative differs from the value by a multiple of `2^32`. -/
theorem wrap32_eq_sub (x : Int) :
    wrap32 x = x + 4294967296 * (-((x + 2147483648) / 4294967296)) := by
  unfold wrap32
  omega

/-- Values that differ by a multiple of `2^32` have the same 32-bit representative. -/
theorem wrap32_add_mul (x k : Int) : wrap32 (x + 4294967296 * k) = wrap32 x := by
  unfold wrap32
  have h : x + 4294967296 * k + 2147483648 = x + 2147483648 + 4294967296 * k := by ring
  rw [h, Int.add_mul_emod_self_left]

/-- A wrapped right summand may be replaced by its value. -/
theorem wrap32_add_right (a b : Int) : wrap32 (a + wrap32 b) = wrap32 (a + b) := by
  rw [wrap32_eq_sub b, ← add_assoc, wrap32_add_mul]

/-- A wrapped left summand may be replaced by its value. -/
theorem wrap32_add_left (a b : Int) : wrap32 (wrap32 a + b) = wrap32 (a + b) := by
  rw [add_comm, wrap32_add_right, add_comm]

/-- A wrapped left factor may be replaced by its value. -/
theorem wrap32_mul_left (a b : Int) : wrap32 (wrap32 a * b) = wrap32 (a * b) := by
  rw [wrap32_eq_sub a]
  have h : (a + 4294967296 * (-((a + 2147483648) / 4294967296))) * b
      = a * b + 4294967296 * (-((a + 2147483648) / 4294967296) * b) := by ring
  rw [h, wrap32_add_mul]

/-- `blockStart` is the 32-bit representative of `begin + taskIndex * taskSize * increment`:
the intermediate products may wrap without changing it. -/
theorem blockStart_eq_wrap32 (begin increment T t : Int) :
    blockStart begin increment T t = wrap32 (begin + t * T * increment) := by
  simp only [blockStart, add32, mul32, wrap32_mul_left, wrap32_add_right]

/-- `blockEnd` is the minimum of `end` and the 32-bit representative of
`begin + taskIndex * taskSize * increment + taskSize * increment`. -/
theorem blockEnd_eq_wrap32 (begin end_ increment T t : Int) :
    blockEnd begin end_ increment T t
      = min (wrap32 (begin + t * T * increment + T * increment)) end_ := by
  simp only [blockEnd, blockStart_eq_wrap32, add32, mul32, wrap32_add_right, wrap32_add_left]

/-! ## Arithmetic of the iteration count and the task size -/

/-- For a positive span and a positive increment the truncating division is the floor
division, and the iteration count of the spec is bracketed by the span. -/
theorem iterationCount_bounds (begin end_ increment : Int) (hbe : begin < end_)
    (hinc : 0 < increment) :
    (iterationCount begin end_ increment - 1) * increment ≤ end_ - begin - 1 ∧
      end_ - begin - 1 < iterationCount begin end_ increment * increment ∧
      1 ≤ iterationCount begin end_ increment := by
  have hpos : end_ - begin > 0 := by omega
  have hs : 0 ≤ end_ - begin - 1 := by omega
  have hq : (end_ - begin - 1).tdiv increment = (end_ - begin - 1) / increment :=
    Int.tdiv_eq_ediv hs (le_of_lt hinc)
  have h1 : (end_ - begin - 1) / increment * increment ≤ end_ - begin - 1 :=
    Int.ediv_mul_le _ (ne_of_gt hinc)
  have h2 : end_ - begin - 1 < ((end_ - begin - 1) / increment + 1) * increment :=
    Int.lt_ediv_add_one_mul_self _ hinc
  have h3 : 0 ≤ (end_ - begin - 1) / increment := Int.ediv_nonneg hs (le_of_lt hinc)
  simp only [iterationCount, hpos, if_true, hq]
  refine ⟨?_, h2, by omega⟩
  have : (end_ - begin - 1) / increment + 1 - 1 = (end_ - begin - 1) / increment := by ring
  rw [this]; exact h1

/-- The iteration count of the spec is at most the span. -/
theorem iterationCount_le_span (begin end_ increment : Int) (hbe : begin < end_)
    (hinc : 0 < increment) :
    iterationCount begin end_ increment ≤ end_ - begin := by
  obtain ⟨h1, -, h3⟩ := iterationCount_bounds begin end_ increment hbe hinc
  nlinarith

/-- On a positive span that is representable in 32 bits no step of lines 44-45 wraps:
`numIterations` is the iteration count of the spec. -/
theorem numIterations_eq_iterationCount (begin end_ increment : Int) (hbe : begin < end_)
    (hinc : 0 < increment) (hspan : end_ - begin < 2147483648) :
    numIterations begin end_ increment = iterationCount begin end_ increment := by
  have hpos : end_ - begin > 0 := by omega
  have hs : 0 ≤ end_ - begin - 1 := by omega
  have hq : (end_ - begin - 1).tdiv increment = (end_ - begin - 1) / increment :=
    Int.tdiv_eq_ediv hs (le_of_lt hinc)
  have h3 : 0 ≤ (end_ - begin - 1) / increment := Int.ediv_nonneg hs (le_of_lt hinc)
  have h4 : (end_ - begin - 1) / increment ≤ end_ - begin - 1 := Int.ediv_le_self _ hs
  simp only [numIterations, iterationCount, add32, sub32, div32, hpos, if_true]
  rw [wrap32_of_range (end_ - begin) (by omega) hspan,
    wrap32_of_range (end_ - begin - 1) (by omega) (by omega), hq,
    wrap32_of_range ((end_ - begin - 1) / increment) (by omega) (by omega),
    wrap32_of_range _ (by omega) (by omega)]

/-- On a span that is representable in 32 bits no step of lines 28-29 wraps: the count of
the `int` overload is the iteration count of the spec. -/
theorem numIterationsInt_eq_iterationCount (begin end_ increment : Int)
    (hinc : 0 < increment) (hlo : -2147483648 ≤ end_ - begin)
    (hhi : end_ - begin < 2147483648) :
    numIterationsInt begin end_ increment = iterationCount begin end_ increment := by
  have hw : wrap32 (end_ - begin) = end_ - begin := wrap32_of_range _ hlo hhi
  by_cases hpos : end_ - begin > 0
  · have hs : 0 ≤ end_ - begin - 1 := by omega
    have hq : (end_ - begin - 1).tdiv increment = (end_ - begin - 1) / increment :=
      Int.tdiv_eq_ediv hs (le_of_lt hinc)
    have h3 : 0 ≤ (end_ - begin - 1) / increment := Int.ediv_nonneg hs (le_of_lt hinc)
    have h4 : (end_ - begin - 1) / increment ≤ end_ - begin - 1 := Int.ediv_le_self _ hs
    simp only [numIterationsInt, iterationCount, add32, sub32, div32, hw, hpos, if_true]
    rw [wrap32_of_range (end_ - begin - 1) (by omega) (by omega), hq,
      wrap32_of_range ((end_ - begin - 1) / increment) (by omega) (by omega),
      wrap32_of_range _ (by omega) (by omega)]
  · simp only [numIterationsInt, iterationCount, sub32, hw, hpos, if_false]

/-- For a positive representable span and a positive increment `numIterations` is
bracketed by the span. -/
theorem numIterations_bounds (begin end_ increment : Int) (hbe : begin < end_)
    (hinc : 0 < increment) (hspan : end_ - begin < 2147483648) :
    (numIterations begin end_ increment - 1) * increment ≤ end_ - begin - 1 ∧
      end_ - begin - 1 < numIterations begin end_ increment * increment ∧
      1 ≤ numIterations begin end_ increment := by
  rw [numIterations_eq_iterationCount begin end_ increment hbe hinc hspan]
  exact iterationCount_bounds begin end_ increment hbe hinc

/-- On a non-empty representable span both overloads compute the same `numIterations`. -/
theorem numIterationsInt_eq (begin end_ increment : Int) (hbe : begin < end_)
    (hinc : 0 < increment) (hspan : end_ - begin < 2147483648) :
    numIterationsInt begin end_ increment = numIterations begin end_ increment := by
  rw [numIterations_eq_iterationCount begin end_ increment hbe hinc hspan,
    numIterationsInt_eq_iterationCount begin end_ increment hinc (by omega) hspan]

/-- For at least one iteration and at least one task no step of line 48 wraps: `taskSize`
is the quotient `(numIterations - 1) / numTasks + 1` over the integers. -/
theorem taskSize_of_span (begin end_ increment numTasks : Int) (hbe : begin < end_)
    (hinc : 0 < increment) (hn : 1 ≤ numTasks) (hspan : end_ - begin < 2147483648) :
    taskSize begin end_ increment numTasks
      = (numIterations begin end_ increment - 1) / numTasks + 1 := by
  obtain ⟨-, -, hN⟩ := numIterations_bounds begin end_ increment hbe hinc hspan
  have hle : numIterations begin end_ increment ≤ end_ - begin := by
    rw [numIterations_eq_iterationCount begin end_ increment hbe hinc hspan]
    exact iterationCount_le_span begin end_ increment hbe hinc
  have hs : 0 ≤ numIterations begin end_ increment - 1 := by omega
  have hn0 : 0 < numTasks := by omega
  have hq : (numIterations begin end_ increment - 1).tdiv numTasks
      = (numIterations begin end_ increment - 1) / numTasks :=
    Int.tdiv_eq_ediv hs (le_of_lt hn0)
  have h3 : 0 ≤ (numIterations begin end_ increment - 1) / numTasks :=
    Int.ediv_nonneg hs (le_of_lt hn0)
  have h4 : (numIterations begin end_ increment - 1) / numTasks
      ≤ numIterations begin end_ increment - 1 := Int.ediv_le_self _ hs
  simp only [taskSize, add32, sub32, div32]
  rw [wrap32_of_range (numIterations begin end_ increment - 1) (by omega) (by omega), hq,
    wrap32_of_range ((numIterations begin end_ increment - 1) / numTasks) (by omega)
      (by omega),
    wrap32_of_range _ (by omega) (by omega)]

/-- For at least one iteration and at least one task, `taskSize` is at least one and
`numTasks` blocks of `taskSize` iterations cover all iterations. -/
theorem taskSize_bounds (begin end_ increment numTasks : Int) (hbe : begin < end_)
    (hinc : 0 < increment) (hn : 1 ≤ numTasks) (hspan : end_ - begin < 2147483648) :
    1 ≤ taskSize begin end_ increment numTasks ∧
      numIterations begin end_ increment ≤ taskSize begin end_ increment numTasks * numTasks ∧
      (taskSize begin end_ increment numTasks - 1) * numTasks
        ≤ numIterations begin end_ increment - 1 := by
  obtain ⟨-, -, hN⟩ := numIterations_bounds begin end_ increment hbe hinc hspan
  have hs : 0 ≤ numIterations begin end_ increment - 1 := by omega
  have hn0 : 0 < numTasks := by omega
  have h1 := Int.ediv_mul_le (numIterations begin end_ increment - 1) (ne_of_gt hn0)
  have h2 := Int.lt_ediv_add_one_mul_self (numIterations begin end_ increment - 1) hn0
  have h3 : 0 ≤ (numIterations begin end_ increment - 1) / numTasks :=
    Int.ediv_nonneg hs (le_of_lt hn0)
  rw [taskSize_of_span begin end_ increment numTasks hbe hinc hn hspan]
  refine ⟨by omega, by omega, ?_⟩
  have : (numIterations begin end_ increment - 1) / numTasks + 1 - 1
      = (numIterations begin end_ increment - 1) / numTasks := by ring
  rw [this]; exact h1

/-- When the bound of the last task, `begin + numTasks * taskSize * increment`, is
representable, line 56 does not wrap for any task index up to `numTasks`. -/
theorem blockStart_of_range (begin end_ increment numTasks : Int) (hbe : begin < end_)
    (hinc : 0 < increment) (hn : 1 ≤ numTasks) (hlo : -2147483648 ≤ begin)
    (hspan : end_ - begin < 2147483648)
    (hlast : begin + numTasks * taskSize begin end_ increment numTasks * increment
      < 2147483648)
    (t : Nat) (ht : (t : Int) ≤ numTasks) :
    blockStart begin increment (taskSize begin end_ increment numTasks) t
      = begin + (t : Int) * taskSize begin end_ increment numTasks * increment := by
  obtain ⟨hT, -, -⟩ := taskSize_bounds begin end_ increment numTasks hbe hinc hn hspan
  have hTi : 0 ≤ taskSize begin end_ increment numTasks * increment :=
    mul_nonneg (by omega) (le_of_lt hinc)
  have h0 : (0 : Int) ≤ (t : Int) * (taskSize begin end_ increment numTasks * increment) :=
    mul_nonneg (Int.ofNat_nonneg t) hTi
  have hm := mul_le_mul_of_nonneg_right ht hTi
  rw [blockStart_eq_wrap32]
  apply wrap32_of_range
  · nlinarith
  · nlinarith

/-- Under the same hypothesis line 57 does not wrap for any task. -/
theorem blockEnd_of_range (begin end_ increment numTasks : Int) (hbe : begin < end_)
    (hinc : 0 < increment) (hn : 1 ≤ numTasks) (hlo : -2147483648 ≤ begin)
    (hspan : end_ - begin < 2147483648)
    (hlast : begin + numTasks * taskSize begin end_ increment numTasks * increment
      < 2147483648)
    (t : Nat) (ht : (t : Int) < numTasks) :
    blockEnd begin end_ increment (taskSize begin end_ increment numTasks) t
      = min (begin + (t : Int) * taskSize begin end_ increment numTasks * increment
          + taskSize begin end_ increment numTasks * increment) end_ := by
  obtain ⟨hT, -, -⟩ := taskSize_bounds begin end_ increment numTasks hbe hinc hn hspan
  have hTi : 0 ≤ taskSize begin end_ increment numTasks * increment :=
    mul_nonneg (by omega) (le_of_lt hinc)
  have h0 : (0 : Int) ≤ (t : Int) * (taskSize begin end_ increment numTasks * increment) :=
    mul_nonneg (Int.ofNat_nonneg t) hTi
  have ht1 : (t : Int) + 1 ≤ numTasks := by omega
  have hm := mul_le_mul_of_nonneg_right ht1 hTi
  rw [blockEnd_eq_wrap32, wrap32_of_range]
  · nlinarith
  · nlinarith

/-! ## The task ranges -/

/-- The block of a task lies inside `[begin, end)`. -/
theorem block_subset (begin end_ increment numTasks : Int) (hbe : begin < end_)
    (hinc : 0 < increment) (hn : 1 ≤ numTasks) (hlo : -2147483648 ≤ begin)
    (hspan : end_ - begin < 2147483648)
    (hlast : begin + numTasks * taskSize begin end_ increment numTasks * increment
      < 2147483648)
    (t : Nat) (ht : (t : Int) < numTasks) (x : Int)
    (hx : blockStart begin increment (taskSize begin end_ increment numTasks) t ≤ x ∧
      x < blockEnd begin end_ increment (taskSize begin end_ increment numTasks) t) :
    begin ≤ x ∧ x < end_ := by
  obtain ⟨hT, -, -⟩ := taskSize_bounds begin end_ increment numTasks hbe hinc hn hspan
  obtain ⟨h1, h2⟩ := hx
  rw [blockStart_of_range begin end_ increment numTasks hbe hinc hn hlo hspan hlast t
    (le_of_lt ht)] at h1
  rw [blockEnd_of_range begin end_ increment numTasks hbe hinc hn hlo hspan hlast t ht] at h2
  have ht0 : (0 : Int) ≤ (t : Int) * taskSize begin end_ increment numTasks * increment :=
    mul_nonneg (mul_nonneg (Int.ofNat_nonneg t) (by omega)) (le_of_lt hinc)
  have := min_le_right
    (begin + (t : Int) * taskSize begin end_ increment numTasks * increment
      + taskSize begin end_ increment numTasks * increment) end_
  omega

/-- Blocks of two tasks never overlap: the earlier one ends before the later one starts. -/
theorem block_ordered (begin end_ increment numTasks : Int) (hbe : begin < end_)
    (hinc : 0 < increment) (hn : 1 ≤ numTasks) (hlo : -2147483648 ≤ begin)
    (hspan : end_ - begin < 2147483648)
    (hlast : begin + numTasks * taskSize begin end_ increment numTasks * increment
      < 2147483648)
    (t u : Nat) (htu : t < u) (hu : (u : Int) < numTasks) :
    blockEnd begin end_ increment (taskSize begin end_ increment numTasks) t
      ≤ blockStart begin increment (taskSize begin end_ increment numTasks) u := by
  obtain ⟨hT, -, -⟩ := taskSize_bounds begin end_ increment numTasks hbe hinc hn hspan
  have htu1 : (t : Int) + 1 ≤ (u : Int) := by exact_mod_cast htu
  rw [blockStart_of_range begin end_ increment numTasks hbe hinc hn hlo hspan hlast u
      (le_of_lt hu),
    blockEnd_of_range begin end_ increment numTasks hbe hinc hn hlo hspan hlast t (by omega)]
  have hTi : 0 ≤ taskSize begin end_ increment numTasks * increment :=
    mul_nonneg (by omega) (le_of_lt hinc)
  have hm := mul_le_mul_of_nonneg_right htu1 hTi
  have := min_le_left
    (begin + (t : Int) * taskSize begin end_ increment numTasks * increment
      + taskSize begin end_ increment numTasks * increment) end_
  nlinarith

/-- Every point of `[begin, end)` lies in the block of some task. -/
theorem block_cover (begin end_ increment numTasks : Int) (hbe : begin < end_)
    (hinc : 0 < increment) (hn : 1 ≤ numTasks) (hlo : -2147483648 ≤ begin)
    (hspan : end_ - begin < 2147483648)
    (hlast : begin + numTasks * taskSize begin end_ increment numTasks * increment
      < 2147483648)
    (x : Int) (hx : begin ≤ x ∧ x < end_) :
    ∃ t : Nat, (t : Int) < numTasks ∧
      blockStart begin increment (taskSize begin end_ increment numTasks) t ≤ x ∧
      x < blockEnd begin end_ increment (taskSize begin end_ increment numTasks) t := by
  obtain ⟨hT, hTN, -⟩ := taskSize_bounds begin end_ increment numTasks hbe hinc hn hspan
  obtain ⟨-, hN, -⟩ := numIterations_bounds begin end_ increment hbe hinc hspan
  have hbs := blockStart_of_range begin end_ increment numTasks hbe hinc hn hlo hspan hlast
  have hbe' := blockEnd_of_range begin end_ increment numTasks hbe hinc hn hlo hspan hlast
  set T := taskSize begin end_ increment numTasks with hTdef
  set N := numIterations begin end_ increment with hNdef
  have hTi : 0 < T * increment := mul_pos (by omega) hinc
  have hd : 0 ≤ x - begin := by omega
  have hq0 : 0 ≤ (x - begin) / (T * increment) := Int.ediv_nonneg hd (le_of_lt hTi)
  have hq1 := Int.ediv_mul_le (x - begin) (ne_of_gt hTi)
  have hq2 := Int.lt_ediv_add_one_mul_self (x - begin) hTi
  set q := (x - begin) / (T * increment) with hqdef
  have hqn : q < numTasks := by
    by_contra hcon
    have hge : numTasks ≤ q := by omega
    have h1 : numTasks * (T * increment) ≤ q * (T * increment) :=
      mul_le_mul_of_nonneg_right hge (le_of_lt hTi)
    have h2 : N * increment ≤ T * numTasks * increment :=
      mul_le_mul_of_nonneg_right hTN (le_of_lt hinc)
    nlinarith
  have hcast : ((q.toNat : Nat) : Int) = q := Int.toNat_of_nonneg hq0
  have hlt : ((q.toNat : Nat) : Int) < numTasks := by rw [hcast]; exact hqn
  refine ⟨q.toNat, hlt, ?_, ?_⟩
  · rw [hbs q.toNat (le_of_lt hlt), hcast]; nlinarith
  · rw [hbe' q.toNat hlt, hcast, lt_min_iff]
    refine ⟨by nlinarith, hx.2⟩

/-! ## C1 -/

/-- C1 (as amended): for `begin < end`, `increment > 0` and `1 ≤ numTasks ≤ numIterations`,
when `begin` is a 32-bit value and neither the span `end - begin` nor the bound
`begin + numTasks * taskSize * increment` of the last task exceeds `2^31 - 1`, the task
ranges `[blockStart t, blockEnd t)`, `t = 0 .. numTasks-1`, that `EmitLoop` computes are
pairwise disjoint and their union is exactly `[begin, end)`. -/
theorem C1_task_ranges_partition (begin end_ increment numTasks : Int)
    (hbe : begin < end_) (hinc : 0 < increment) (h1 : 1 ≤ numTasks)
    (_hle : numTasks ≤ numIterations begin end_ increment)
    (hlo : -2147483648 ≤ begin) (hspan : end_ - begin < 2147483648)
    (hlast : begin + numTasks * taskSize begin end_ increment numTasks * increment
      < 2147483648) :
    (∀ t u : Nat, (t : Int) < numTasks → (u : Int) < numTasks → t ≠ u →
      ∀ x : Int,
        ¬ ((blockStart begin increment (taskSize begin end_ increment numTasks) t ≤ x ∧
            x < blockEnd begin end_ increment (taskSize begin end_ increment numTasks) t) ∧
          (blockStart begin increment (taskSize begin end_ increment numTasks) u ≤ x ∧
            x < blockEnd begin end_ increment (taskSize begin end_ increment numTasks) u))) ∧
    (∀ x : Int, (begin ≤ x ∧ x < end_) ↔
      ∃ t : Nat, (t : Int) < numTasks ∧
        blockStart begin increment (taskSize begin end_ increment numTasks) t ≤ x ∧
        x < blockEnd begin end_ increment (taskSize begin end_ increment numTasks) t) := by
  refine ⟨?_, ?_⟩
  · intro t u ht hu htu x ⟨⟨ht1, ht2⟩, ⟨hu1, hu2⟩⟩
    rcases Nat.lt_or_gt_of_ne htu with h | h
    · have := block_ordered begin end_ increment numTasks hbe hinc h1 hlo hspan hlast t u h hu
      omega
    · have := block_ordered begin end_ increment numTasks hbe hinc h1 hlo hspan hlast u t h ht
      omega
  · intro x
    constructor
    · exact block_cover begin end_ increment numTasks hbe hinc h1 hlo hspan hlast x
    · rintro ⟨t, ht, hx⟩
      exact block_subset begin end_ increment numTasks hbe hinc h1 hlo hspan hlast t ht x hx

/-- C1 (as amended) at `begin = 0`, `end = 10`, `increment = 1`, `numTasks = 3`. -/
theorem C1_task_ranges_partition_witness :
    ((0 : Int) < 10 ∧ (0 : Int) < 1 ∧ (1 : Int) ≤ 3 ∧ (3 : Int) ≤ numIterations 0 10 1 ∧
      (-2147483648 : Int) ≤ 0 ∧ (10 : Int) - 0 < 2147483648 ∧
      (0 : Int) + 3 * taskSize 0 10 1 3 * 1 < 2147483648) ∧
    ((∀ t u : Nat, (t : Int) < 3 → (u : Int) < 3 → t ≠ u →
      ∀ x : Int,
        ¬ ((blockStart 0 1 (taskSize 0 10 1 3) t ≤ x ∧
            x < blockEnd 0 10 1 (taskSize 0 10 1 3) t) ∧
          (blockStart 0 1 (taskSize 0 10 1 3) u ≤ x ∧
            x < blockEnd 0 10 1 (taskSize 0 10 1 3) u))) ∧
    (∀ x : Int, ((0 : Int) ≤ x ∧ x < 10) ↔
      ∃ t : Nat, (t : Int) < 3 ∧
        blockStart 0 1 (taskSize 0 10 1 3) t ≤ x ∧
        x < blockEnd 0 10 1 (taskSize 0 10 1 3) t)) :=
  ⟨⟨by decide, by decide, by decide, by decide, by decide, by decide, by decide⟩,
    C1_task_ranges_partition 0 10 1 3 (by decide) (by decide) (by decide) (by decide)
      (by decide) (by decide) (by decide)⟩

/-- C1 as stated fails in the emitted 32-bit arithmetic at `begin = 2147483637`,
`end = 2147483647`, `increment = 1`, `numTasks = 4` (ten iterations, `taskSize = 3`): the
sum `blockStart + taskSize * increment` of the last task is `2147483649`, which wraps to
`-2147483647`, so the ranges are `[..37, ..40)`, `[..40, ..43)`, `[..43, ..46)` and the
empty `[2147483646, -2147483647)`, and the index `2147483646` of `[begin, end)` lies in no
task range. -/
theorem C1_counterexample :
    (2147483637 : Int) < 2147483647 ∧ (0 : Int) < 1 ∧ (1 : Int) ≤ 4 ∧
    (4 : Int) ≤ numIterations 2147483637 2147483647 1 ∧
    taskSize 2147483637 2147483647 1 4 = 3 ∧
    (List.range 4).map (fun (t : Nat) =>
        (blockStart 2147483637 1 (taskSize 2147483637 2147483647 1 4) t,
          blockEnd 2147483637 2147483647 1 (taskSize 2147483637 2147483647 1 4) t))
      = [(2147483637, 2147483640), (2147483640, 2147483643), (2147483643, 2147483646),
          (2147483646, -2147483647)] ∧
    ((2147483637 : Int) ≤ 2147483646 ∧ (2147483646 : Int) < 2147483647) ∧
    ¬ ∃ t : Nat, (t : Int) < 4 ∧
      blockStart 2147483637 1 (taskSize 2147483637 2147483647 1 4) t ≤ 2147483646 ∧
      2147483646 < blockEnd 2147483637 2147483647 1 (taskSize 2147483637 2147483647 1 4) t := by
  refine ⟨by decide, by decide, by decide, by decide, by decide, by decide,
    ⟨by decide, by decide⟩, ?_⟩
  rintro ⟨t, ht, h1, h2⟩
  have ht4 : t < 4 := by exact_mod_cast ht
  interval_cases t <;> revert h1 h2 <;> decide

/-! ## C3 -/

/-- For a positive increment, `begin + k * increment < end` holds exactly for the
`k` below the iteration count of the spec, among the `k ≥ 0`. -/
theorem iterationCount_spec (begin end_ increment : Int) (hinc : 0 < increment) (k : Int)
    (hk : 0 ≤ k) :
    begin + k * increment < end_ ↔ k < iterationCount begin end_ increment := by
  by_cases hbe : begin < end_
  · obtain ⟨h1, h2, -⟩ := iterationCount_bounds begin end_ increment hbe hinc
    constructor
    · intro h
      by_contra hcon
      have hge : iterationCount begin end_ increment ≤ k := by omega
      have := mul_le_mul_of_nonneg_right hge (le_of_lt hinc)
      omega
    · intro h
      have hle : k ≤ iterationCount begin end_ increment - 1 := by omega
      have := mul_le_mul_of_nonneg_right hle (le_of_lt hinc)
      omega
  · have h0 : ¬ (end_ - begin > 0) := by omega
    have hki : 0 ≤ k * increment := mul_nonneg hk (le_of_lt hinc)
    simp only [iterationCount, h0, if_false]
    omega

/-- The iteration count of the spec is never negative. -/
theorem iterationCount_nonneg (begin end_ increment : Int) (hinc : 0 < increment) :
    0 ≤ iterationCount begin end_ increment := by
  by_cases hbe : begin < end_
  · have := (iterationCount_bounds begin end_ increment hbe hinc).2.2
    omega
  · have h0 : ¬ (end_ - begin > 0) := by omega
    simp [iterationCount, h0]

/-- On a non-empty range with a positive increment the iteration count of the spec is the
ceiling of the quotient of span and increment. -/
theorem iterationCount_eq_ceil (begin end_ increment : Int) (hbe : begin < end_)
    (hinc : 0 < increment) :
    iterationCount begin end_ increment
      = ⌈(((end_ - begin : Int) : ℚ)) / ((increment : Int) : ℚ)⌉ := by
  obtain ⟨h1, h2, -⟩ := iterationCount_bounds begin end_ increment hbe hinc
  have hq : (0 : ℚ) < (increment : ℚ) := by exact_mod_cast hinc
  symm
  rw [Int.ceil_eq_iff]
  constructor
  · rw [lt_div_iff₀ hq]
    have : (iterationCount begin end_ increment - 1) * increment < end_ - begin := by omega
    exact_mod_cast this
  · rw [div_le_iff₀ hq]
    have : end_ - begin ≤ iterationCount begin end_ increment * increment := by omega
    exact_mod_cast this

/-- C3 (as amended): in `EmitLoop(int begin, int end, int increment, ...)`, for
`increment > 0` and a span `end - begin` that is representable as an `int`, the computed
`numIterations` is `ceil((end - begin) / increment)` when `end > begin`, it is the number
of `k ≥ 0` with `begin + k * increment < end`, and it is `0` when `end ≤ begin`. -/
theorem C3_numIterations_is_ceiling (begin end_ increment : Int) (hinc : 0 < increment)
    (hlo : -2147483648 ≤ end_ - begin) (hhi : end_ - begin < 2147483648) :
    (begin < end_ →
      numIterationsInt begin end_ increment
        = ⌈(((end_ - begin : Int) : ℚ)) / ((increment : Int) : ℚ)⌉) ∧
    (∀ k : Int, (0 ≤ k ∧ begin + k * increment < end_) ↔
      (0 ≤ k ∧ k < numIterationsInt begin end_ increment)) ∧
    ((Set.ncard {k : Int | 0 ≤ k ∧ begin + k * increment < end_} : Int)
      = numIterationsInt begin end_ increment) ∧
    (end_ ≤ begin → numIterationsInt begin end_ increment = 0) := by
  rw [numIterationsInt_eq_iterationCount begin end_ increment hinc hlo hhi]
  have hspec : ∀ k : Int, (0 ≤ k ∧ begin + k * increment < end_) ↔
      (0 ≤ k ∧ k < iterationCount begin end_ increment) := by
    intro k
    constructor
    · rintro ⟨h0, h⟩
      exact ⟨h0, (iterationCount_spec begin end_ increment hinc k h0).1 h⟩
    · rintro ⟨h0, h⟩
      exact ⟨h0, (iterationCount_spec begin end_ increment hinc k h0).2 h⟩
  refine ⟨?_, hspec, ?_, ?_⟩
  · intro hbe
    exact iterationCount_eq_ceil begin end_ increment hbe hinc
  · have hset : {k : Int | 0 ≤ k ∧ begin + k * increment < end_}
        = Set.Ico 0 (iterationCount begin end_ increment) := by
      ext k
      simp only [Set.mem_setOf_eq, Set.mem_Ico]
      exact hspec k
    rw [hset, Set.ncard_eq_toFinset_card', Set.toFinset_Ico, Int.card_Ico]
    simp only [sub_zero]
    exact Int.toNat_of_nonneg (iterationCount_nonneg begin end_ increment hinc)
  · intro hle
    have h0 : ¬ (end_ - begin > 0) := by omega
    simp [iterationCount, h0]

/-- C3 (as amended) at `begin = 2`, `end = 12`, `increment = 3`: four iterations
(2, 5, 8, 11). -/
theorem C3_numIterations_is_ceiling_witness :
    ((0 : Int) < 3 ∧ (-2147483648 : Int) ≤ 12 - 2 ∧ (12 : Int) - 2 < 2147483648) ∧
    (((2 : Int) < 12 →
      numIterationsInt 2 12 3 = ⌈(((12 - 2 : Int) : ℚ)) / (((3 : Int)) : ℚ)⌉) ∧
    (∀ k : Int, (0 ≤ k ∧ 2 + k * 3 < 12) ↔ (0 ≤ k ∧ k < numIterationsInt 2 12 3)) ∧
    ((Set.ncard {k : Int | 0 ≤ k ∧ 2 + k * 3 < 12} : Int) = numIterationsInt 2 12 3) ∧
    ((12 : Int) ≤ 2 → numIterationsInt 2 12 3 = 0)) :=
  ⟨⟨by decide, by decide, by decide⟩,
    C3_numIterations_is_ceiling 2 12 3 (by decide) (by decide) (by decide)⟩

/-- C3 as stated fails for `int` arguments whose difference is not an `int`.  With
`begin = -1`, `end = 2147483647`, `increment = 1` the ceiling is `2^31`, which no `int`
holds, whatever the overflowing `end - begin` yields; its two's-complement value is
`-2^31`, and the count is `0`.  With `begin = 2147483647`, `end = -2147483648` (`end ≤ begin`) the difference wraps
to `1` and the count is `1`, not `0`. -/
theorem C3_counterexample :
    ((0 : Int) < 1 ∧ (-1 : Int) < 2147483647 ∧
      ⌈(((2147483647 - (-1) : Int) : ℚ)) / (((1 : Int)) : ℚ)⌉ = 2147483648 ∧
      numIterationsInt (-1) 2147483647 1 = 0 ∧
      numIterationsInt (-1) 2147483647 1
        ≠ ⌈(((2147483647 - (-1) : Int) : ℚ)) / (((1 : Int)) : ℚ)⌉ ∧
      (∀ v : Int, -2147483648 ≤ v → v < 2147483648 →
        v ≠ ⌈(((2147483647 - (-1) : Int) : ℚ)) / (((1 : Int)) : ℚ)⌉)) ∧
    ((-2147483648 : Int) ≤ 2147483647 ∧
      numIterationsInt 2147483647 (-2147483648) 1 = 1 ∧
      numIterationsInt 2147483647 (-2147483648) 1 ≠ 0) := by
  have hceil : ⌈(((2147483647 - (-1) : Int) : ℚ)) / (((1 : Int)) : ℚ)⌉ = 2147483648 := by
    norm_num
  have h0 : numIterationsInt (-1) 2147483647 1 = 0 := by decide
  refine ⟨⟨by decide, by decide, hceil, h0, ?_, ?_⟩, by decide, by decide, by decide⟩
  · rw [hceil, h0]
    decide
  · intro v _ hv
    rw [hceil]
    omega

/-! ## The loop and the index sequence -/

/-- A loop whose start is not below its end runs no iteration, whatever the fuel. -/
theorem runFor_of_le (fuel : Nat) (i end_ increment : Int) (h : end_ ≤ i) :
    runFor fuel i end_ increment = some [] := by
  have hn : ¬ i < end_ := by omega
  cases fuel <;> simp [runFor, hn]

/-- An empty span has the empty index sequence. -/
theorem sequentialIndices_of_le (begin end_ increment : Int) (h : end_ ≤ begin) :
    sequentialIndices begin end_ increment = [] := by
  have h0 : ¬ (end_ - begin > 0) := by omega
  simp [sequentialIndices, iterationCount, h0]

/-- One more iteration when the loop starts one increment earlier. -/
theorem iterationCount_step (begin end_ increment : Int) (hinc : 0 < increment)
    (hbe : begin < end_) :
    iterationCount begin end_ increment
      = iterationCount (begin + increment) end_ increment + 1 := by
  have hN := iterationCount_nonneg begin end_ increment hinc
  have hN' := iterationCount_nonneg (begin + increment) end_ increment hinc
  have hs := iterationCount_spec begin end_ increment hinc
  have hs' := iterationCount_spec (begin + increment) end_ increment hinc
  set N := iterationCount begin end_ increment
  set N' := iterationCount (begin + increment) end_ increment
  have h0 : 0 < N := (hs 0 (le_refl 0)).1 (by simpa using hbe)
  -- `N' ≤ N - 1`
  have hle : N' ≤ N - 1 := by
    by_contra hcon
    have h1 : N - 1 < N' := by omega
    have h2 := (hs' (N - 1) (by omega)).2 h1
    have h3 : begin + N * increment < end_ := by
      have : begin + increment + (N - 1) * increment = begin + N * increment := by ring
      rw [this] at h2; exact h2
    have := (hs N hN).1 h3
    omega
  -- `N - 1 ≤ N'`
  have hge : N - 1 ≤ N' := by
    by_contra hcon
    have h1 : N' < N - 1 := by omega
    have h2 : N' + 1 < N := by omega
    have h3 := (hs (N' + 1) (by omega)).2 h2
    have h4 : begin + increment + N' * increment < end_ := by
      have : begin + increment + N' * increment = begin + (N' + 1) * increment := by ring
      rw [this]; exact h3
    have := (hs' N' hN').1 h4
    omega
  omega

/-- A non-empty span starts with `begin` and continues from `begin + increment`. -/
theorem sequentialIndices_step (begin end_ increment : Int) (hinc : 0 < increment)
    (hbe : begin < end_) :
    sequentialIndices begin end_ increment
      = begin :: sequentialIndices (begin + increment) end_ increment := by
  have hN' := iterationCount_nonneg (begin + increment) end_ increment hinc
  have hstep := iterationCount_step begin end_ increment hinc hbe
  have hnat : (iterationCount begin end_ increment).toNat
      = (iterationCount (begin + increment) end_ increment).toNat + 1 := by omega
  simp only [sequentialIndices, hnat, List.range_succ_eq_map, List.map_cons, List.map_map]
  congr 1
  · simp
  · apply List.map_congr_left
    intro k _
    simp only [Function.comp_apply, Nat.succ_eq_add_one, Nat.cast_add, Nat.cast_one]
    ring

/-- For a positive increment the loop finishes within `end - begin` iterations and runs
its body exactly at the indices of `sequentialIndices`. -/
theorem runFor_eq_sequentialIndices (fuel : Nat) (begin end_ increment : Int)
    (hinc : 0 < increment) (hfuel : (end_ - begin).toNat ≤ fuel) :
    runFor fuel begin end_ increment = some (sequentialIndices begin end_ increment) := by
  induction fuel generalizing begin with
  | zero =>
    have h : end_ ≤ begin := by omega
    rw [runFor_of_le 0 begin end_ increment h, sequentialIndices_of_le begin end_ increment h]
  | succ fuel ih =>
    by_cases hbe : begin < end_
    · have hf : (end_ - (begin + increment)).toNat ≤ fuel := by omega
      simp only [runFor, hbe, if_true, ih (begin + increment) hf, Option.map_some']
      rw [sequentialIndices_step begin end_ increment hinc hbe]
    · have h : end_ ≤ begin := by omega
      rw [runFor_of_le _ begin end_ increment h,
        sequentialIndices_of_le begin end_ increment h]

/-- Cutting the range at a point `begin + j * increment` of the index grid cuts the index
sequence in two. -/
theorem sequentialIndices_split (begin end_ increment : Int) (hinc : 0 < increment)
    (j : Nat) :
    sequentialIndices begin end_ increment
      = sequentialIndices begin (min (begin + (j : Int) * increment) end_) increment
        ++ sequentialIndices (begin + (j : Int) * increment) end_ increment := by
  induction j generalizing begin with
  | zero =>
    have h : min (begin + ((0 : Nat) : Int) * increment) end_ ≤ begin := by
      simp
    rw [sequentialIndices_of_le begin _ increment h]
    simp
  | succ j ih =>
    have hm : begin + ((j + 1 : Nat) : Int) * increment
        = begin + increment + (j : Int) * increment := by
      push_cast; ring
    have hj : 0 ≤ (j : Int) * increment := mul_nonneg (Int.ofNat_nonneg j) (le_of_lt hinc)
    by_cases hbe : begin < end_
    · have hlt : begin < min (begin + ((j + 1 : Nat) : Int) * increment) end_ := by
        rw [lt_min_iff]; constructor
        · rw [hm]; omega
        · exact hbe
      rw [sequentialIndices_step begin end_ increment hinc hbe,
        sequentialIndices_step begin _ increment hinc hlt, hm, ih (begin + increment)]
      simp
    · have h : end_ ≤ begin := by omega
      have h1 : min (begin + ((j + 1 : Nat) : Int) * increment) end_ ≤ begin :=
        le_trans (min_le_right _ _) h
      have h2 : end_ ≤ begin + ((j + 1 : Nat) : Int) * increment := by rw [hm]; omega
      rw [sequentialIndices_of_le begin end_ increment h,
        sequentialIndices_of_le begin _ increment h1,
        sequentialIndices_of_le _ end_ increment h2]
      simp

/-- The members of the index sequence are the grid points below `end`. -/
theorem mem_sequentialIndices (begin end_ increment : Int) (hinc : 0 < increment) (i : Int) :
    i ∈ sequentialIndices begin end_ increment
      ↔ ∃ k : Nat, i = begin + (k : Int) * increment ∧ i < end_ := by
  simp only [sequentialIndices, List.mem_map, List.mem_range]
  constructor
  · rintro ⟨k, hk, rfl⟩
    refine ⟨k, rfl, ?_⟩
    apply (iterationCount_spec begin end_ increment hinc k (Int.ofNat_nonneg k)).2
    omega
  · rintro ⟨k, rfl, hlt⟩
    refine ⟨k, ?_, rfl⟩
    have := (iterationCount_spec begin end_ increment hinc k (Int.ofNat_nonneg k)).1 hlt
    omega

/-- The index sequence is strictly increasing. -/
theorem sequentialIndices_increasing (begin end_ increment : Int) (hinc : 0 < increment) :
    (sequentialIndices begin end_ increment).Pairwise (fun a b => a < b) := by
  simp only [sequentialIndices, List.pairwise_map]
  refine List.Pairwise.imp ?_ (List.pairwise_lt_range _)
  intro a b hab
  have h1 : (a : Int) < (b : Int) := by exact_mod_cast hab
  have := mul_lt_mul_of_pos_right h1 hinc
  omega

/-! ## Running the tasks -/

/-- Running a list of calls that all finish gives the list of their results. -/
theorem runAll_map_eq_some {α β γ : Type} (h : α → β) (f : β → Option γ) (g : α → γ)
    (l : List α) (hfg : ∀ a ∈ l, f (h a) = some (g a)) :
    runAll f (l.map h) = some (l.map g) := by
  induction l with
  | nil => simp [runAll]
  | cons a l ih =>
    have ha := hfg a (List.mem_cons_self a l)
    have hl := ih (fun b hb => hfg b (List.mem_cons_of_mem a hb))
    simp [runAll, ha, hl]

/-- The code emitted on the sequential path. -/
theorem emittedCode_sequential (compilerSettings : CompilerOptions)
    (begin end_ increment : Int) (options : ParallelLoopOptions)
    (capturedValues : List LLVMValue)
    (h : compilerSettings.parallelize = false ∨ numTasks compilerSettings options ≤ 1) :
    emittedCode compilerSettings begin end_ increment options capturedValues
      = [Instr.For begin end_ increment capturedValues] := by
  rcases h with h | h
  · simp [emittedCode, EmitLoop, h]
  · have hn : ¬ (numTasks compilerSettings options > 1) := by omega
    simp [emittedCode, EmitLoop, hn]

/-- The code emitted on the parallel path. -/
theorem emittedCode_parallel (compilerSettings : CompilerOptions)
    (begin end_ increment : Int) (options : ParallelLoopOptions)
    (capturedValues : List LLVMValue)
    (hpar : compilerSettings.parallelize = true) (hn : 1 < numTasks compilerSettings options) :
    emittedCode compilerSettings begin end_ increment options capturedValues
      = [Instr.StartTasks
          (IRTaskArray.mk (GetTaskFunction capturedValues (EmitterState.mk [] [])).2
            (taskArgs begin end_ increment (numTasks compilerSettings options) capturedValues)),
        Instr.WaitAll
          (IRTaskArray.mk (GetTaskFunction capturedValues (EmitterState.mk [] [])).2
            (taskArgs begin end_ increment (numTasks compilerSettings options)
              capturedValues))] := by
  have hn' : numTasks compilerSettings options > 1 := hn
  simp [emittedCode, EmitLoop, hpar, hn', GetTaskFunction]

/-- Running the sequential loop. -/
theorem runCode_For (fuel : Nat) (begin end_ increment : Int)
    (capturedValues : List LLVMValue) (hinc : 0 < increment)
    (hfuel : (end_ - begin).toNat ≤ fuel) :
    runCode fuel [Instr.For begin end_ increment capturedValues]
      = some ((sequentialIndices begin end_ increment).map fun i => (i, capturedValues)) := by
  simp [runCode, runInstr, runAll,
    runFor_eq_sequentialIndices fuel begin end_ increment hinc hfuel]

/-- Running the task function on the argument list `EmitLoop` builds for one task. -/
theorem runTask_args (fuel : Nat) (capturedValues : List LLVMValue) (s : EmitterState)
    (bStart bEnd increment : Int) (hinc : 0 < increment)
    (hfuel : (bEnd - bStart).toNat ≤ fuel) :
    runTask fuel (GetTaskFunction capturedValues s).2
        ([LocalScalar bStart, LocalScalar bEnd, LocalScalar increment] ++ capturedValues)
      = some ((sequentialIndices bStart bEnd increment).map fun i => (i, capturedValues)) := by
  simp [runTask, LocalScalar, GetTaskFunction,
    runFor_eq_sequentialIndices fuel bStart bEnd increment hinc hfuel]

/-- The index sequences of the first `n` blocks, one after the other, followed by the
rest of the loop from the start of block `n`, are the index sequence of the whole loop
(the block bounds over the integers). -/
theorem blocks_flatten (begin end_ increment : Int) (hinc : 0 < increment) (T : Int)
    (hT : 0 ≤ T) (n : Nat) :
    ((List.range n).map fun (t : Nat) =>
        sequentialIndices (begin + (t : Int) * T * increment)
          (min (begin + (t : Int) * T * increment + T * increment) end_) increment).flatten
      ++ sequentialIndices (begin + (n : Int) * T * increment) end_ increment
      = sequentialIndices begin end_ increment := by
  induction n with
  | zero => simp
  | succ n ih =>
    have hsplit := sequentialIndices_split (begin + (n : Int) * T * increment) end_ increment
      hinc T.toNat
    rw [Int.toNat_of_nonneg hT] at hsplit
    have hnext : begin + (n : Int) * T * increment + T * increment
        = begin + ((n + 1 : Nat) : Int) * T * increment := by
      push_cast; ring
    rw [List.range_succ, List.map_append, List.flatten_append, List.map_singleton,
      List.flatten_singleton, List.append_assoc]
    rw [← ih, hsplit]
    simp only [hnext]

/-- Past the last task nothing of the loop is left. -/
theorem blockStart_numTasks_ge (begin end_ increment numTasks : Int) (hbe : begin < end_)
    (hinc : 0 < increment) (hn : 1 ≤ numTasks) (hspan : end_ - begin < 2147483648) :
    end_ ≤ begin + numTasks * taskSize begin end_ increment numTasks * increment := by
  obtain ⟨-, hTN, -⟩ := taskSize_bounds begin end_ increment numTasks hbe hinc hn hspan
  obtain ⟨-, hN, -⟩ := numIterations_bounds begin end_ increment hbe hinc hspan
  have h2 := mul_le_mul_of_nonneg_right hTN (le_of_lt hinc)
  nlinarith

/-- Running all tasks that `EmitLoop` dispatches: every task finishes, and task `t` runs
the body at the indices of its block. -/
theorem runTasks_taskArgs (fuel : Nat) (begin end_ increment numTasks : Int)
    (capturedValues : List LLVMValue) (s : EmitterState) (hbe : begin < end_)
    (hinc : 0 < increment) (hn : 1 ≤ numTasks) (hlo : -2147483648 ≤ begin)
    (hspan : end_ - begin < 2147483648)
    (hlast : begin + numTasks * taskSize begin end_ increment numTasks * increment
      < 2147483648)
    (hfuel : (end_ - begin).toNat ≤ fuel) :
    runTasks fuel (IRTaskArray.mk (GetTaskFunction capturedValues s).2
        (taskArgs begin end_ increment numTasks capturedValues))
      = some ((List.range numTasks.toNat).map fun (t : Nat) =>
          (sequentialIndices
            (blockStart begin increment (taskSize begin end_ increment numTasks) t)
            (blockEnd begin end_ increment (taskSize begin end_ increment numTasks) t)
            increment).map fun i => (i, capturedValues)) := by
  simp only [runTasks, taskArgs]
  apply runAll_map_eq_some
  intro t ht
  have htn : (t : Int) < numTasks := by
    have := List.mem_range.1 ht
    omega
  apply runTask_args fuel capturedValues s _ _ increment hinc
  obtain ⟨hT, -, -⟩ := taskSize_bounds begin end_ increment numTasks hbe hinc hn hspan
  have ht0 : (0 : Int) ≤ (t : Int) * taskSize begin end_ increment numTasks * increment :=
    mul_nonneg (mul_nonneg (Int.ofNat_nonneg t) (by omega)) (le_of_lt hinc)
  rw [blockStart_of_range begin end_ increment numTasks hbe hinc hn hlo hspan hlast t
      (le_of_lt htn),
    blockEnd_of_range begin end_ increment numTasks hbe hinc hn hlo hspan hlast t htn]
  have := min_le_right
    (begin + (t : Int) * taskSize begin end_ increment numTasks * increment
      + taskSize begin end_ increment numTasks * increment) end_
  omega

/-- The visits of all tasks, task 0 first, are the visits of the sequential loop. -/
theorem tasks_flatten (begin end_ increment numTasks : Int)
    (capturedValues : List LLVMValue) (hbe : begin < end_) (hinc : 0 < increment)
    (hn : 1 ≤ numTasks) (hlo : -2147483648 ≤ begin) (hspan : end_ - begin < 2147483648)
    (hlast : begin + numTasks * taskSize begin end_ increment numTasks * increment
      < 2147483648) :
    ((List.range numTasks.toNat).map fun (t : Nat) =>
        (sequentialIndices
          (blockStart begin increment (taskSize begin end_ increment numTasks) t)
          (blockEnd begin end_ increment (taskSize begin end_ increment numTasks) t)
          increment).map fun i => ((i, capturedValues) : Visit)).flatten
      = (sequentialIndices begin end_ increment).map fun i => (i, capturedValues) := by
  obtain ⟨hT, -, -⟩ := taskSize_bounds begin end_ increment numTasks hbe hinc hn hspan
  have hfl := blocks_flatten begin end_ increment hinc
    (taskSize begin end_ increment numTasks) (by omega) numTasks.toNat
  rw [Int.toNat_of_nonneg (by omega : (0 : Int) ≤ numTasks)] at hfl
  rw [sequentialIndices_of_le _ end_ increment
    (blockStart_numTasks_ge begin end_ increment numTasks hbe hinc hn hspan),
    List.append_nil] at hfl
  have hmap : ((List.range numTasks.toNat).map fun (t : Nat) =>
        (sequentialIndices
          (blockStart begin increment (taskSize begin end_ increment numTasks) t)
          (blockEnd begin end_ increment (taskSize begin end_ increment numTasks) t)
          increment).map fun i => ((i, capturedValues) : Visit))
      = (List.range numTasks.toNat).map fun (t : Nat) =>
        (sequentialIndices
          (begin + (t : Int) * taskSize begin end_ increment numTasks * increment)
          (min (begin + (t : Int) * taskSize begin end_ increment numTasks * increment
            + taskSize begin end_ increment numTasks * increment) end_)
          increment).map fun i => ((i, capturedValues) : Visit) := by
    apply List.map_congr_left
    intro t ht
    have htn : (t : Int) < numTasks := by
      have := List.mem_range.1 ht
      omega
    rw [blockStart_of_range begin end_ increment numTasks hbe hinc hn hlo hspan hlast t
        (le_of_lt htn),
      blockEnd_of_range begin end_ increment numTasks hbe hinc hn hlo hspan hlast t htn]
  rw [hmap, ← hfl, List.map_flatten, List.map_map]
  rfl

/-- An element of a duplicate-free list occurs in it once. -/
theorem count_eq_one_of_nodup {α : Type} [BEq α] [LawfulBEq α] {a : α} {l : List α}
    (hl : l.Nodup) (ha : a ∈ l) : l.count a = 1 := by
  induction l with
  | nil => simp at ha
  | cons b l ih =>
    rw [List.nodup_cons] at hl
    rw [List.count_cons]
    rcases List.mem_cons.1 ha with h | h
    · subst h
      simp [List.count_eq_zero_of_not_mem hl.1]
    · have hne : ¬ (b == a) = true := by
        intro hb
        have := eq_of_beq hb
        subst this
        exact hl.1 h
      simp [ih hl.2 h, hne]

/-! ## C2 -/

/-- C2 (as amended): for `begin < end`, `increment > 0` and `numTasks ≥ 2`, when `begin` is
a 32-bit value and neither the span `end - begin` nor the bound
`begin + numTasks * taskSize * increment` of the last task exceeds `2^31 - 1`, the parallel
path of `EmitLoop` (task 0, then task 1, ..., each task looping from its `blockStart` to
its `blockEnd` by `increment`) finishes and visits exactly the sequence `begin`,
`begin + increment`, ... (all values `< end`) of the sequential fallback loop: the visits
of the tasks, one task after the other, are the visits of the sequential loop, every
visit of the sequential loop is made by the tasks exactly once, and nothing else is
visited.  No loop counter leaves the 32-bit range on the way. -/
theorem C2_parallel_visits_equal_sequential (compilerSettings : CompilerOptions)
    (begin end_ increment : Int) (options : ParallelLoopOptions)
    (capturedValues : List LLVMValue) (hbe : begin < end_) (hinc : 0 < increment)
    (hpar : compilerSettings.parallelize = true)
    (hn : 2 ≤ numTasks compilerSettings options)
    (hlo : -2147483648 ≤ begin) (hspan : end_ - begin < 2147483648)
    (hlast : begin + numTasks compilerSettings options
        * taskSize begin end_ increment (numTasks compilerSettings options) * increment
      < 2147483648)
    (fuel : Nat) (hfuel : (end_ - begin).toNat ≤ fuel) :
    ∃ (tasks : IRTaskArray) (perTask : List (List Visit)),
      emittedCode compilerSettings begin end_ increment options capturedValues
        = [Instr.StartTasks tasks, Instr.WaitAll tasks] ∧
      runTasks fuel tasks = some perTask ∧
      perTask.length = (numTasks compilerSettings options).toNat ∧
      perTask.flatten
        = (sequentialIndices begin end_ increment).map (fun i => (i, capturedValues)) ∧
      runCode fuel (emittedCode compilerSettings begin end_ increment options capturedValues)
        = some perTask.flatten ∧
      runCode fuel (emittedCode (CompilerOptions.mk false compilerSettings.maxThreads)
          begin end_ increment options capturedValues)
        = some perTask.flatten ∧
      runCode fuel (emittedCode compilerSettings begin end_ increment
          (ParallelLoopOptions.mk 1) capturedValues)
        = some perTask.flatten ∧
      (∀ i ∈ sequentialIndices begin end_ increment,
        (perTask.map (List.count (i, capturedValues))).sum = 1) ∧
      (∀ i : Int, i ∈ sequentialIndices begin end_ increment
        ↔ ∃ k : Nat, i = begin + (k : Int) * increment ∧ i < end_) ∧
      (sequentialIndices begin end_ increment).Pairwise (fun a b => a < b) ∧
      (∀ i ∈ sequentialIndices begin end_ increment,
        -2147483648 ≤ i ∧ i + increment < 2147483648) := by
  have hn1 : 1 ≤ numTasks compilerSettings options := by omega
  have hcode := emittedCode_parallel compilerSettings begin end_ increment options
    capturedValues hpar (by omega)
  have hrun := runTasks_taskArgs fuel begin end_ increment (numTasks compilerSettings options)
    capturedValues (EmitterState.mk [] []) hbe hinc hn1 hlo hspan hlast hfuel
  have hflat := tasks_flatten begin end_ increment (numTasks compilerSettings options)
    capturedValues hbe hinc hn1 hlo hspan hlast
  have hseq := runCode_For fuel begin end_ increment capturedValues hinc hfuel
  have hincr := sequentialIndices_increasing begin end_ increment hinc
  refine ⟨_, _, hcode, hrun, by simp, hflat, ?_, ?_, ?_, ?_,
    mem_sequentialIndices begin end_ increment hinc, hincr, ?_⟩
  · rw [hcode]
    simp only [runCode, runAll, runInstr, hrun, Option.map_some', List.flatten_cons,
      List.flatten_nil, List.append_nil, List.nil_append]
  · rw [emittedCode_sequential _ begin end_ increment options capturedValues (Or.inl rfl),
      hseq, hflat]
  · rw [emittedCode_sequential _ begin end_ increment _ capturedValues
      (Or.inr (by simp [numTasks])), hseq, hflat]
  · intro i hi
    rw [← List.count_flatten, hflat]
    apply count_eq_one_of_nodup
    · exact List.Nodup.map (fun a b hab => by simpa using hab) hincr.nodup
    · exact List.mem_map_of_mem _ hi
  · intro i hi
    obtain ⟨k, rfl, hlt⟩ := (mem_sequentialIndices begin end_ increment hinc i).1 hi
    have hk := (iterationCount_spec begin end_ increment hinc k (Int.ofNat_nonneg k)).1 hlt
    rw [← numIterations_eq_iterationCount begin end_ increment hbe hinc hspan] at hk
    obtain ⟨-, hTN, -⟩ := taskSize_bounds begin end_ increment
      (numTasks compilerSettings options) hbe hinc hn1 hspan
    have h0 : (0 : Int) ≤ (k : Int) * increment :=
      mul_nonneg (Int.ofNat_nonneg k) (le_of_lt hinc)
    have hk1 : (k : Int) + 1
        ≤ taskSize begin end_ increment (numTasks compilerSettings options)
          * numTasks compilerSettings options := by omega
    have hm := mul_le_mul_of_nonneg_right hk1 (le_of_lt hinc)
    constructor
    · omega
    · nlinarith

/-- C2 (as amended) at `begin = 0`, `end = 10`, `increment = 3`, three tasks, no captured
value. -/
theorem C2_parallel_visits_equal_sequential_witness :
    ((0 : Int) < 10 ∧ (0 : Int) < 3 ∧ (CompilerOptions.mk true 4).parallelize = true ∧
      2 ≤ numTasks (CompilerOptions.mk true 4) (ParallelLoopOptions.mk 3) ∧
      (-2147483648 : Int) ≤ 0 ∧ (10 : Int) - 0 < 2147483648 ∧
      (0 : Int) + numTasks (CompilerOptions.mk true 4) (ParallelLoopOptions.mk 3)
          * taskSize 0 10 3 (numTasks (CompilerOptions.mk true 4) (ParallelLoopOptions.mk 3))
          * 3 < 2147483648 ∧
      ((10 : Int) - 0).toNat ≤ 10) ∧
    ∃ (tasks : IRTaskArray) (perTask : List (List Visit)),
      emittedCode (CompilerOptions.mk true 4) 0 10 3 (ParallelLoopOptions.mk 3) []
        = [Instr.StartTasks tasks, Instr.WaitAll tasks] ∧
      runTasks 10 tasks = some perTask ∧
      perTask.length = (numTasks (CompilerOptions.mk true 4) (ParallelLoopOptions.mk 3)).toNat ∧
      perTask.flatten = (sequentialIndices 0 10 3).map (fun i => (i, [])) ∧
      runCode 10 (emittedCode (CompilerOptions.mk true 4) 0 10 3 (ParallelLoopOptions.mk 3) [])
        = some perTask.flatten ∧
      runCode 10 (emittedCode (CompilerOptions.mk false (CompilerOptions.mk true 4).maxThreads)
          0 10 3 (ParallelLoopOptions.mk 3) [])
        = some perTask.flatten ∧
      runCode 10 (emittedCode (CompilerOptions.mk true 4) 0 10 3 (ParallelLoopOptions.mk 1) [])
        = some perTask.flatten ∧
      (∀ i ∈ sequentialIndices 0 10 3, (perTask.map (List.count (i, []))).sum = 1) ∧
      (∀ i : Int, i ∈ sequentialIndices 0 10 3
        ↔ ∃ k : Nat, i = 0 + (k : Int) * 3 ∧ i < 10) ∧
      (sequentialIndices 0 10 3).Pairwise (fun a b => a < b) ∧
      (∀ i ∈ sequentialIndices 0 10 3, -2147483648 ≤ i ∧ i + 3 < 2147483648) :=
  ⟨⟨by decide, by decide, rfl, by decide, by decide, by decide, by decide, by decide⟩,
    C2_parallel_visits_equal_sequential (CompilerOptions.mk true 4) 0 10 3
      (ParallelLoopOptions.mk 3) [] (by decide) (by decide) rfl (by decide) (by decide)
      (by decide) (by decide) 10 (by decide)⟩

/-- C2 as stated fails in the emitted 32-bit arithmetic at `begin = 2147483637`,
`end = 2147483647`, `increment = 1` and four tasks: the sequential loop visits the ten
indices `2147483637 .. 2147483646`, while the bound of the last task wraps to
`-2147483647`, the last task runs no iteration, and the tasks visit only the nine indices
`2147483637 .. 2147483645`. -/
theorem C2_counterexample :
    (2147483637 : Int) < 2147483647 ∧ (0 : Int) < 1 ∧
    2 ≤ numTasks (CompilerOptions.mk true 4) (ParallelLoopOptions.mk 4) ∧
    sequentialIndices 2147483637 2147483647 1
      = [2147483637, 2147483638, 2147483639, 2147483640, 2147483641, 2147483642,
          2147483643, 2147483644, 2147483645, 2147483646] ∧
    runCode 10 (emittedCode (CompilerOptions.mk false 4) 2147483637 2147483647 1
        (ParallelLoopOptions.mk 4) [])
      = some ((sequentialIndices 2147483637 2147483647 1).map fun i => (i, [])) ∧
    runTasks 10 (IRTaskArray.mk (GetTaskFunction [] (EmitterState.mk [] [])).2
        (taskArgs 2147483637 2147483647 1 4 []))
      = some [[(2147483637, []), (2147483638, []), (2147483639, [])],
          [(2147483640, []), (2147483641, []), (2147483642, [])],
          [(2147483643, []), (2147483644, []), (2147483645, [])], []] ∧
    runCode 10 (emittedCode (CompilerOptions.mk true 4) 2147483637 2147483647 1
        (ParallelLoopOptions.mk 4) [])
      = some [(2147483637, []), (2147483638, []), (2147483639, []), (2147483640, []),
          (2147483641, []), (2147483642, []), (2147483643, []), (2147483644, []),
          (2147483645, [])] ∧
    runCode 10 (emittedCode (CompilerOptions.mk true 4) 2147483637 2147483647 1
        (ParallelLoopOptions.mk 4) [])
      ≠ runCode 10 (emittedCode (CompilerOptions.mk false 4) 2147483637 2147483647 1
        (ParallelLoopOptions.mk 4) []) := by
  decide

/-! ## C4 -/

/-- On an empty or negative span the block of a task is empty, for every task size the
division produces, when neither bound of the task, `begin + t * taskSize * increment` and
`begin + (t + 1) * taskSize * increment`, leaves the 32-bit range. -/
theorem blockEnd_le_blockStart_of_le (begin end_ increment T : Int) (t : Nat)
    (hle : end_ ≤ begin) (hinc : 0 < increment)
    (h0 : -2147483648 ≤ begin + (t : Int) * T * increment ∧
      begin + (t : Int) * T * increment < 2147483648)
    (h1 : -2147483648 ≤ begin + ((t + 1 : Nat) : Int) * T * increment ∧
      begin + ((t + 1 : Nat) : Int) * T * increment < 2147483648) :
    blockEnd begin end_ increment T t ≤ blockStart begin increment T t := by
  have hnext : begin + (t : Int) * T * increment + T * increment
      = begin + ((t + 1 : Nat) : Int) * T * increment := by
    push_cast; ring
  rw [blockEnd_eq_wrap32, blockStart_eq_wrap32, wrap32_of_range _ h0.1 h0.2, hnext,
    wrap32_of_range _ h1.1 h1.2, ← hnext]
  rcases le_or_lt T 0 with hT | hT
  · have h2 : T * increment ≤ 0 := mul_nonpos_of_nonpos_of_nonneg hT (le_of_lt hinc)
    exact le_trans (min_le_left _ _) (by omega)
  · have h2 : (0 : Int) ≤ (t : Int) * T * increment :=
      mul_nonneg (mul_nonneg (Int.ofNat_nonneg t) (le_of_lt hT)) (le_of_lt hinc)
    exact le_trans (min_le_right _ _) (by omega)

/-- On an empty or negative span the code emitted for given options runs the body at no
index, when on the parallel path no task bound leaves the 32-bit range. -/
theorem runCode_emittedCode_of_le (compilerSettings : CompilerOptions)
    (begin end_ increment : Int) (options : ParallelLoopOptions)
    (capturedValues : List LLVMValue) (hle : end_ ≤ begin) (hinc : 0 < increment)
    (hrange : compilerSettings.parallelize = true → 1 < numTasks compilerSettings options →
      ∀ t : Nat, (t : Int) ≤ numTasks compilerSettings options →
        -2147483648 ≤ begin + (t : Int)
            * taskSize begin end_ increment (numTasks compilerSettings options) * increment ∧
          begin + (t : Int)
            * taskSize begin end_ increment (numTasks compilerSettings options) * increment
            < 2147483648)
    (fuel : Nat) :
    runCode fuel (emittedCode compilerSettings begin end_ increment options capturedValues)
      = some [] := by
  by_cases hseq : compilerSettings.parallelize = false ∨ numTasks compilerSettings options ≤ 1
  · rw [emittedCode_sequential _ begin end_ increment options capturedValues hseq]
    simp [runCode, runAll, runInstr, runFor_of_le fuel begin end_ increment hle]
  · have hpar : compilerSettings.parallelize = true := by
      cases h : compilerSettings.parallelize
      · exact absurd (Or.inl h) hseq
      · rfl
    have hn : 1 < numTasks compilerSettings options := by
      by_contra hcon
      exact hseq (Or.inr (by omega))
    rw [emittedCode_parallel _ begin end_ increment options capturedValues hpar hn]
    have hrun : runTasks fuel (IRTaskArray.mk
          (GetTaskFunction capturedValues (EmitterState.mk [] [])).2
          (taskArgs begin end_ increment (numTasks compilerSettings options) capturedValues))
        = some ((List.range (numTasks compilerSettings options).toNat).map
            fun (_ : Nat) => ([] : List Visit)) := by
      simp only [runTasks, taskArgs]
      apply runAll_map_eq_some
      intro t ht
      have htn : t < (numTasks compilerSettings options).toNat := List.mem_range.1 ht
      have hb := blockEnd_le_blockStart_of_le begin end_ increment
        (taskSize begin end_ increment (numTasks compilerSettings options)) t hle hinc
        (hrange hpar hn t (by omega)) (hrange hpar hn (t + 1) (by push_cast; omega))
      simp [runTask, LocalScalar, runFor_of_le fuel _ _ increment hb]
    simp only [runCode, runAll, runInstr, hrun, Option.map_some']
    simp

/-- C4 (as amended): for `end ≤ begin` (empty or negative span), every `increment > 0` and
every task count, when on the parallel path no task bound
`begin + t * taskSize * increment`, `t = 0 .. numTasks`, leaves the 32-bit range,
`EmitLoop` is a no-op: the emitted code finishes without running the loop body at any
index, on the sequential path as well as on the parallel one, and likewise for the `int`
overload with the task count it hands on; on the parallel path every dispatched task has
`blockEnd ≤ blockStart` and is a legal task that runs zero iterations. -/
theorem C4_empty_span_is_noop (compilerSettings : CompilerOptions)
    (begin end_ increment : Int) (options : ParallelLoopOptions)
    (capturedValues : List LLVMValue) (hle : end_ ≤ begin) (hinc : 0 < increment)
    (hrange : compilerSettings.parallelize = true → 1 < numTasks compilerSettings options →
      ∀ t : Nat, (t : Int) ≤ numTasks compilerSettings options →
        -2147483648 ≤ begin + (t : Int)
            * taskSize begin end_ increment (numTasks compilerSettings options) * increment ∧
          begin + (t : Int)
            * taskSize begin end_ increment (numTasks compilerSettings options) * increment
            < 2147483648)
    (fuel : Nat) :
    runCode fuel (emittedCode compilerSettings begin end_ increment options capturedValues)
      = some [] ∧
    ((compilerSettings.parallelize = true →
        1 < numTasks compilerSettings
          (newOptions compilerSettings begin end_ increment options) →
        ∀ t : Nat, (t : Int) ≤ numTasks compilerSettings
            (newOptions compilerSettings begin end_ increment options) →
          -2147483648 ≤ begin + (t : Int)
              * taskSize begin end_ increment (numTasks compilerSettings
                  (newOptions compilerSettings begin end_ increment options)) * increment ∧
            begin + (t : Int)
              * taskSize begin end_ increment (numTasks compilerSettings
                  (newOptions compilerSettings begin end_ increment options)) * increment
              < 2147483648) →
      runCode fuel (EmitLoopInt compilerSettings begin end_ increment options capturedValues
        (EmitterState.mk [] [])).code = some []) ∧
    (∀ tasks : IRTaskArray,
      Instr.StartTasks tasks
          ∈ emittedCode compilerSettings begin end_ increment options capturedValues →
        tasks.taskArgs.length = (numTasks compilerSettings options).toNat ∧
        ∀ t : Nat, t < tasks.taskArgs.length →
          blockEnd begin end_ increment
              (taskSize begin end_ increment (numTasks compilerSettings options)) t
            ≤ blockStart begin increment
              (taskSize begin end_ increment (numTasks compilerSettings options)) t ∧
          tasks.taskArgs[t]? = some
            ([LocalScalar (blockStart begin increment
                (taskSize begin end_ increment (numTasks compilerSettings options)) t),
              LocalScalar (blockEnd begin end_ increment
                (taskSize begin end_ increment (numTasks compilerSettings options)) t),
              LocalScalar increment] ++ capturedValues) ∧
          (tasks.taskArgs[t]?).bind (runTask fuel tasks.taskFunction) = some []) := by
  refine ⟨runCode_emittedCode_of_le compilerSettings begin end_ increment options
      capturedValues hle hinc hrange fuel,
    fun hrangeInt => runCode_emittedCode_of_le compilerSettings begin end_ increment
      (newOptions compilerSettings begin end_ increment options) capturedValues hle hinc
      hrangeInt fuel, ?_⟩
  intro tasks hmem
  by_cases hseq : compilerSettings.parallelize = false ∨ numTasks compilerSettings options ≤ 1
  · rw [emittedCode_sequential _ begin end_ increment options capturedValues hseq] at hmem
    simp at hmem
  · have hpar : compilerSettings.parallelize = true := by
      cases h : compilerSettings.parallelize
      · exact absurd (Or.inl h) hseq
      · rfl
    have hn : 1 < numTasks compilerSettings options := by
      by_contra hcon
      exact hseq (Or.inr (by omega))
    rw [emittedCode_parallel _ begin end_ increment options capturedValues hpar hn] at hmem
    simp only [List.mem_cons, Instr.StartTasks.injEq, List.mem_singleton, reduceCtorEq,
      or_false, List.not_mem_nil] at hmem
    subst hmem
    refine ⟨by simp [taskArgs], ?_⟩
    intro t ht
    have ht' : t < (numTasks compilerSettings options).toNat := by simpa [taskArgs] using ht
    have hb := blockEnd_le_blockStart_of_le begin end_ increment
      (taskSize begin end_ increment (numTasks compilerSettings options)) t hle hinc
      (hrange hpar hn t (by omega)) (hrange hpar hn (t + 1) (by push_cast; omega))
    have hget : (taskArgs begin end_ increment (numTasks compilerSettings options)
          capturedValues)[t]? = some
        ([LocalScalar (blockStart begin increment
            (taskSize begin end_ increment (numTasks compilerSettings options)) t),
          LocalScalar (blockEnd begin end_ increment
            (taskSize begin end_ increment (numTasks compilerSettings options)) t),
          LocalScalar increment] ++ capturedValues) := by
      simp [taskArgs, List.getElem?_range ht']
    refine ⟨hb, hget, ?_⟩
    rw [hget]
    simp [runTask, LocalScalar, runFor_of_le fuel _ _ increment hb]

/-- C4 (as amended) at `begin = 5`, `end = 2`, `increment = 1` with four tasks requested
(`taskSize = 0`, every task bound is `5`). -/
theorem C4_empty_span_is_noop_witness :
    ((2 : Int) ≤ 5 ∧ (0 : Int) < 1 ∧
      ((CompilerOptions.mk true 4).parallelize = true →
        1 < numTasks (CompilerOptions.mk true 4) (ParallelLoopOptions.mk 4) →
        ∀ t : Nat, (t : Int) ≤ numTasks (CompilerOptions.mk true 4) (ParallelLoopOptions.mk 4) →
          -2147483648 ≤ 5 + (t : Int)
              * taskSize 5 2 1 (numTasks (CompilerOptions.mk true 4) (ParallelLoopOptions.mk 4))
              * 1 ∧
            5 + (t : Int)
              * taskSize 5 2 1 (numTasks (CompilerOptions.mk true 4) (ParallelLoopOptions.mk 4))
              * 1 < 2147483648)) ∧
    (runCode 0 (emittedCode (CompilerOptions.mk true 4) 5 2 1 (ParallelLoopOptions.mk 4) [])
      = some [] ∧
    (((CompilerOptions.mk true 4).parallelize = true →
        1 < numTasks (CompilerOptions.mk true 4)
          (newOptions (CompilerOptions.mk true 4) 5 2 1 (ParallelLoopOptions.mk 4)) →
        ∀ t : Nat, (t : Int) ≤ numTasks (CompilerOptions.mk true 4)
            (newOptions (CompilerOptions.mk true 4) 5 2 1 (ParallelLoopOptions.mk 4)) →
          -2147483648 ≤ 5 + (t : Int)
              * taskSize 5 2 1 (numTasks (CompilerOptions.mk true 4)
                  (newOptions (CompilerOptions.mk true 4) 5 2 1 (ParallelLoopOptions.mk 4)))
              * 1 ∧
            5 + (t : Int)
              * taskSize 5 2 1 (numTasks (CompilerOptions.mk true 4)
                  (newOptions (CompilerOptions.mk true 4) 5 2 1 (ParallelLoopOptions.mk 4)))
              * 1 < 2147483648) →
      runCode 0 (EmitLoopInt (CompilerOptions.mk true 4) 5 2 1 (ParallelLoopOptions.mk 4) []
        (EmitterState.mk [] [])).code = some []) ∧
    (∀ tasks : IRTaskArray,
      Instr.StartTasks tasks
          ∈ emittedCode (CompilerOptions.mk true 4) 5 2 1 (ParallelLoopOptions.mk 4) [] →
        tasks.taskArgs.length
          = (numTasks (CompilerOptions.mk true 4) (ParallelLoopOptions.mk 4)).toNat ∧
        ∀ t : Nat, t < tasks.taskArgs.length →
          blockEnd 5 2 1
              (taskSize 5 2 1 (numTasks (CompilerOptions.mk true 4) (ParallelLoopOptions.mk 4))) t
            ≤ blockStart 5 1
              (taskSize 5 2 1 (numTasks (CompilerOptions.mk true 4) (ParallelLoopOptions.mk 4))) t ∧
          tasks.taskArgs[t]? = some
            ([LocalScalar (blockStart 5 1
                (taskSize 5 2 1
                  (numTasks (CompilerOptions.mk true 4) (ParallelLoopOptions.mk 4))) t),
              LocalScalar (blockEnd 5 2 1
                (taskSize 5 2 1
                  (numTasks (CompilerOptions.mk true 4) (ParallelLoopOptions.mk 4))) t),
              LocalScalar 1] ++ []) ∧
          (tasks.taskArgs[t]?).bind (runTask 0 tasks.taskFunction) = some [])) := by
  have hrange : (CompilerOptions.mk true 4).parallelize = true →
      1 < numTasks (CompilerOptions.mk true 4) (ParallelLoopOptions.mk 4) →
      ∀ t : Nat, (t : Int) ≤ numTasks (CompilerOptions.mk true 4) (ParallelLoopOptions.mk 4) →
        -2147483648 ≤ 5 + (t : Int)
            * taskSize 5 2 1 (numTasks (CompilerOptions.mk true 4) (ParallelLoopOptions.mk 4))
            * 1 ∧
          5 + (t : Int)
            * taskSize 5 2 1 (numTasks (CompilerOptions.mk true 4) (ParallelLoopOptions.mk 4))
            * 1 < 2147483648 := by
    intro _ _ t _
    have hT : taskSize 5 2 1 (numTasks (CompilerOptions.mk true 4) (ParallelLoopOptions.mk 4))
        = 0 := by decide
    rw [hT]
    omega
  exact ⟨⟨by decide, by decide, hrange⟩,
    C4_empty_span_is_noop (CompilerOptions.mk true 4) 5 2 1 (ParallelLoopOptions.mk 4) []
      (by decide) (by decide) hrange 0⟩

/-- C4 as stated fails in the emitted 32-bit arithmetic at `begin = end = 2147483647`,
`increment = 1` and two tasks (`taskSize = 1`): the `blockStart` of task 1 is
`2147483647 + 1`, which wraps to `-2147483648`, its `blockEnd` is
`Min(-2147483647, 2147483647) = -2147483647`, so that dispatched task has
`blockEnd > blockStart` and runs the body once, at index `-2147483648`. -/
theorem C4_counterexample :
    (2147483647 : Int) ≤ 2147483647 ∧ (0 : Int) < 1 ∧
    taskSize 2147483647 2147483647 1
      (numTasks (CompilerOptions.mk true 2) (ParallelLoopOptions.mk 2)) = 1 ∧
    blockStart 2147483647 1 (taskSize 2147483647 2147483647 1 2) 1 = -2147483648 ∧
    blockEnd 2147483647 2147483647 1 (taskSize 2147483647 2147483647 1 2) 1 = -2147483647 ∧
    ¬ (blockEnd 2147483647 2147483647 1 (taskSize 2147483647 2147483647 1 2) 1
      ≤ blockStart 2147483647 1 (taskSize 2147483647 2147483647 1 2) 1) ∧
    runCode 1 (emittedCode (CompilerOptions.mk true 2) 2147483647 2147483647 1
        (ParallelLoopOptions.mk 2) [])
      = some [(-2147483648, [])] ∧
    runCode 1 (emittedCode (CompilerOptions.mk true 2) 2147483647 2147483647 1
        (ParallelLoopOptions.mk 2) [])
      ≠ some [] := by
  decide

/-! ## C5 -/

/-- On a non-empty representable span with `maxThreads ≥ 1` the defaulted task count is not
the "unspecified" marker `0`, so the second overload keeps it. -/
theorem numTasks_newOptions_of_lt (compilerSettings : CompilerOptions)
    (begin end_ increment : Int) (options : ParallelLoopOptions) (hinc : 0 < increment)
    (hmax : 1 ≤ compilerSettings.maxThreads) (hopt : options.numTasks = 0)
    (hbe : begin < end_) (hspan : end_ - begin < 2147483648) :
    numTasks compilerSettings (newOptions compilerSettings begin end_ increment options)
      = min (numIterationsInt begin end_ increment) compilerSettings.maxThreads := by
  have hN : 1 ≤ numIterationsInt begin end_ increment := by
    rw [numIterationsInt_eq begin end_ increment hbe hinc hspan]
    exact (numIterations_bounds begin end_ increment hbe hinc hspan).2.2
  have hmin : 1 ≤ min (numIterationsInt begin end_ increment) compilerSettings.maxThreads :=
    le_min hN hmax
  have hne : min (numIterationsInt begin end_ increment) compilerSettings.maxThreads ≠ 0 := by
    omega
  simp [numTasks, newOptions, hopt, hne]

/-- `EmitLoop` depends on its options only through the task count of line 43. -/
theorem EmitLoop_congr_numTasks (compilerSettings : CompilerOptions)
    (begin end_ increment : Int) (options options' : ParallelLoopOptions)
    (capturedValues : List LLVMValue) (s : EmitterState)
    (h : numTasks compilerSettings options = numTasks compilerSettings options') :
    EmitLoop compilerSettings begin end_ increment options capturedValues s
      = EmitLoop compilerSettings begin end_ increment options' capturedValues s := by
  simp only [EmitLoop, h]

/-- Asking explicitly for the task count of line 43 gives that task count again. -/
theorem numTasks_numTasks (compilerSettings : CompilerOptions)
    (options : ParallelLoopOptions) :
    numTasks compilerSettings (ParallelLoopOptions.mk (numTasks compilerSettings options))
      = numTasks compilerSettings options := by
  by_cases h0 : numTasks compilerSettings options = 0
  · have hmax : compilerSettings.maxThreads = 0 := by
      unfold numTasks at h0
      split at h0
      · exact h0
      · contradiction
    rw [h0]
    simp [numTasks, hmax]
  · generalize numTasks compilerSettings options = n at h0 ⊢
    simp [numTasks, h0]

/-- C5 (as amended): for `begin < end` with a span `end - begin` that is representable as
an `int`, `increment > 0`, `maxThreads ≥ 1` and the task count left unspecified
(`options.numTasks == 0`), the task count that `EmitLoop(int begin, int end, int increment,
...)` uses for `taskSize` and for the choice between the sequential and the parallel path
is `min(numIterations, maxThreads)`, with `numIterations = ceil((end - begin) /
increment)`. -/
theorem C5_default_task_count (compilerSettings : CompilerOptions)
    (begin end_ increment : Int) (options : ParallelLoopOptions)
    (capturedValues : List LLVMValue) (s : EmitterState) (hinc : 0 < increment)
    (hmax : 1 ≤ compilerSettings.maxThreads) (hopt : options.numTasks = 0)
    (hbe : begin < end_) (hspan : end_ - begin < 2147483648) :
    numTasks compilerSettings (newOptions compilerSettings begin end_ increment options)
      = min (numIterationsInt begin end_ increment) compilerSettings.maxThreads ∧
    numIterationsInt begin end_ increment
      = ⌈(((end_ - begin : Int) : ℚ)) / ((increment : Int) : ℚ)⌉ ∧
    EmitLoopInt compilerSettings begin end_ increment options capturedValues s
      = EmitLoop compilerSettings begin end_ increment
          (ParallelLoopOptions.mk
            (min (numIterationsInt begin end_ increment) compilerSettings.maxThreads))
          capturedValues s := by
  have hcount := numTasks_newOptions_of_lt compilerSettings begin end_ increment options
    hinc hmax hopt hbe hspan
  refine ⟨hcount, ?_, ?_⟩
  · rw [numIterationsInt_eq_iterationCount begin end_ increment hinc (by omega) hspan]
    exact iterationCount_eq_ceil begin end_ increment hbe hinc
  · rw [← hcount]
    simp only [EmitLoopInt]
    apply EmitLoop_congr_numTasks
    exact (numTasks_numTasks compilerSettings _).symm

/-- C5 (as amended) at `begin = 0`, `end = 10`, `increment = 3`, `maxThreads = 2`. -/
theorem C5_default_task_count_witness :
    ((0 : Int) < 3 ∧ 1 ≤ (CompilerOptions.mk true 2).maxThreads ∧
      (ParallelLoopOptions.mk 0).numTasks = 0 ∧ (0 : Int) < 10 ∧
      (10 : Int) - 0 < 2147483648) ∧
    (numTasks (CompilerOptions.mk true 2)
        (newOptions (CompilerOptions.mk true 2) 0 10 3 (ParallelLoopOptions.mk 0))
      = min (numIterationsInt 0 10 3) (CompilerOptions.mk true 2).maxThreads ∧
    numIterationsInt 0 10 3 = ⌈((((10 : Int) - 0 : Int) : ℚ)) / (((3 : Int) : Int) : ℚ)⌉ ∧
    EmitLoopInt (CompilerOptions.mk true 2) 0 10 3 (ParallelLoopOptions.mk 0) []
        (EmitterState.mk [] [])
      = EmitLoop (CompilerOptions.mk true 2) 0 10 3
          (ParallelLoopOptions.mk
            (min (numIterationsInt 0 10 3) (CompilerOptions.mk true 2).maxThreads))
          [] (EmitterState.mk [] [])) :=
  ⟨⟨by decide, by decide, rfl, by decide, by decide⟩,
    C5_default_task_count (CompilerOptions.mk true 2) 0 10 3 (ParallelLoopOptions.mk 0) []
      (EmitterState.mk [] []) (by decide) (by decide) rfl (by decide) (by decide)⟩

/-- C5 as stated fails in two ways.  On the empty span `begin = end = 0`, `increment = 1`,
`maxThreads = 4`, task count unspecified, `min(numIterations, maxThreads)` is `0`, but the
task count used is `4`, and four (empty) tasks are dispatched.  For the `int` arguments
`begin = -1`, `end = 2147483647`, `increment = 1073741824` (two iterations) the difference
`end - begin` is not an `int`; with its two's-complement value the count is `0`, and the
task count used is again `4`, not `min(2, 4)`. -/
theorem C5_counterexample :
    ((0 : Int) < 1 ∧ 1 ≤ (CompilerOptions.mk true 4).maxThreads ∧
      (ParallelLoopOptions.mk 0).numTasks = 0 ∧
      min (numIterationsInt 0 0 1) (CompilerOptions.mk true 4).maxThreads = 0 ∧
      numTasks (CompilerOptions.mk true 4)
          (newOptions (CompilerOptions.mk true 4) 0 0 1 (ParallelLoopOptions.mk 0)) = 4 ∧
      numTasks (CompilerOptions.mk true 4)
          (newOptions (CompilerOptions.mk true 4) 0 0 1 (ParallelLoopOptions.mk 0))
        ≠ min (numIterationsInt 0 0 1) (CompilerOptions.mk true 4).maxThreads ∧
      dispatchedTasks (EmitLoopInt (CompilerOptions.mk true 4) 0 0 1 (ParallelLoopOptions.mk 0)
        [] (EmitterState.mk [] [])).code = 4) ∧
    ((0 : Int) < 1073741824 ∧ (-1 : Int) < 2147483647 ∧
      iterationCount (-1) 2147483647 1073741824 = 2 ∧
      numIterationsInt (-1) 2147483647 1073741824 = 0 ∧
      numTasks (CompilerOptions.mk true 4)
          (newOptions (CompilerOptions.mk true 4) (-1) 2147483647 1073741824
            (ParallelLoopOptions.mk 0)) = 4 ∧
      numTasks (CompilerOptions.mk true 4)
          (newOptions (CompilerOptions.mk true 4) (-1) 2147483647 1073741824
            (ParallelLoopOptions.mk 0))
        ≠ min (numIterationsInt (-1) 2147483647 1073741824)
            (CompilerOptions.mk true 4).maxThreads ∧
      numTasks (CompilerOptions.mk true 4)
          (newOptions (CompilerOptions.mk true 4) (-1) 2147483647 1073741824
            (ParallelLoopOptions.mk 0))
        ≠ min (iterationCount (-1) 2147483647 1073741824)
            (CompilerOptions.mk true 4).maxThreads) := by
  decide

/-! ## C6 -/

/-- `EmitLoop` appends its instructions to those already emitted. -/
theorem EmitLoop_code (compilerSettings : CompilerOptions) (begin end_ increment : Int)
    (options : ParallelLoopOptions) (capturedValues : List LLVMValue) (s : EmitterState) :
    (EmitLoop compilerSettings begin end_ increment options capturedValues s).code
      = s.code ++ emittedCode compilerSettings begin end_ increment options capturedValues := by
  by_cases h : (compilerSettings.parallelize && decide (numTasks compilerSettings options > 1))
      = true
  · simp [emittedCode, EmitLoop, h, GetTaskFunction]
  · simp [emittedCode, EmitLoop, h]

/-- The two paths of `EmitLoop` exclude each other. -/
theorem parallel_of_not_sequential (compilerSettings : CompilerOptions)
    (options : ParallelLoopOptions)
    (h : ¬ (compilerSettings.parallelize = false ∨ numTasks compilerSettings options ≤ 1)) :
    compilerSettings.parallelize = true ∧ 1 < numTasks compilerSettings options := by
  constructor
  · cases hp : compilerSettings.parallelize
    · exact absurd (Or.inl hp) h
    · rfl
  · by_contra hcon
    exact h (Or.inr (by omega))

/-- C6: `EmitLoop` emits a single ordinary sequential loop over `[begin, end)` with step
`increment`, and dispatches no task, if and only if the compiler option `parallelize` is
false or the effective `numTasks` is `≤ 1`; otherwise it dispatches exactly `numTasks`
task invocations and emits no sequential loop in the calling function. -/
theorem C6_sequential_iff_disabled_or_single_task (compilerSettings : CompilerOptions)
    (begin end_ increment : Int) (options : ParallelLoopOptions)
    (capturedValues : List LLVMValue) (s : EmitterState) :
    (EmitLoop compilerSettings begin end_ increment options capturedValues s).code
      = s.code ++ emittedCode compilerSettings begin end_ increment options capturedValues ∧
    (emittedCode compilerSettings begin end_ increment options capturedValues
        = [Instr.For begin end_ increment capturedValues]
      ↔ (compilerSettings.parallelize = false ∨ numTasks compilerSettings options ≤ 1)) ∧
    ((sequentialLoops
          (emittedCode compilerSettings begin end_ increment options capturedValues) = 1 ∧
        dispatchedTasks
          (emittedCode compilerSettings begin end_ increment options capturedValues) = 0 ∧
        dispatches
          (emittedCode compilerSettings begin end_ increment options capturedValues) = 0)
      ↔ (compilerSettings.parallelize = false ∨ numTasks compilerSettings options ≤ 1)) ∧
    (¬ (compilerSettings.parallelize = false ∨ numTasks compilerSettings options ≤ 1) →
      ∃ tasks : IRTaskArray,
        emittedCode compilerSettings begin end_ increment options capturedValues
          = [Instr.StartTasks tasks, Instr.WaitAll tasks] ∧
        (tasks.taskArgs.length : Int) = numTasks compilerSettings options ∧
        (dispatchedTasks
            (emittedCode compilerSettings begin end_ increment options capturedValues) : Int)
          = numTasks compilerSettings options ∧
        sequentialLoops
          (emittedCode compilerSettings begin end_ increment options capturedValues) = 0) := by
  refine ⟨EmitLoop_code compilerSettings begin end_ increment options capturedValues s, ?_⟩
  by_cases hseq : compilerSettings.parallelize = false ∨ numTasks compilerSettings options ≤ 1
  · have hcode := emittedCode_sequential compilerSettings begin end_ increment options
      capturedValues hseq
    refine ⟨⟨fun _ => hseq, fun _ => hcode⟩, ⟨fun _ => hseq, fun _ => ?_⟩,
      fun h => absurd hseq h⟩
    rw [hcode]
    simp [sequentialLoops, dispatchedTasks, dispatches]
  · obtain ⟨hpar, hn⟩ := parallel_of_not_sequential compilerSettings options hseq
    have hcode := emittedCode_parallel compilerSettings begin end_ increment options
      capturedValues hpar hn
    have hlen : (((taskArgs begin end_ increment (numTasks compilerSettings options)
        capturedValues).length : Nat) : Int) = numTasks compilerSettings options := by
      simp only [taskArgs, List.length_map, List.length_range]
      exact Int.toNat_of_nonneg (by omega)
    refine ⟨⟨fun h => ?_, fun h => absurd h hseq⟩, ⟨fun h => ?_, fun h => absurd h hseq⟩,
      fun _ => ⟨_, hcode, hlen, ?_, ?_⟩⟩
    · rw [hcode] at h
      simp at h
    · rw [hcode] at h
      simp [sequentialLoops] at h
    · rw [hcode]
      simpa [dispatchedTasks] using hlen
    · rw [hcode]
      simp [sequentialLoops]

/-! ## C7 -/

/-- C7: on the parallel path, for every task index `t` in `[0, numTasks)` the argument
list passed to the task function is exactly `blockStart t`, `blockEnd t`, `increment`
followed by all `capturedValues` in their original order, of length
`3 + |capturedValues|`; the list of argument lists has exactly `numTasks` entries in
increasing task-index order; and the task function built by `GetTaskFunction` takes its
parameters in the same order, three `Int32` and then the captured types. -/
theorem C7_task_argument_lists (compilerSettings : CompilerOptions)
    (begin end_ increment : Int) (options : ParallelLoopOptions)
    (capturedValues : List LLVMValue)
    (hpar : compilerSettings.parallelize = true)
    (hn : 1 < numTasks compilerSettings options) :
    ∃ tasks : IRTaskArray,
      emittedCode compilerSettings begin end_ increment options capturedValues
        = [Instr.StartTasks tasks, Instr.WaitAll tasks] ∧
      (tasks.taskArgs.length : Int) = numTasks compilerSettings options ∧
      (∀ t : Nat, (t : Int) < numTasks compilerSettings options →
        tasks.taskArgs[t]? = some
          ([LocalScalar (blockStart begin increment
              (taskSize begin end_ increment (numTasks compilerSettings options)) t),
            LocalScalar (blockEnd begin end_ increment
              (taskSize begin end_ increment (numTasks compilerSettings options)) t),
            LocalScalar increment] ++ capturedValues)) ∧
      (∀ args ∈ tasks.taskArgs,
        args.length = 3 + capturedValues.length ∧ args.drop 3 = capturedValues ∧
        args.map LLVMValue.ty = tasks.taskFunction.argTypes) ∧
      tasks.taskFunction = (GetTaskFunction capturedValues (EmitterState.mk [] [])).2 ∧
      tasks.taskFunction.argTypes
        = [LLVMType.Int32, LLVMType.Int32, LLVMType.Int32]
          ++ capturedValues.map LLVMValue.ty ∧
      tasks.taskFunction.numCapturedValues = capturedValues.length := by
  have hcode := emittedCode_parallel compilerSettings begin end_ increment options
    capturedValues hpar hn
  refine ⟨_, hcode, ?_, ?_, ?_, rfl, rfl, rfl⟩
  · simp only [taskArgs, List.length_map, List.length_range]
    exact Int.toNat_of_nonneg (by omega)
  · intro t ht
    have ht' : t < (numTasks compilerSettings options).toNat := by omega
    simp [taskArgs, List.getElem?_range ht']
  · intro args hargs
    simp only [taskArgs, List.mem_map, List.mem_range] at hargs
    obtain ⟨t, -, rfl⟩ := hargs
    simp [LocalScalar, GetTaskFunction, GetLLVMTypes]
    omega

/-- C7 at `begin = 0`, `end = 10`, `increment = 1`, three tasks and two captured
values. -/
theorem C7_task_argument_lists_witness :
    ((CompilerOptions.mk true 4).parallelize = true ∧
      1 < numTasks (CompilerOptions.mk true 4) (ParallelLoopOptions.mk 3)) ∧
    ∃ tasks : IRTaskArray,
      emittedCode (CompilerOptions.mk true 4) 0 10 1 (ParallelLoopOptions.mk 3)
          [LLVMValue.mk (LLVMType.Other 7) 100, LLVMValue.mk (LLVMType.Other 8) 200]
        = [Instr.StartTasks tasks, Instr.WaitAll tasks] ∧
      (tasks.taskArgs.length : Int)
        = numTasks (CompilerOptions.mk true 4) (ParallelLoopOptions.mk 3) ∧
      (∀ t : Nat, (t : Int) < numTasks (CompilerOptions.mk true 4) (ParallelLoopOptions.mk 3) →
        tasks.taskArgs[t]? = some
          ([LocalScalar (blockStart 0 1
              (taskSize 0 10 1
                (numTasks (CompilerOptions.mk true 4) (ParallelLoopOptions.mk 3))) t),
            LocalScalar (blockEnd 0 10 1
              (taskSize 0 10 1
                (numTasks (CompilerOptions.mk true 4) (ParallelLoopOptions.mk 3))) t),
            LocalScalar 1]
            ++ [LLVMValue.mk (LLVMType.Other 7) 100, LLVMValue.mk (LLVMType.Other 8) 200])) ∧
      (∀ args ∈ tasks.taskArgs,
        args.length
          = 3 + [LLVMValue.mk (LLVMType.Other 7) 100,
              LLVMValue.mk (LLVMType.Other 8) 200].length ∧
        args.drop 3
          = [LLVMValue.mk (LLVMType.Other 7) 100, LLVMValue.mk (LLVMType.Other 8) 200] ∧
        args.map LLVMValue.ty = tasks.taskFunction.argTypes) ∧
      tasks.taskFunction
        = (GetTaskFunction
            [LLVMValue.mk (LLVMType.Other 7) 100, LLVMValue.mk (LLVMType.Other 8) 200]
            (EmitterState.mk [] [])).2 ∧
      tasks.taskFunction.argTypes
        = [LLVMType.Int32, LLVMType.Int32, LLVMType.Int32]
          ++ [LLVMValue.mk (LLVMType.Other 7) 100,
              LLVMValue.mk (LLVMType.Other 8) 200].map LLVMValue.ty ∧
      tasks.taskFunction.numCapturedValues
        = [LLVMValue.mk (LLVMType.Other 7) 100,
            LLVMValue.mk (LLVMType.Other 8) 200].length :=
  ⟨⟨rfl, by decide⟩,
    C7_task_argument_lists (CompilerOptions.mk true 4) 0 10 1 (ParallelLoopOptions.mk 3)
      [LLVMValue.mk (LLVMType.Other 7) 100, LLVMValue.mk (LLVMType.Other 8) 200] rfl
      (by decide)⟩

/-! ## C8 -/

/-- C8: for `begin = 0`, `end = 10`, `increment = 1` and `numTasks = 3`, `EmitLoop`
computes `numIterations = 10` and `taskSize = 4`, and the three task ranges are `[0,4)`,
`[4,8)` and `[8,10)`. -/
theorem C8_example_three_tasks_over_ten :
    numIterations 0 10 1 = 10 ∧
    numIterationsInt 0 10 1 = 10 ∧
    numTasks (CompilerOptions.mk true 8) (ParallelLoopOptions.mk 3) = 3 ∧
    taskSize 0 10 1 3 = 4 ∧
    (List.range 3).map (fun (t : Nat) => (blockStart 0 1 4 t, blockEnd 0 10 1 4 t))
      = [(0, 4), (4, 8), (8, 10)] ∧
    taskArgs 0 10 1 3 []
      = [[LocalScalar 0, LocalScalar 4, LocalScalar 1],
         [LocalScalar 4, LocalScalar 8, LocalScalar 1],
         [LocalScalar 8, LocalScalar 10, LocalScalar 1]] ∧
    (EmitLoopInt (CompilerOptions.mk true 8) 0 10 1 (ParallelLoopOptions.mk 3) []
        (EmitterState.mk [] [])).code
      = [Instr.StartTasks (IRTaskArray.mk
            (TaskFunction.mk "parForTask" LLVMType.Void
              [LLVMType.Int32, LLVMType.Int32, LLVMType.Int32] 0)
            [[LocalScalar 0, LocalScalar 4, LocalScalar 1],
             [LocalScalar 4, LocalScalar 8, LocalScalar 1],
             [LocalScalar 8, LocalScalar 10, LocalScalar 1]]),
         Instr.WaitAll (IRTaskArray.mk
            (TaskFunction.mk "parForTask" LLVMType.Void
              [LLVMType.Int32, LLVMType.Int32, LLVMType.Int32] 0)
            [[LocalScalar 0, LocalScalar 4, LocalScalar 1],
             [LocalScalar 4, LocalScalar 8, LocalScalar 1],
             [LocalScalar 8, LocalScalar 10, LocalScalar 1]])] := by
  decide

/-! ## C9 -/

/-- C9: the loop over `[0,16)` with increment `1` split into `numTasks = 4` gets the task
ranges `[0,4)`, `[4,8)`, `[8,12)`, `[12,16)`; with `a = [1..16]` and each task
accumulating `a[i]` over its own range into its own partial accumulator, the partial
accumulators are `10, 26, 42, 58`, and their sum equals the sequential sum over `[0,16)`,
which is `136`. -/
theorem C9_sum_reduction_four_tasks :
    scenarioArray = [1, 2, 3, 4, 5, 6, 7, 8, 9, 10, 11, 12, 13, 14, 15, 16] ∧
    taskArgs 0 16 1 4 []
      = [[LocalScalar 0, LocalScalar 4, LocalScalar 1],
         [LocalScalar 4, LocalScalar 8, LocalScalar 1],
         [LocalScalar 8, LocalScalar 12, LocalScalar 1],
         [LocalScalar 12, LocalScalar 16, LocalScalar 1]] ∧
    emittedCode (CompilerOptions.mk true 4) 0 16 1 (ParallelLoopOptions.mk 4) []
      = [Instr.StartTasks (IRTaskArray.mk (GetTaskFunction [] (EmitterState.mk [] [])).2
            (taskArgs 0 16 1 4 [])),
         Instr.WaitAll (IRTaskArray.mk (GetTaskFunction [] (EmitterState.mk [] [])).2
            (taskArgs 0 16 1 4 []))] ∧
    (runTasks 16 (IRTaskArray.mk (GetTaskFunction [] (EmitterState.mk [] [])).2
        (taskArgs 0 16 1 4 []))).map (List.map (accumulate scenarioArray))
      = some [10, 26, 42, 58] ∧
    (runTasks 16 (IRTaskArray.mk (GetTaskFunction [] (EmitterState.mk [] [])).2
        (taskArgs 0 16 1 4 []))).map
          (fun perTask => (perTask.map (accumulate scenarioArray)).sum)
      = some 136 ∧
    (runCode 16 (emittedCode (CompilerOptions.mk false 4) 0 16 1 (ParallelLoopOptions.mk 4)
        [])).map (accumulate scenarioArray)
      = some 136 := by
  decide

/-! ## C10 -/

/-- C10: on the parallel path `EmitLoop` emits one dispatch (`StartTasks`) carrying all
`numTasks` argument lists and then, as the next and last instruction, the wait on those
same tasks (`WaitAll`): nothing is emitted between the two, no task is started after the
wait, and whatever is emitted after `EmitLoop` comes after the wait. -/
theorem C10_dispatch_then_join (compilerSettings : CompilerOptions)
    (begin end_ increment : Int) (options : ParallelLoopOptions)
    (capturedValues : List LLVMValue) (s : EmitterState)
    (hpar : compilerSettings.parallelize = true)
    (hn : 1 < numTasks compilerSettings options) :
    ∃ tasks : IRTaskArray,
      (EmitLoop compilerSettings begin end_ increment options capturedValues s).code
        = s.code ++ [Instr.StartTasks tasks, Instr.WaitAll tasks] ∧
      tasks.taskArgs
        = taskArgs begin end_ increment (numTasks compilerSettings options) capturedValues ∧
      (tasks.taskArgs.length : Int) = numTasks compilerSettings options ∧
      dispatches [Instr.StartTasks tasks, Instr.WaitAll tasks] = 1 ∧
      (EmitLoop compilerSettings begin end_ increment options capturedValues s).code.getLast?
        = some (Instr.WaitAll tasks) ∧
      (∀ later : List Instr,
        (EmitLoop compilerSettings begin end_ increment options capturedValues s).code ++ later
          = (s.code ++ [Instr.StartTasks tasks]) ++ Instr.WaitAll tasks :: later) := by
  have hcode := emittedCode_parallel compilerSettings begin end_ increment options
    capturedValues hpar hn
  have hall := EmitLoop_code compilerSettings begin end_ increment options capturedValues s
  rw [hcode] at hall
  refine ⟨_, hall, rfl, ?_, by simp [dispatches], ?_, ?_⟩
  · simp only [taskArgs, List.length_map, List.length_range]
    exact Int.toNat_of_nonneg (by omega)
  · rw [hall]
    simp
  · intro later
    rw [hall]
    simp

/-- C10 at `begin = 0`, `end = 10`, `increment = 1`, three tasks, emitted after one
earlier loop. -/
theorem C10_dispatch_then_join_witness :
    ((CompilerOptions.mk true 4).parallelize = true ∧
      1 < numTasks (CompilerOptions.mk true 4) (ParallelLoopOptions.mk 3)) ∧
    ∃ tasks : IRTaskArray,
      (EmitLoop (CompilerOptions.mk true 4) 0 10 1 (ParallelLoopOptions.mk 3) []
          (EmitterState.mk [] [Instr.For 0 2 1 []])).code
        = (EmitterState.mk [] [Instr.For 0 2 1 []]).code
          ++ [Instr.StartTasks tasks, Instr.WaitAll tasks] ∧
      tasks.taskArgs
        = taskArgs 0 10 1 (numTasks (CompilerOptions.mk true 4) (ParallelLoopOptions.mk 3)) [] ∧
      (tasks.taskArgs.length : Int)
        = numTasks (CompilerOptions.mk true 4) (ParallelLoopOptions.mk 3) ∧
      dispatches [Instr.StartTasks tasks, Instr.WaitAll tasks] = 1 ∧
      (EmitLoop (CompilerOptions.mk true 4) 0 10 1 (ParallelLoopOptions.mk 3) []
          (EmitterState.mk [] [Instr.For 0 2 1 []])).code.getLast?
        = some (Instr.WaitAll tasks) ∧
      (∀ later : List Instr,
        (EmitLoop (CompilerOptions.mk true 4) 0 10 1 (ParallelLoopOptions.mk 3) []
            (EmitterState.mk [] [Instr.For 0 2 1 []])).code ++ later
          = ((EmitterState.mk [] [Instr.For 0 2 1 []]).code ++ [Instr.StartTasks tasks])
            ++ Instr.WaitAll tasks :: later) :=
  ⟨⟨rfl, by decide⟩,
    C10_dispatch_then_join (CompilerOptions.mk true 4) 0 10 1 (ParallelLoopOptions.mk 3) []
      (EmitterState.mk [] [Instr.For 0 2 1 []]) rfl (by decide)⟩


/-! ## C11 -/

/-- `EmitLoop` on the parallel path adds the function of `GetTaskFunction` to the module,
and nothing else. -/
theorem EmitLoop_functions_parallel (compilerSettings : CompilerOptions)
    (begin end_ increment : Int) (options : ParallelLoopOptions)
    (capturedValues : List LLVMValue) (s : EmitterState)
    (hpar : compilerSettings.parallelize = true) (hn : 1 < numTasks compilerSettings options) :
    (EmitLoop compilerSettings begin end_ increment options capturedValues s).functions
      = s.functions ++ [(GetTaskFunction capturedValues s).2] := by
  have hn' : numTasks compilerSettings options > 1 := hn
  simp [EmitLoop, hpar, hn', GetTaskFunction]

/-- C11: for `numTasks ≥ 2`, one call of `EmitLoop` on the parallel path creates exactly
one task function (one `GetTaskFunction` call, hence one emission of the user body, and
no loop in the calling function); all `numTasks` dispatched invocations refer to that one
function; and the functions created are the same for every other task count `≥ 2`. -/
theorem C11_one_task_function (compilerSettings : CompilerOptions)
    (begin end_ increment : Int) (options : ParallelLoopOptions)
    (capturedValues : List LLVMValue) (s : EmitterState)
    (hpar : compilerSettings.parallelize = true)
    (hn : 2 ≤ numTasks compilerSettings options) :
    ∃ (taskFunction : TaskFunction) (tasks : IRTaskArray),
      taskFunction = (GetTaskFunction capturedValues s).2 ∧
      (EmitLoop compilerSettings begin end_ increment options capturedValues s).functions
        = s.functions ++ [taskFunction] ∧
      (EmitLoop compilerSettings begin end_ increment options capturedValues s).functions.length
        = s.functions.length + 1 ∧
      (EmitLoop compilerSettings begin end_ increment options capturedValues s).code
        = s.code ++ [Instr.StartTasks tasks, Instr.WaitAll tasks] ∧
      tasks.taskFunction = taskFunction ∧
      (tasks.taskArgs.length : Int) = numTasks compilerSettings options ∧
      sequentialLoops [Instr.StartTasks tasks, Instr.WaitAll tasks] = 0 ∧
      (∀ options' : ParallelLoopOptions, 2 ≤ numTasks compilerSettings options' →
        (EmitLoop compilerSettings begin end_ increment options' capturedValues s).functions
          = s.functions ++ [taskFunction]) := by
  have hfun := EmitLoop_functions_parallel compilerSettings begin end_ increment options
    capturedValues s hpar (by omega)
  have hcode := emittedCode_parallel compilerSettings begin end_ increment options
    capturedValues hpar (by omega)
  have hall := EmitLoop_code compilerSettings begin end_ increment options capturedValues s
  rw [hcode] at hall
  refine ⟨_, _, rfl, hfun, ?_, hall, ?_, ?_, by simp [sequentialLoops], ?_⟩
  · rw [hfun]; simp
  · simp [GetTaskFunction]
  · simp only [taskArgs, List.length_map, List.length_range]
    exact Int.toNat_of_nonneg (by omega)
  · intro options' hn'
    exact EmitLoop_functions_parallel compilerSettings begin end_ increment options'
      capturedValues s hpar (by omega)

/-- C11 at `begin = 0`, `end = 10`, `increment = 1`, five tasks, one captured value. -/
theorem C11_one_task_function_witness :
    ((CompilerOptions.mk true 4).parallelize = true ∧
      2 ≤ numTasks (CompilerOptions.mk true 4) (ParallelLoopOptions.mk 5)) ∧
    ∃ (taskFunction : TaskFunction) (tasks : IRTaskArray),
      taskFunction
        = (GetTaskFunction [LLVMValue.mk (LLVMType.Other 7) 100] (EmitterState.mk [] [])).2 ∧
      (EmitLoop (CompilerOptions.mk true 4) 0 10 1 (ParallelLoopOptions.mk 5)
          [LLVMValue.mk (LLVMType.Other 7) 100] (EmitterState.mk [] [])).functions
        = (EmitterState.mk [] []).functions ++ [taskFunction] ∧
      (EmitLoop (CompilerOptions.mk true 4) 0 10 1 (ParallelLoopOptions.mk 5)
          [LLVMValue.mk (LLVMType.Other 7) 100] (EmitterState.mk [] [])).functions.length
        = (EmitterState.mk [] []).functions.length + 1 ∧
      (EmitLoop (CompilerOptions.mk true 4) 0 10 1 (ParallelLoopOptions.mk 5)
          [LLVMValue.mk (LLVMType.Other 7) 100] (EmitterState.mk [] [])).code
        = (EmitterState.mk [] []).code ++ [Instr.StartTasks tasks, Instr.WaitAll tasks] ∧
      tasks.taskFunction = taskFunction ∧
      (tasks.taskArgs.length : Int)
        = numTasks (CompilerOptions.mk true 4) (ParallelLoopOptions.mk 5) ∧
      sequentialLoops [Instr.StartTasks tasks, Instr.WaitAll tasks] = 0 ∧
      (∀ options' : ParallelLoopOptions, 2 ≤ numTasks (CompilerOptions.mk true 4) options' →
        (EmitLoop (CompilerOptions.mk true 4) 0 10 1 options'
            [LLVMValue.mk (LLVMType.Other 7) 100] (EmitterState.mk [] [])).functions
          = (EmitterState.mk [] []).functions ++ [taskFunction]) :=
  ⟨⟨rfl, by decide⟩,
    C11_one_task_function (CompilerOptions.mk true 4) 0 10 1 (ParallelLoopOptions.mk 5)
      [LLVMValue.mk (LLVMType.Other 7) 100] (EmitterState.mk [] []) rfl (by decide)⟩

/-! ## C24 -/

/-- C24 (as amended): for `increment > 0` and a positive span (`begin < end`) that is
representable in 32 bits, the value `numIterations = (span - 1) / increment + 1` that the
`IRLocalScalar` overload computes in emitted signed 32-bit arithmetic equals the value the
`int` overload computes, the ceiling of `(end - begin) / increment`. -/
theorem C24_iteration_counts_of_overloads (begin end_ increment : Int)
    (hinc : 0 < increment) (hbe : begin < end_) (hspan : end_ - begin < 2147483648) :
    numIterations begin end_ increment = numIterationsInt begin end_ increment ∧
    numIterationsInt begin end_ increment
      = ⌈(((end_ - begin : Int) : ℚ)) / ((increment : Int) : ℚ)⌉ := by
  refine ⟨(numIterationsInt_eq begin end_ increment hbe hinc hspan).symm, ?_⟩
  rw [numIterationsInt_eq_iterationCount begin end_ increment hinc (by omega) hspan]
  exact iterationCount_eq_ceil begin end_ increment hbe hinc

/-- C24 (as amended) at `begin = 0`, `end = 10`, `increment = 3`: both overloads count
four iterations. -/
theorem C24_iteration_counts_of_overloads_witness :
    ((0 : Int) < 3 ∧ (0 : Int) < 10 ∧ (10 : Int) - 0 < 2147483648) ∧
    (numIterations 0 10 3 = numIterationsInt 0 10 3 ∧
      numIterationsInt 0 10 3 = ⌈((((10 : Int) - 0 : Int) : ℚ)) / (((3 : Int) : Int) : ℚ)⌉) :=
  ⟨⟨by decide, by decide, by decide⟩,
    C24_iteration_counts_of_overloads 0 10 3 (by decide) (by decide) (by decide)⟩

/-- C24 as stated fails in two ways.  On the empty span `begin = end = 0` with
`increment = 2` the `IRLocalScalar` overload computes `(0 - 1) / 2 + 1 = 1` (the division
truncates `-1 / 2` to `0`), the `int` overload computes `0`.  For `begin = -1`,
`end = 2147483647`, `increment = 1` the span is not a 32-bit value: the emitted arithmetic
wraps it to `-2^31` and yields `-2^31`, which is neither the ceiling `2^31` nor the `0` of
the `int` overload (taken on the two's-complement value of its span). -/
theorem C24_counterexample :
    ((0 : Int) < 2 ∧ numIterations 0 0 2 = 1 ∧ numIterationsInt 0 0 2 = 0 ∧
      numIterations 0 0 2 ≠ numIterationsInt 0 0 2) ∧
    ((0 : Int) < 1 ∧ (-1 : Int) < 2147483647 ∧
      numIterations (-1) 2147483647 1 = -2147483648 ∧
      numIterationsInt (-1) 2147483647 1 = 0 ∧
      iterationCount (-1) 2147483647 1 = 2147483648 ∧
      numIterations (-1) 2147483647 1 ≠ numIterationsInt (-1) 2147483647 1 ∧
      numIterations (-1) 2147483647 1 ≠ iterationCount (-1) 2147483647 1) := by
  decide

/-! ## C25 -/

/-- C25 (as amended): for `begin < end`, `increment > 0` and every `numTasks ≥ 1`, also one
larger than the number of iterations, when `begin` is a 32-bit value and neither the span
`end - begin` nor the bound `begin + numTasks * taskSize * increment` of the last task
exceeds `2^31 - 1`, the task ranges that `EmitLoop` computes are pairwise disjoint and
their union is `[begin, end)`; every task `t` with `t * taskSize ≥ numIterations` has
`blockEnd ≤ blockStart`, an empty range. -/
theorem C25_partition_with_surplus_tasks (begin end_ increment numTasks : Int)
    (hbe : begin < end_) (hinc : 0 < increment) (h1 : 1 ≤ numTasks)
    (hlo : -2147483648 ≤ begin) (hspan : end_ - begin < 2147483648)
    (hlast : begin + numTasks * taskSize begin end_ increment numTasks * increment
      < 2147483648) :
    (∀ t u : Nat, (t : Int) < numTasks → (u : Int) < numTasks → t ≠ u →
      ∀ x : Int,
        ¬ ((blockStart begin increment (taskSize begin end_ increment numTasks) t ≤ x ∧
            x < blockEnd begin end_ increment (taskSize begin end_ increment numTasks) t) ∧
          (blockStart begin increment (taskSize begin end_ increment numTasks) u ≤ x ∧
            x < blockEnd begin end_ increment (taskSize begin end_ increment numTasks) u))) ∧
    (∀ x : Int, (begin ≤ x ∧ x < end_) ↔
      ∃ t : Nat, (t : Int) < numTasks ∧
        blockStart begin increment (taskSize begin end_ increment numTasks) t ≤ x ∧
        x < blockEnd begin end_ increment (taskSize begin end_ increment numTasks) t) ∧
    (∀ t : Nat, (t : Int) < numTasks →
      numIterations begin end_ increment
          ≤ (t : Int) * taskSize begin end_ increment numTasks →
        blockEnd begin end_ increment (taskSize begin end_ increment numTasks) t
          ≤ blockStart begin increment (taskSize begin end_ increment numTasks) t) ∧
    (numIterations begin end_ increment < numTasks →
      taskSize begin end_ increment numTasks = 1) := by
  refine ⟨?_, ?_, ?_, ?_⟩
  · intro t u ht hu htu x ⟨⟨_, ht2⟩, ⟨_, hu2⟩⟩
    rcases Nat.lt_or_gt_of_ne htu with h | h
    · have := block_ordered begin end_ increment numTasks hbe hinc h1 hlo hspan hlast t u h hu
      omega
    · have := block_ordered begin end_ increment numTasks hbe hinc h1 hlo hspan hlast u t h ht
      omega
  · intro x
    constructor
    · exact block_cover begin end_ increment numTasks hbe hinc h1 hlo hspan hlast x
    · rintro ⟨t, ht, hx⟩
      exact block_subset begin end_ increment numTasks hbe hinc h1 hlo hspan hlast t ht x hx
  · intro t htn ht
    obtain ⟨-, h2, -⟩ := numIterations_bounds begin end_ increment hbe hinc hspan
    have hmul : numIterations begin end_ increment * increment
        ≤ (t : Int) * taskSize begin end_ increment numTasks * increment :=
      Int.mul_le_mul_of_nonneg_right ht (le_of_lt hinc)
    rw [blockStart_of_range begin end_ increment numTasks hbe hinc h1 hlo hspan hlast t
        (le_of_lt htn),
      blockEnd_of_range begin end_ increment numTasks hbe hinc h1 hlo hspan hlast t htn]
    have hmin := min_le_right
      (begin + (t : Int) * taskSize begin end_ increment numTasks * increment
        + taskSize begin end_ increment numTasks * increment) end_
    omega
  · intro hlt
    obtain ⟨hT, -, h3⟩ := taskSize_bounds begin end_ increment numTasks hbe hinc h1 hspan
    by_contra hne
    have h2 : 1 ≤ taskSize begin end_ increment numTasks - 1 := by omega
    have : numTasks ≤ (taskSize begin end_ increment numTasks - 1) * numTasks := by
      nlinarith
    omega

/-- C25 (as amended) at `begin = 0`, `end = 3`, `increment = 1` and five tasks for three
iterations. -/
theorem C25_partition_with_surplus_tasks_witness :
    ((0 : Int) < 3 ∧ (0 : Int) < 1 ∧ (1 : Int) ≤ 5 ∧ (-2147483648 : Int) ≤ 0 ∧
      (3 : Int) - 0 < 2147483648 ∧ (0 : Int) + 5 * taskSize 0 3 1 5 * 1 < 2147483648) ∧
    ((∀ t u : Nat, (t : Int) < 5 → (u : Int) < 5 → t ≠ u →
      ∀ x : Int,
        ¬ ((blockStart 0 1 (taskSize 0 3 1 5) t ≤ x ∧
            x < blockEnd 0 3 1 (taskSize 0 3 1 5) t) ∧
          (blockStart 0 1 (taskSize 0 3 1 5) u ≤ x ∧
            x < blockEnd 0 3 1 (taskSize 0 3 1 5) u))) ∧
    (∀ x : Int, ((0 : Int) ≤ x ∧ x < 3) ↔
      ∃ t : Nat, (t : Int) < 5 ∧
        blockStart 0 1 (taskSize 0 3 1 5) t ≤ x ∧
        x < blockEnd 0 3 1 (taskSize 0 3 1 5) t) ∧
    (∀ t : Nat, (t : Int) < 5 →
      numIterations 0 3 1 ≤ (t : Int) * taskSize 0 3 1 5 →
        blockEnd 0 3 1 (taskSize 0 3 1 5) t ≤ blockStart 0 1 (taskSize 0 3 1 5) t) ∧
    (numIterations 0 3 1 < 5 → taskSize 0 3 1 5 = 1)) :=
  ⟨⟨by decide, by decide, by decide, by decide, by decide, by decide⟩,
    C25_partition_with_surplus_tasks 0 3 1 5 (by decide) (by decide) (by decide) (by decide)
      (by decide) (by decide)⟩

/-- C25 as stated fails in the emitted 32-bit arithmetic at `begin = 0`,
`end = 1342177280` (`5 * 2^28`), `increment = 268435456` (`2^28`) and nine tasks (five
iterations, `taskSize = 1`): task 8 has `8 * taskSize ≥ numIterations`, but its
`blockStart = 8 * 2^28 = 2^31` wraps to `-2147483648` and its `blockEnd` is
`-2147483648 + 2^28`, so its range is not empty, and it holds the index `-2147483648`,
which is outside `[begin, end)`. -/
theorem C25_counterexample :
    (0 : Int) < 1342177280 ∧ (0 : Int) < 268435456 ∧ (1 : Int) ≤ 9 ∧
    numIterations 0 1342177280 268435456 = 5 ∧
    taskSize 0 1342177280 268435456 9 = 1 ∧
    numIterations 0 1342177280 268435456
      ≤ ((8 : Nat) : Int) * taskSize 0 1342177280 268435456 9 ∧
    blockStart 0 268435456 (taskSize 0 1342177280 268435456 9) ((8 : Nat) : Int)
      = -2147483648 ∧
    blockEnd 0 1342177280 268435456 (taskSize 0 1342177280 268435456 9) ((8 : Nat) : Int)
      = -1879048192 ∧
    ¬ (blockEnd 0 1342177280 268435456 (taskSize 0 1342177280 268435456 9) ((8 : Nat) : Int)
      ≤ blockStart 0 268435456 (taskSize 0 1342177280 268435456 9) ((8 : Nat) : Int)) ∧
    ¬ (((0 : Int) ≤ -2147483648 ∧ (-2147483648 : Int) < 1342177280) ↔
      ∃ t : Nat, (t : Int) < 9 ∧
        blockStart 0 268435456 (taskSize 0 1342177280 268435456 9) t ≤ -2147483648 ∧
        -2147483648 < blockEnd 0 1342177280 268435456 (taskSize 0 1342177280 268435456 9) t) := by
  refine ⟨by decide, by decide, by decide, by decide, by decide, by decide, by decide,
    by decide, by decide, ?_⟩
  intro h
  have hmem : ∃ t : Nat, (t : Int) < 9 ∧
      blockStart 0 268435456 (taskSize 0 1342177280 268435456 9) t ≤ -2147483648 ∧
      -2147483648 < blockEnd 0 1342177280 268435456 (taskSize 0 1342177280 268435456 9) t :=
    ⟨8, by decide, by decide, by decide⟩
  have := (h.2 hmem).1
  omega

/-! ## C26 -/

/-- The task count of the `IRLocalScalar` overload is not zero when `maxThreads` is not. -/
theorem numTasks_ne_zero (compilerSettings : CompilerOptions) (options : ParallelLoopOptions)
    (hmax : compilerSettings.maxThreads ≠ 0) : numTasks compilerSettings options ≠ 0 := by
  unfold numTasks
  split
  · exact hmax
  · assumption

/-- A division by a non-zero divisor is defined: it is the truncating 32-bit quotient. -/
theorem checkedDiv_of_ne_zero (a b : Int) (hb : b ≠ 0) : checkedDiv a b = some (div32 a b) := by
  simp [checkedDiv, hb]

/-- C26: when `increment != 0` and `maxThreads != 0`, no division of `EmitLoop` has a zero
divisor.  The divisor `numTasks` of `taskSize` is not zero for any `options.numTasks` (`0`
is replaced by `maxThreads`), also for the options that the `int` overload hands on; the
other divisor is `increment`; so the checked computations of both overloads are defined
and yield `taskSize`.  With `increment == 0` the division by it is undefined. -/
theorem C26_no_zero_divisor (compilerSettings : CompilerOptions)
    (begin end_ increment : Int) (options : ParallelLoopOptions)
    (hinc : increment ≠ 0) (hmax : compilerSettings.maxThreads ≠ 0) :
    numTasks compilerSettings options ≠ 0 ∧
    numTasks compilerSettings (newOptions compilerSettings begin end_ increment options) ≠ 0 ∧
    taskSizeChecked compilerSettings begin end_ increment options
      = some (taskSize begin end_ increment (numTasks compilerSettings options)) ∧
    numIterationsIntChecked begin end_ increment
      = some (numIterationsInt begin end_ increment) ∧
    taskSizeIntChecked compilerSettings begin end_ increment options
      = some (taskSize begin end_ increment
          (numTasks compilerSettings
            (newOptions compilerSettings begin end_ increment options))) ∧
    taskSizeChecked compilerSettings begin end_ 0 options = none := by
  have hn := numTasks_ne_zero compilerSettings options hmax
  have hn2 := numTasks_ne_zero compilerSettings
    (newOptions compilerSettings begin end_ increment options) hmax
  have hchecked : ∀ options : ParallelLoopOptions,
      taskSizeChecked compilerSettings begin end_ increment options
        = some (taskSize begin end_ increment (numTasks compilerSettings options)) := by
    intro options
    simp only [taskSizeChecked, checkedDiv_of_ne_zero _ _ hinc,
      checkedDiv_of_ne_zero _ _ (numTasks_ne_zero compilerSettings options hmax),
      Option.some_bind, Option.map_some, taskSize, numIterations]
    rfl
  have hint : numIterationsIntChecked begin end_ increment
      = some (numIterationsInt begin end_ increment) := by
    simp only [numIterationsIntChecked, numIterationsInt, checkedDiv_of_ne_zero _ _ hinc]
    split <;> rfl
  refine ⟨hn, hn2, hchecked options, hint, ?_, ?_⟩
  · simp only [taskSizeIntChecked, hint, Option.some_bind]
    exact hchecked _
  · simp [taskSizeChecked, checkedDiv]

/-- C26 at `begin = 0`, `end = 10`, `increment = 3`, `maxThreads = 4` and an unspecified
task count. -/
theorem C26_no_zero_divisor_witness :
    ((3 : Int) ≠ 0 ∧ (CompilerOptions.mk true 4).maxThreads ≠ 0) ∧
    (numTasks (CompilerOptions.mk true 4) (ParallelLoopOptions.mk 0) ≠ 0 ∧
    numTasks (CompilerOptions.mk true 4)
      (newOptions (CompilerOptions.mk true 4) 0 10 3 (ParallelLoopOptions.mk 0)) ≠ 0 ∧
    taskSizeChecked (CompilerOptions.mk true 4) 0 10 3 (ParallelLoopOptions.mk 0)
      = some (taskSize 0 10 3
          (numTasks (CompilerOptions.mk true 4) (ParallelLoopOptions.mk 0))) ∧
    numIterationsIntChecked 0 10 3 = some (numIterationsInt 0 10 3) ∧
    taskSizeIntChecked (CompilerOptions.mk true 4) 0 10 3 (ParallelLoopOptions.mk 0)
      = some (taskSize 0 10 3
          (numTasks (CompilerOptions.mk true 4)
            (newOptions (CompilerOptions.mk true 4) 0 10 3 (ParallelLoopOptions.mk 0)))) ∧
    taskSizeChecked (CompilerOptions.mk true 4) 0 10 0 (ParallelLoopOptions.mk 0) = none) :=
  ⟨⟨by decide, by decide⟩,
    C26_no_zero_divisor (CompilerOptions.mk true 4) 0 10 3 (ParallelLoopOptions.mk 0)
      (by decide) (by decide)⟩

end Emitters

namespace value

/-! ## C13 -/

/-- C13: constructing a `Tensor` from a `Value` succeeds if and only if the value is
defined, is constrained and its layout has exactly 3 dimensions; in every other case (in
particular for an undefined value) the constructor fails with an invalid-argument error
and no name has been set: the context is the one before the call. -/
theorem C13_tensor_constructor {α : Type} (value : Value) (name : String)
    (context : ComputeContext α) :
    ((∃ t : Tensor, (Tensor.new value name context).1 = Except.ok t)
      ↔ (value.IsDefined = true ∧ value.IsConstrained = true ∧
          ∃ layout, value.layout = some layout ∧ layout.NumDimensions = 3)) ∧
    (¬ (value.IsDefined = true ∧ value.IsConstrained = true ∧
          ∃ layout, value.layout = some layout ∧ layout.NumDimensions = 3) →
      Tensor.new value name context
        = (Except.error (Exception.InputException InputExceptionErrors.invalidArgument),
            context)) ∧
    (value.IsDefined = false →
      Tensor.new value name context
        = (Except.error (Exception.InputException InputExceptionErrors.invalidArgument),
            context)) ∧
    ((value.IsDefined = true ∧ value.IsConstrained = true ∧
          ∃ layout, value.layout = some layout ∧ layout.NumDimensions = 3) →
      (Tensor.new value name context).1 = Except.ok (Tensor.mk value) ∧
      (Tensor.new value name context).2.memory = context.memory ∧
      (Tensor.new value name context).2.namedValues
        = if name.isEmpty then context.namedValues
          else (value, name) :: context.namedValues) := by
  have hfail : ¬ (value.IsDefined = true ∧ value.IsConstrained = true ∧
        ∃ layout, value.layout = some layout ∧ layout.NumDimensions = 3) →
      Tensor.new value name context
        = (Except.error (Exception.InputException InputExceptionErrors.invalidArgument),
            context) := by
    intro h
    rcases value with ⟨data, ty, layout⟩
    cases data <;> cases layout <;>
      simp_all [Tensor.new, Value.IsDefined, Value.IsConstrained]
  have hok : (value.IsDefined = true ∧ value.IsConstrained = true ∧
        ∃ layout, value.layout = some layout ∧ layout.NumDimensions = 3) →
      (Tensor.new value name context).1 = Except.ok (Tensor.mk value) ∧
      (Tensor.new value name context).2.memory = context.memory ∧
      (Tensor.new value name context).2.namedValues
        = if name.isEmpty then context.namedValues
          else (value, name) :: context.namedValues := by
    rintro ⟨hd, hc, layout, hl, h3⟩
    by_cases hn : name.isEmpty = true
    · simp [Tensor.new, hd, hc, hl, h3, hn]
    · simp [Tensor.new, hd, hc, hl, h3, hn, ComputeContext.SetName]
  refine ⟨⟨?_, fun h => ⟨_, (hok h).1⟩⟩, hfail, ?_, hok⟩
  · rintro ⟨t, ht⟩
    by_contra hcon
    rw [hfail hcon] at ht
    cases ht
  · intro hd
    apply hfail
    rintro ⟨hd', -⟩
    rw [hd] at hd'
    cases hd'


/-! ## C17 -/

/-- The six dimension orders of a three-dimensional layout. -/
theorem perm3_cases (order : List Nat) (h : order.Perm [0, 1, 2]) :
    order = [0, 1, 2] ∨ order = [0, 2, 1] ∨ order = [1, 0, 2] ∨ order = [1, 2, 0] ∨
      order = [2, 0, 1] ∨ order = [2, 1, 0] := by
  have hlen := h.length_eq
  have hnd : order.Nodup := h.nodup_iff.2 (by decide)
  have hmem : ∀ x ∈ order, x = 0 ∨ x = 1 ∨ x = 2 := fun x hx => by
    simpa using h.mem_iff.1 hx
  match order, hlen, hnd, hmem with
  | [a, b, c], _, hnd, hmem =>
    have ha := hmem a (by simp)
    have hb := hmem b (by simp)
    have hc := hmem c (by simp)
    simp only [List.nodup_cons, List.mem_cons, List.mem_singleton, List.not_mem_nil,
      not_or, List.nodup_nil] at hnd
    rcases ha with rfl | rfl | rfl <;> rcases hb with rfl | rfl | rfl <;>
      rcases hc with rfl | rfl | rfl <;> simp_all

/-- A list of length three has three entries. -/
theorem length_three {β : Type} (l : List β) (h : l.length = 3) :
    ∃ a b c, l = [a, b, c] := by
  match l, h with
  | [a, b, c], _ => exact ⟨a, b, c, rfl⟩

/-- `Slice(row, column, Slice)` keeps the channel dimension. -/
theorem SliceRowColumn_layout (t : Tensor) (layout : MemoryLayout)
    (hlayout : t._value.layout = some layout) (hdim : layout.NumDimensions = 3)
    (horder : layout.dimensionOrder.Perm [0, 1, 2]) (row column : Int) :
    ∃ L : MemoryLayout, L.NumDimensions = 1 ∧ L.size = [t.Channels] ∧
      L.dimensionOrder = [0] ∧
      t.SliceRowColumn row column
        = (Offset t._value [row, column, 0]).map fun v => v.SetLayout L := by
  rcases t with ⟨⟨data, ty, lay⟩⟩
  simp only at hlayout
  subst hlayout
  rcases layout with ⟨size, extent, offset, order⟩
  obtain ⟨s0, s1, s2, rfl⟩ := length_three size hdim
  simp only at horder
  have hcases := perm3_cases order horder
  refine ⟨_, ?_, ?_, ?_, rfl⟩
  · rcases hcases with h | h | h | h | h | h <;> subst h <;>
      simp [MemoryLayout.NumDimensions, MemoryLayout.GetSliceLayout,
        MemoryLayout.GetPhysicalDimension, Tensor.GetLayout, List.indexOf_cons]
  · rcases hcases with h | h | h | h | h | h <;> subst h <;>
      simp [MemoryLayout.GetSliceLayout, MemoryLayout.GetPhysicalDimension, Tensor.GetLayout,
        List.indexOf_cons, Tensor.Channels, MemoryLayout.GetLogicalDimensionActiveSize]
  · rcases hcases with h | h | h | h | h | h <;> subst h <;>
      simp [MemoryLayout.GetSliceLayout, MemoryLayout.GetPhysicalDimension, Tensor.GetLayout,
        List.indexOf_cons]

/-- `Slice(row, Slice, channel)` keeps the column dimension. -/
theorem SliceRowChannel_layout (t : Tensor) (layout : MemoryLayout)
    (hlayout : t._value.layout = some layout) (hdim : layout.NumDimensions = 3)
    (horder : layout.dimensionOrder.Perm [0, 1, 2]) (row channel : Int) :
    ∃ L : MemoryLayout, L.NumDimensions = 1 ∧ L.size = [t.Columns] ∧
      L.dimensionOrder = [0] ∧
      t.SliceRowChannel row channel
        = (Offset t._value [row, 0, channel]).map fun v => v.SetLayout L := by
  rcases t with ⟨⟨data, ty, lay⟩⟩
  simp only at hlayout
  subst hlayout
  rcases layout with ⟨size, extent, offset, order⟩
  obtain ⟨s0, s1, s2, rfl⟩ := length_three size hdim
  simp only at horder
  have hcases := perm3_cases order horder
  refine ⟨_, ?_, ?_, ?_, rfl⟩
  · rcases hcases with h | h | h | h | h | h <;> subst h <;>
      simp [MemoryLayout.NumDimensions, MemoryLayout.GetSliceLayout,
        MemoryLayout.GetPhysicalDimension, Tensor.GetLayout, List.indexOf_cons]
  · rcases hcases with h | h | h | h | h | h <;> subst h <;>
      simp [MemoryLayout.GetSliceLayout, MemoryLayout.GetPhysicalDimension, Tensor.GetLayout,
        List.indexOf_cons, Tensor.Columns, MemoryLayout.GetLogicalDimensionActiveSize]
  · rcases hcases with h | h | h | h | h | h <;> subst h <;>
      simp [MemoryLayout.GetSliceLayout, MemoryLayout.GetPhysicalDimension, Tensor.GetLayout,
        List.indexOf_cons]

/-- `Slice(Slice, column, channel)` keeps the row dimension. -/
theorem SliceColumnChannel_layout (t : Tensor) (layout : MemoryLayout)
    (hlayout : t._value.layout = some layout) (hdim : layout.NumDimensions = 3)
    (horder : layout.dimensionOrder.Perm [0, 1, 2]) (column channel : Int) :
    ∃ L : MemoryLayout, L.NumDimensions = 1 ∧ L.size = [t.Rows] ∧
      L.dimensionOrder = [0] ∧
      t.SliceColumnChannel column channel
        = (Offset t._value [0, column, channel]).map fun v => v.SetLayout L := by
  rcases t with ⟨⟨data, ty, lay⟩⟩
  simp only at hlayout
  subst hlayout
  rcases layout with ⟨size, extent, offset, order⟩
  obtain ⟨s0, s1, s2, rfl⟩ := length_three size hdim
  simp only at horder
  have hcases := perm3_cases order horder
  refine ⟨_, ?_, ?_, ?_, rfl⟩
  · rcases hcases with h | h | h | h | h | h <;> subst h <;>
      simp [MemoryLayout.NumDimensions, MemoryLayout.GetSliceLayout,
        MemoryLayout.GetPhysicalDimension, Tensor.GetLayout, List.indexOf_cons]
  · rcases hcases with h | h | h | h | h | h <;> subst h <;>
      simp [MemoryLayout.GetSliceLayout, MemoryLayout.GetPhysicalDimension, Tensor.GetLayout,
        List.indexOf_cons, Tensor.Rows, MemoryLayout.GetLogicalDimensionActiveSize]
  · rcases hcases with h | h | h | h | h | h <;> subst h <;>
      simp [MemoryLayout.GetSliceLayout, MemoryLayout.GetPhysicalDimension, Tensor.GetLayout,
        List.indexOf_cons]

/-- `Slice(row, Slice, Slice)` keeps the column and channel dimensions, in order. -/
theorem SliceRow_layout (t : Tensor) (layout : MemoryLayout)
    (hlayout : t._value.layout = some layout) (hdim : layout.NumDimensions = 3)
    (horder : layout.dimensionOrder.Perm [0, 1, 2]) (row : Int) :
    ∃ M : MemoryLayout, M.NumDimensions = 2 ∧
      M.GetLogicalDimensionActiveSize 0 = t.Columns ∧
      M.GetLogicalDimensionActiveSize 1 = t.Channels ∧
      (M.GetPhysicalDimension 0 < M.GetPhysicalDimension 1
        ↔ layout.GetPhysicalDimension 1 < layout.GetPhysicalDimension 2) ∧
      t.SliceRow row = (Offset t._value [row, 0, 0]).map fun v => v.SetLayout M := by
  rcases t with ⟨⟨data, ty, lay⟩⟩
  simp only at hlayout
  subst hlayout
  rcases layout with ⟨size, extent, offset, order⟩
  obtain ⟨s0, s1, s2, rfl⟩ := length_three size hdim
  simp only at horder
  have hcases := perm3_cases order horder
  refine ⟨_, ?_, ?_, ?_, ?_, rfl⟩
  · rcases hcases with h | h | h | h | h | h <;> subst h <;>
      simp [MemoryLayout.NumDimensions, MemoryLayout.GetSliceLayout,
        MemoryLayout.GetPhysicalDimension, Tensor.GetLayout, List.indexOf_cons]
  · rcases hcases with h | h | h | h | h | h <;> subst h <;>
      simp [MemoryLayout.GetSliceLayout, MemoryLayout.GetPhysicalDimension, Tensor.GetLayout,
        List.indexOf_cons, Tensor.Columns, MemoryLayout.GetLogicalDimensionActiveSize]
  · rcases hcases with h | h | h | h | h | h <;> subst h <;>
      simp [MemoryLayout.GetSliceLayout, MemoryLayout.GetPhysicalDimension, Tensor.GetLayout,
        List.indexOf_cons, Tensor.Channels, MemoryLayout.GetLogicalDimensionActiveSize]
  · rcases hcases with h | h | h | h | h | h <;> subst h <;>
      simp [MemoryLayout.GetSliceLayout, MemoryLayout.GetPhysicalDimension, Tensor.GetLayout,
        List.indexOf_cons]

/-- `Slice(Slice, column, Slice)` keeps the row and channel dimensions, in order. -/
theorem SliceColumn_layout (t : Tensor) (layout : MemoryLayout)
    (hlayout : t._value.layout = some layout) (hdim : layout.NumDimensions = 3)
    (horder : layout.dimensionOrder.Perm [0, 1, 2]) (column : Int) :
    ∃ M : MemoryLayout, M.NumDimensions = 2 ∧
      M.GetLogicalDimensionActiveSize 0 = t.Rows ∧
      M.GetLogicalDimensionActiveSize 1 = t.Channels ∧
      (M.GetPhysicalDimension 0 < M.GetPhysicalDimension 1
        ↔ layout.GetPhysicalDimension 0 < layout.GetPhysicalDimension 2) ∧
      t.SliceColumn column = (Offset t._value [0, column, 0]).map fun v => v.SetLayout M := by
  rcases t with ⟨⟨data, ty, lay⟩⟩
  simp only at hlayout
  subst hlayout
  rcases layout with ⟨size, extent, offset, order⟩
  obtain ⟨s0, s1, s2, rfl⟩ := length_three size hdim
  simp only at horder
  have hcases := perm3_cases order horder
  refine ⟨_, ?_, ?_, ?_, ?_, rfl⟩
  · rcases hcases with h | h | h | h | h | h <;> subst h <;>
      simp [MemoryLayout.NumDimensions, MemoryLayout.GetSliceLayout,
        MemoryLayout.GetPhysicalDimension, Tensor.GetLayout, List.indexOf_cons]
  · rcases hcases with h | h | h | h | h | h <;> subst h <;>
      simp [MemoryLayout.GetSliceLayout, MemoryLayout.GetPhysicalDimension, Tensor.GetLayout,
        List.indexOf_cons, Tensor.Rows, MemoryLayout.GetLogicalDimensionActiveSize]
  · rcases hcases with h | h | h | h | h | h <;> subst h <;>
      simp [MemoryLayout.GetSliceLayout, MemoryLayout.GetPhysicalDimension, Tensor.GetLayout,
        List.indexOf_cons, Tensor.Channels, MemoryLayout.GetLogicalDimensionActiveSize]
  · rcases hcases with h | h | h | h | h | h <;> subst h <;>
      simp [MemoryLayout.GetSliceLayout, MemoryLayout.GetPhysicalDimension, Tensor.GetLayout,
        List.indexOf_cons]

/-- `Slice(Slice, Slice, channel)` keeps the row and column dimensions, in order. -/
theorem SliceChannel_layout (t : Tensor) (layout : MemoryLayout)
    (hlayout : t._value.layout = some layout) (hdim : layout.NumDimensions = 3)
    (horder : layout.dimensionOrder.Perm [0, 1, 2]) (channel : Int) :
    ∃ M : MemoryLayout, M.NumDimensions = 2 ∧
      M.GetLogicalDimensionActiveSize 0 = t.Rows ∧
      M.GetLogicalDimensionActiveSize 1 = t.Columns ∧
      (M.GetPhysicalDimension 0 < M.GetPhysicalDimension 1
        ↔ layout.GetPhysicalDimension 0 < layout.GetPhysicalDimension 1) ∧
      t.SliceChannel channel = (Offset t._value [0, 0, channel]).map fun v => v.SetLayout M := by
  rcases t with ⟨⟨data, ty, lay⟩⟩
  simp only at hlayout
  subst hlayout
  rcases layout with ⟨size, extent, offset, order⟩
  obtain ⟨s0, s1, s2, rfl⟩ := length_three size hdim
  simp only at horder
  have hcases := perm3_cases order horder
  refine ⟨_, ?_, ?_, ?_, ?_, rfl⟩
  · rcases hcases with h | h | h | h | h | h <;> subst h <;>
      simp [MemoryLayout.NumDimensions, MemoryLayout.GetSliceLayout,
        MemoryLayout.GetPhysicalDimension, Tensor.GetLayout, List.indexOf_cons]
  · rcases hcases with h | h | h | h | h | h <;> subst h <;>
      simp [MemoryLayout.GetSliceLayout, MemoryLayout.GetPhysicalDimension, Tensor.GetLayout,
        List.indexOf_cons, Tensor.Rows, MemoryLayout.GetLogicalDimensionActiveSize]
  · rcases hcases with h | h | h | h | h | h <;> subst h <;>
      simp [MemoryLayout.GetSliceLayout, MemoryLayout.GetPhysicalDimension, Tensor.GetLayout,
        List.indexOf_cons, Tensor.Columns, MemoryLayout.GetLogicalDimensionActiveSize]
  · rcases hcases with h | h | h | h | h | h <;> subst h <;>
      simp [MemoryLayout.GetSliceLayout, MemoryLayout.GetPhysicalDimension, Tensor.GetLayout,
        List.indexOf_cons]

/-- C17: for a tensor with any logical dimension order, each vector-valued
`Tensor::Slice` overload removes exactly the two fixed logical dimensions and keeps the
free one (`Slice(row, column, Slice)` yields a one-dimensional value of length
`Channels()`, `Slice(row, Slice, channel)` one of length `Columns()`,
`Slice(Slice, column, channel)` one of length `Rows()`), and each matrix-valued overload
removes exactly the one fixed logical dimension and keeps the other two in their original
relative order, logically and in memory.  The slice is the value that `Offset` addresses,
with the new layout; it fails only where `Offset` fails. -/
theorem C17_slice_keeps_free_dimensions (t : Tensor) (layout : MemoryLayout)
    (hlayout : t._value.layout = some layout) (hdim : layout.NumDimensions = 3)
    (horder : layout.dimensionOrder.Perm [0, 1, 2]) (row column channel : Int) :
    (∃ L : MemoryLayout, L.NumDimensions = 1 ∧ L.size = [t.Channels] ∧
      L.dimensionOrder = [0] ∧
      t.SliceRowColumn row column
        = (Offset t._value [row, column, 0]).map fun v => v.SetLayout L) ∧
    (∃ L : MemoryLayout, L.NumDimensions = 1 ∧ L.size = [t.Columns] ∧
      L.dimensionOrder = [0] ∧
      t.SliceRowChannel row channel
        = (Offset t._value [row, 0, channel]).map fun v => v.SetLayout L) ∧
    (∃ L : MemoryLayout, L.NumDimensions = 1 ∧ L.size = [t.Rows] ∧
      L.dimensionOrder = [0] ∧
      t.SliceColumnChannel column channel
        = (Offset t._value [0, column, channel]).map fun v => v.SetLayout L) ∧
    (∃ M : MemoryLayout, M.NumDimensions = 2 ∧
      M.GetLogicalDimensionActiveSize 0 = t.Columns ∧
      M.GetLogicalDimensionActiveSize 1 = t.Channels ∧
      (M.GetPhysicalDimension 0 < M.GetPhysicalDimension 1
        ↔ layout.GetPhysicalDimension 1 < layout.GetPhysicalDimension 2) ∧
      t.SliceRow row = (Offset t._value [row, 0, 0]).map fun v => v.SetLayout M) ∧
    (∃ M : MemoryLayout, M.NumDimensions = 2 ∧
      M.GetLogicalDimensionActiveSize 0 = t.Rows ∧
      M.GetLogicalDimensionActiveSize 1 = t.Channels ∧
      (M.GetPhysicalDimension 0 < M.GetPhysicalDimension 1
        ↔ layout.GetPhysicalDimension 0 < layout.GetPhysicalDimension 2) ∧
      t.SliceColumn column = (Offset t._value [0, column, 0]).map fun v => v.SetLayout M) ∧
    (∃ M : MemoryLayout, M.NumDimensions = 2 ∧
      M.GetLogicalDimensionActiveSize 0 = t.Rows ∧
      M.GetLogicalDimensionActiveSize 1 = t.Columns ∧
      (M.GetPhysicalDimension 0 < M.GetPhysicalDimension 1
        ↔ layout.GetPhysicalDimension 0 < layout.GetPhysicalDimension 1) ∧
      t.SliceChannel channel = (Offset t._value [0, 0, channel]).map fun v => v.SetLayout M) :=
  ⟨SliceRowColumn_layout t layout hlayout hdim horder row column,
    SliceRowChannel_layout t layout hlayout hdim horder row channel,
    SliceColumnChannel_layout t layout hlayout hdim horder column channel,
    SliceRow_layout t layout hlayout hdim horder row,
    SliceColumn_layout t layout hlayout hdim horder column,
    SliceChannel_layout t layout hlayout hdim horder channel⟩

/-- C17 on a 2 x 3 x 4 tensor stored channel-major (physical order channel, row, column),
sliced at row 1, column 2, channel 3. -/
theorem C17_slice_keeps_free_dimensions_witness :
    ((Tensor.mk (Value.mk (some 0) ValueType.Float
        (some (MemoryLayout.mk [4, 2, 3] [4, 2, 3] [0, 0, 0] [2, 0, 1]))))._value.layout
      = some (MemoryLayout.mk [4, 2, 3] [4, 2, 3] [0, 0, 0] [2, 0, 1]) ∧
      (MemoryLayout.mk [4, 2, 3] [4, 2, 3] [0, 0, 0] [2, 0, 1]).NumDimensions = 3 ∧
      (MemoryLayout.mk [4, 2, 3] [4, 2, 3] [0, 0, 0] [2, 0, 1]).dimensionOrder.Perm [0, 1, 2]) ∧
    (Tensor.mk (Value.mk (some 0) ValueType.Float
        (some (MemoryLayout.mk [4, 2, 3] [4, 2, 3] [0, 0, 0] [2, 0, 1])))).SliceRowColumn 1 2
      = Except.ok (Value.mk (some 5) ValueType.Float (some (MemoryLayout.mk [4] [4] [0] [0]))) ∧
    (Tensor.mk (Value.mk (some 0) ValueType.Float
        (some (MemoryLayout.mk [4, 2, 3] [4, 2, 3] [0, 0, 0] [2, 0, 1])))).SliceChannel 3
      = Except.ok (Value.mk (some 18) ValueType.Float
          (some (MemoryLayout.mk [2, 3] [2, 3] [0, 0] [0, 1]))) ∧
    ∃ L : MemoryLayout, L.NumDimensions = 1 ∧
      L.size = [(Tensor.mk (Value.mk (some 0) ValueType.Float
        (some (MemoryLayout.mk [4, 2, 3] [4, 2, 3] [0, 0, 0] [2, 0, 1])))).Channels] ∧
      L.dimensionOrder = [0] ∧
      (Tensor.mk (Value.mk (some 0) ValueType.Float
          (some (MemoryLayout.mk [4, 2, 3] [4, 2, 3] [0, 0, 0] [2, 0, 1])))).SliceRowColumn 1 2
        = (Offset (Tensor.mk (Value.mk (some 0) ValueType.Float
            (some (MemoryLayout.mk [4, 2, 3] [4, 2, 3] [0, 0, 0] [2, 0, 1]))))._value
            [1, 2, 0]).map fun v => v.SetLayout L :=
  ⟨⟨rfl, rfl, by decide⟩, rfl, rfl,
    (C17_slice_keeps_free_dimensions
      (Tensor.mk (Value.mk (some 0) ValueType.Float
        (some (MemoryLayout.mk [4, 2, 3] [4, 2, 3] [0, 0, 0] [2, 0, 1]))))
      (MemoryLayout.mk [4, 2, 3] [4, 2, 3] [0, 0, 0] [2, 0, 1]) rfl rfl (by decide) 1 2 3).1⟩


/-! ## C14 -/

/-- A loop raises only what its body raises. -/
theorem forEach_error {σ β : Type} (fn : β → σ → Except Exception Unit × σ) (e : Exception)
    (hfn : ∀ b s, (fn b s).1 ≠ Except.error e) (l : List β) (s : σ) :
    (forEach fn l s).1 ≠ Except.error e := by
  induction l generalizing s with
  | nil => simp [forEach]
  | cons b rest ih =>
    have hb := hfn b s
    rcases hfb : fn b s with ⟨r, s'⟩
    rw [hfb] at hb
    cases r with
    | error e' =>
      simp only [forEach, hfb]
      exact hb
    | ok u =>
      simp only [forEach, hfb]
      exact ih s'

/-- `Offset` raises no type mismatch, and the element it addresses has the base type of
the value. -/
theorem Offset_baseType (begin : Value) (indices : List Int) :
    Offset begin indices ≠ Except.error (Exception.InputException InputExceptionErrors.typeMismatch)
      ∧ ∀ v, Offset begin indices = Except.ok v → v.baseType = begin.baseType := by
  rcases begin with ⟨data, ty, layout⟩
  cases data <;> cases layout <;> simp only [Offset]
  · exact ⟨by simp, by simp⟩
  · exact ⟨by simp, by simp⟩
  · exact ⟨by simp, by simp⟩
  · split
    · exact ⟨by simp, by simp⟩
    · split
      · exact ⟨by simp, by simp⟩
      · refine ⟨by simp, ?_⟩
        intro v hv
        cases hv
        rfl

/-- With operands of the same base type, the element operation raises no type mismatch. -/
theorem Scalar_operatorAssign_no_mismatch {α : Type}
    (binaryOp : ValueBinaryOperation → α → α → α) (op : ValueBinaryOperation)
    (destination source : Value) (context : ComputeContext α)
    (h : source.GetBaseType = destination.GetBaseType) :
    (Scalar.operatorAssign binaryOp op destination source context).1
      ≠ Except.error (Exception.InputException InputExceptionErrors.typeMismatch) := by
  simp only [Scalar.operatorAssign, h, ne_eq, not_true_eq_false, if_false]
  repeat' split
  all_goals simp

/-- C14: for each of `Tensor::operator+=`, `-=`, `*=` and `/=` with a scalar `s`, the
operation fails with a type-mismatch error if and only if `s.GetType()` differs from the
tensor's `Type()`; when it does, the check precedes the element loop: the outcome is the
error together with the unchanged context, whatever the storage holds, so no element has
been read or modified. -/
theorem C14_type_mismatch_iff {α : Type} (binaryOp : ValueBinaryOperation → α → α → α)
    (op : ValueBinaryOperation) (t : Tensor) (s : Value) (context : ComputeContext α) :
    ((t.operatorAssign binaryOp op s context).1
        = Except.error (Exception.InputException InputExceptionErrors.typeMismatch)
      ↔ s.GetBaseType ≠ t.Type_) ∧
    (s.GetBaseType ≠ t.Type_ →
      ∀ context' : ComputeContext α,
        t.operatorAssign binaryOp op s context'
          = (Except.error (Exception.InputException InputExceptionErrors.typeMismatch),
              context')) := by
  have hfail : s.GetBaseType ≠ t.Type_ →
      ∀ context' : ComputeContext α,
        t.operatorAssign binaryOp op s context'
          = (Except.error (Exception.InputException InputExceptionErrors.typeMismatch),
              context') := by
    intro h context'
    simp [Tensor.operatorAssign, h]
  refine ⟨⟨?_, fun h => by rw [hfail h context]⟩, hfail⟩
  intro herr
  by_contra hsame
  have hsame' : s.GetBaseType = t.Type_ := hsame
  have hbody : ∀ (coordinates : List Int) (c : ComputeContext α),
      ((fun (coordinates : List Int) =>
          (fun row column channel context =>
            match t.operatorCall row column channel with
            | Except.ok element => Scalar.operatorAssign binaryOp op element s context
            | Except.error e => (Except.error e, context))
          (coordinates.getD 0 0) (coordinates.getD 1 0) (coordinates.getD 2 0))
        coordinates c).1
        ≠ Except.error (Exception.InputException InputExceptionErrors.typeMismatch) := by
    intro coordinates c
    simp only [Tensor.operatorCall]
    obtain ⟨hne, hty⟩ := Offset_baseType t._value
      [coordinates.getD 0 0, coordinates.getD 1 0, coordinates.getD 2 0]
    cases hoff : Offset t._value
        [coordinates.getD 0 0, coordinates.getD 1 0, coordinates.getD 2 0] with
    | error e =>
      simp only [Except.map]
      intro hcon
      apply hne
      rw [hoff]
      simpa using hcon
    | ok v =>
      simp only [Except.map]
      apply Scalar_operatorAssign_no_mismatch
      simp only [Value.GetBaseType, Value.SetLayout]
      rw [hty v hoff]
      exact hsame'
  have hloop : ∀ c : ComputeContext α,
      (t.For (fun row column channel context =>
          match t.operatorCall row column channel with
          | Except.ok element => Scalar.operatorAssign binaryOp op element s context
          | Except.error e => (Except.error e, context)) c).1
        ≠ Except.error (Exception.InputException InputExceptionErrors.typeMismatch) := by
    intro c
    simp only [Tensor.For]
    cases t._value.layout with
    | none => simp
    | some layout => exact forEach_error _ _ hbody _ c
  have hl := hloop context
  simp only [Tensor.operatorAssign, hsame', ne_eq, not_true_eq_false, if_false] at herr
  rcases hr : t.For (fun row column channel context =>
      match t.operatorCall row column channel with
      | Except.ok element => Scalar.operatorAssign binaryOp op element s context
      | Except.error e => (Except.error e, context)) context with ⟨r, c'⟩
  rw [hr] at herr hl
  cases r with
  | error e =>
    simp only at herr hl
    apply hl
    cases herr
    rfl
  | ok u => simp at herr


/-! ## Reading and writing the storage -/

/-- A write inside the storage succeeds. -/
theorem write_of_lt {α : Type} (context : ComputeContext α) (a : Int) (x : α)
    (h0 : 0 ≤ a) (h1 : a < context.memory.length) :
    context.write a x
      = some (ComputeContext.mk (context.memory.set a.toNat x) context.namedValues) := by
  have : a.toNat < context.memory.length := by omega
  simp [ComputeContext.write, h0, this]

/-- A read inside the storage succeeds. -/
theorem read_of_lt {α : Type} (context : ComputeContext α) (a : Int)
    (h0 : 0 ≤ a) (h1 : a < context.memory.length) :
    ∃ x, context.read a = some x := by
  have h : a.toNat < context.memory.length := by omega
  exact ⟨context.memory[a.toNat], by simp [ComputeContext.read, h0, h]⟩

/-- A successful read is inside the storage. -/
theorem lt_of_read {α : Type} (context : ComputeContext α) (a : Int) (x : α)
    (h : context.read a = some x) : 0 ≤ a ∧ a < context.memory.length := by
  simp only [ComputeContext.read] at h
  split at h
  · rename_i h0
    have := (List.getElem?_eq_some_iff.1 h).1
    omega
  · cases h

/-- What a write changes. -/
theorem write_spec {α : Type} (context context' : ComputeContext α) (a : Int) (x : α)
    (h : context.write a x = some context') :
    context'.memory.length = context.memory.length ∧
      context'.namedValues = context.namedValues ∧
      context'.read a = some x ∧
      ∀ b, b ≠ a → context'.read b = context.read b := by
  simp only [ComputeContext.write] at h
  split at h
  · rename_i hcond
    cases h
    refine ⟨by simp, rfl, ?_, ?_⟩
    · simp [ComputeContext.read, hcond.1, hcond.2]
    · intro b hb
      simp only [ComputeContext.read]
      split
      · rename_i hb0
        have hne : a.toNat ≠ b.toNat := by omega
        simp [List.getElem?_set_ne hne]
      · rfl
  · cases h

/-- A loop of assignments to distinct addresses.  `P` holds of the entries the loop runs
over and `D` of the addresses it may write; step `b` writes `val b` at `d b`, provided the
storage outside `D` and the cell `d b` are still as in `context`.  Then the loop
finishes, every destination holds its value, and nothing else has changed. -/
theorem forEach_assign {α β : Type}
    (fn : β → ComputeContext α → Except Exception Unit × ComputeContext α)
    (d : β → Int) (val : β → α) (P : β → Prop) (D : Int → Prop) (context : ComputeContext α)
    (hPD : ∀ b, P b → D (d b))
    (hfn : ∀ b, P b → ∀ c : ComputeContext α,
      c.memory.length = context.memory.length →
      (∀ a, ¬ D a → c.read a = context.read a) → c.read (d b) = context.read (d b) →
      ∃ c', c.write (d b) (val b) = some c' ∧ fn b c = (Except.ok (), c'))
    (l : List β) (hP : ∀ b ∈ l, P b) (hnd : (l.map d).Nodup)
    (c : ComputeContext α) (hlen : c.memory.length = context.memory.length)
    (hout : ∀ a, ¬ D a → c.read a = context.read a)
    (hin : ∀ b ∈ l, c.read (d b) = context.read (d b)) :
    ∃ c', forEach fn l c = (Except.ok (), c') ∧
      c'.memory.length = c.memory.length ∧ c'.namedValues = c.namedValues ∧
      (∀ b ∈ l, c'.read (d b) = some (val b)) ∧
      (∀ a, a ∉ l.map d → c'.read a = c.read a) := by
  induction l generalizing c with
  | nil => exact ⟨c, rfl, rfl, rfl, by simp, by simp⟩
  | cons b rest ih =>
    have hPb := hP b (List.mem_cons_self b rest)
    have hDb := hPD b hPb
    obtain ⟨c₁, hw, hstep⟩ := hfn b hPb c hlen hout (hin b (List.mem_cons_self b rest))
    obtain ⟨hl₁, hn₁, hsame, hother⟩ := write_spec c c₁ (d b) (val b) hw
    rw [List.map_cons, List.nodup_cons] at hnd
    have hne : ∀ b' ∈ rest, d b' ≠ d b := by
      intro b' hb' heq
      exact hnd.1 (heq ▸ List.mem_map_of_mem d hb')
    obtain ⟨c', hrun, hl', hn', hval, hrest⟩ := ih
      (fun b' hb' => hP b' (List.mem_cons_of_mem b hb')) hnd.2 c₁ (by rw [hl₁, hlen])
      (fun a ha => by
        have hab : a ≠ d b := fun h => ha (h ▸ hDb)
        rw [hother a hab, hout a ha])
      (fun b' hb' => by
        rw [hother (d b') (hne b' hb'), hin b' (List.mem_cons_of_mem b hb')])
    refine ⟨c', ?_, by rw [hl', hl₁], by rw [hn', hn₁], ?_, ?_⟩
    · simp only [forEach, hstep]
      exact hrun
    · intro b' hb'
      rcases List.mem_cons.1 hb' with h | h
      · subst h
        rw [hrest (d b') hnd.1, hsame]
      · exact hval b' h
    · intro a ha
      simp only [List.map_cons, List.mem_cons, not_or] at ha
      rw [hrest a ha.2, hother a ha.1]


/-! ## Three-dimensional layouts -/

/-- Physical and logical coordinates of a three-dimensional layout determine each other,
and the physical sizes are the logical sizes in physical order. -/
theorem coordinates_roundtrip (size extent offset : List Int) (s0 s1 s2 : Int)
    (hsize : size = [s0, s1, s2]) (order : List Nat) (horder : order.Perm [0, 1, 2]) :
    (∀ p0 p1 p2 : Int,
      (MemoryLayout.mk size extent offset order).physicalCoordinates
        ((MemoryLayout.mk size extent offset order).logicalCoordinates [p0, p1, p2])
        = [p0, p1, p2]) ∧
    (∀ r c ch : Int,
      (MemoryLayout.mk size extent offset order).logicalCoordinates
        ((MemoryLayout.mk size extent offset order).physicalCoordinates [r, c, ch])
        = [r, c, ch]) ∧
    (MemoryLayout.mk size extent offset order).physicalCoordinates
        [(MemoryLayout.mk size extent offset order).GetLogicalDimensionActiveSize 0,
          (MemoryLayout.mk size extent offset order).GetLogicalDimensionActiveSize 1,
          (MemoryLayout.mk size extent offset order).GetLogicalDimensionActiveSize 2]
      = [s0, s1, s2] ∧
    (∀ r c ch : Int, ∃ p0 p1 p2 : Int,
      (MemoryLayout.mk size extent offset order).physicalCoordinates [r, c, ch]
        = [p0, p1, p2]) ∧
    (∀ p0 p1 p2 : Int, ∃ r c ch : Int,
      (MemoryLayout.mk size extent offset order).logicalCoordinates [p0, p1, p2]
        = [r, c, ch]) ∧
    (∀ p0 p1 p2 r c ch : Int,
      (MemoryLayout.mk size extent offset order).physicalCoordinates [r, c, ch] = [p0, p1, p2] →
      (((0 ≤ r ∧ r < (MemoryLayout.mk size extent offset order).GetLogicalDimensionActiveSize 0) ∧
        (0 ≤ c ∧ c < (MemoryLayout.mk size extent offset order).GetLogicalDimensionActiveSize 1) ∧
        (0 ≤ ch ∧
          ch < (MemoryLayout.mk size extent offset order).GetLogicalDimensionActiveSize 2))
        ↔ ((0 ≤ p0 ∧ p0 < s0) ∧ (0 ≤ p1 ∧ p1 < s1) ∧ (0 ≤ p2 ∧ p2 < s2)))) := by
  subst hsize
  rcases perm3_cases order horder with h | h | h | h | h | h <;> subst h <;>
    simp [MemoryLayout.physicalCoordinates, MemoryLayout.logicalCoordinates,
      MemoryLayout.NumDimensions, MemoryLayout.GetPhysicalDimension, List.indexOf_cons,
      MemoryLayout.GetLogicalDimensionActiveSize, List.range_succ] <;>
    (try intros) <;> (try subst_vars) <;> (try tauto)


/-- A quotient and a remainder determine each other's number. -/
theorem mul_add_unique (e x x' c c' : Int) (hc : 0 ≤ c) (hce : c < e) (hc' : 0 ≤ c')
    (hce' : c' < e) (h : x * e + c = x' * e + c') : x = x' ∧ c = c' := by
  have hx : x = x' := by
    by_contra hne
    rcases lt_or_gt_of_ne hne with hlt | hgt
    · have h1 : x + 1 ≤ x' := by omega
      have h2 : (x + 1) * e ≤ x' * e := mul_le_mul_of_nonneg_right h1 (by omega)
      have h3 : (x + 1) * e = x * e + e := by ring
      omega
    · have h1 : x' + 1 ≤ x := by omega
      have h2 : (x' + 1) * e ≤ x * e := mul_le_mul_of_nonneg_right h1 (by omega)
      have h3 : (x' + 1) * e = x' * e + e := by ring
      omega
  subst hx
  exact ⟨rfl, by omega⟩

/-- Row-major addresses of entries inside the extents are distinct. -/
theorem entry_address_injective (e1 e2 a b c a' b' c' : Int)
    (hb : 0 ≤ b ∧ b < e1) (hb' : 0 ≤ b' ∧ b' < e1) (hc : 0 ≤ c ∧ c < e2)
    (hc' : 0 ≤ c' ∧ c' < e2)
    (h : a * (e1 * e2) + b * e2 + c = a' * (e1 * e2) + b' * e2 + c') :
    a = a' ∧ b = b' ∧ c = c' := by
  have h1 : (a * e1 + b) * e2 + c = (a' * e1 + b') * e2 + c' := by
    have e₁ : (a * e1 + b) * e2 = a * (e1 * e2) + b * e2 := by ring
    have e₂ : (a' * e1 + b') * e2 = a' * (e1 * e2) + b' * e2 := by ring
    rw [e₁, e₂]; exact h
  obtain ⟨h2, h3⟩ := mul_add_unique e2 _ _ c c' hc.1 hc.2 hc'.1 hc'.2 h1
  obtain ⟨h4, h5⟩ := mul_add_unique e1 a a' b b' hb.1 hb.2 hb'.1 hb'.2 h2
  exact ⟨h4, h5, h3⟩

/-- Row-major addresses of entries inside the extents lie inside the storage. -/
theorem entry_address_bounds (e0 e1 e2 a b c : Int) (ha : 0 ≤ a ∧ a < e0)
    (hb : 0 ≤ b ∧ b < e1) (hc : 0 ≤ c ∧ c < e2) :
    0 ≤ a * (e1 * e2) + b * e2 + c ∧ a * (e1 * e2) + b * e2 + c < e0 * (e1 * e2) := by
  have he1 : 0 < e1 := by omega
  have he2 : 0 < e2 := by omega
  have he12 : 0 < e1 * e2 := mul_pos he1 he2
  have h1 : 0 ≤ a * (e1 * e2) := mul_nonneg ha.1 (le_of_lt he12)
  have h2 : 0 ≤ b * e2 := mul_nonneg hb.1 (le_of_lt he2)
  have h3 : (a + 1) * (e1 * e2) ≤ e0 * (e1 * e2) :=
    mul_le_mul_of_nonneg_right (by omega) (le_of_lt he12)
  have h4 : (b + 1) * e2 ≤ e1 * e2 := mul_le_mul_of_nonneg_right (by omega) (le_of_lt he2)
  have h5 : (a + 1) * (e1 * e2) = a * (e1 * e2) + e1 * e2 := by ring
  have h6 : (b + 1) * e2 = b * e2 + e2 := by ring
  constructor
  · omega
  · omega

/-- The entries `For` visits are the physical coordinates inside the active sizes. -/
theorem mem_physicalEntries (s0 s1 s2 : Int) (extent offset : List Int) (order : List Nat)
    (q : List Int) :
    q ∈ (MemoryLayout.mk [s0, s1, s2] extent offset order).physicalEntries
      ↔ ∃ p0 p1 p2 : Int, q = [p0, p1, p2] ∧ (0 ≤ p0 ∧ p0 < s0) ∧ (0 ≤ p1 ∧ p1 < s1) ∧
          (0 ≤ p2 ∧ p2 < s2) := by
  simp only [MemoryLayout.physicalEntries, List.mem_map, List.pair_mem_product, List.mem_range,
    Prod.exists, List.getD_cons_zero, List.getD_cons_succ]
  constructor
  · rintro ⟨a, b, c, ⟨ha, hb, hc⟩, rfl⟩
    exact ⟨a, b, c, rfl, ⟨by omega, by omega⟩, ⟨by omega, by omega⟩, ⟨by omega, by omega⟩⟩
  · rintro ⟨p0, p1, p2, rfl, h0, h1, h2⟩
    refine ⟨p0.toNat, p1.toNat, p2.toNat, ⟨by omega, by omega, by omega⟩, ?_⟩
    simp [Int.toNat_of_nonneg h0.1, Int.toNat_of_nonneg h1.1, Int.toNat_of_nonneg h2.1]

/-- `For` visits no entry twice. -/
theorem nodup_physicalEntries (layout : MemoryLayout) : layout.physicalEntries.Nodup := by
  simp only [MemoryLayout.physicalEntries]
  apply List.Nodup.map
  · intro p q h
    simp only [List.cons.injEq, Nat.cast_inj, and_true] at h
    exact Prod.ext h.1 (Prod.ext h.2.1 h.2.2)
  · exact List.Nodup.product (List.nodup_range _)
      (List.Nodup.product (List.nodup_range _) (List.nodup_range _))


/-- The explicit form of a well-formed tensor. -/
theorem WellFormed_concrete (t : Tensor) (n : Nat) (h : t.WellFormed n) :
    ∃ (base : Int) (ty : ValueType) (s0 s1 s2 e0 e1 e2 o0 o1 o2 : Int) (order : List Nat),
      t = Tensor.mk (Value.mk (some base) ty
        (some (MemoryLayout.mk [s0, s1, s2] [e0, e1, e2] [o0, o1, o2] order))) ∧
      order.Perm [0, 1, 2] ∧ (0 ≤ s0 ∧ 0 ≤ o0 ∧ o0 + s0 ≤ e0) ∧
      (0 ≤ s1 ∧ 0 ≤ o1 ∧ o1 + s1 ≤ e1) ∧ (0 ≤ s2 ∧ 0 ≤ o2 ∧ o2 + s2 ≤ e2) ∧
      0 ≤ base ∧ base + e0 * (e1 * e2) ≤ n := by
  obtain ⟨base, layout, hdata, hlayout, hs, he, ho, hperm, hact, hbase, hmem⟩ := h
  rcases t with ⟨⟨data, ty, lay⟩⟩
  simp only at hdata hlayout
  subst hdata hlayout
  rcases layout with ⟨size, extent, offset, order⟩
  simp only at hs he ho hperm hact hmem
  match size, hs, extent, he, offset, ho with
  | [s0, s1, s2], _, [e0, e1, e2], _, [o0, o1, o2], _ =>
    simp only [activeInsideExtent, Bool.and_eq_true, decide_eq_true_eq, and_true] at hact
    simp only [MemoryLayout.GetMemorySize, List.prod_cons, List.prod_nil, mul_one] at hmem
    exact ⟨base, ty, s0, s1, s2, e0, e1, e2, o0, o1, o2, order, rfl, hperm,
      ⟨hact.1.1.1, hact.1.1.2, hact.1.2⟩, ⟨hact.2.1.1.1, hact.2.1.1.2, hact.2.1.2⟩,
      ⟨hact.2.2.1.1, hact.2.2.1.2, hact.2.2.2⟩, hbase, hmem⟩

/-- `Offset` at coordinates whose physical coordinates lie inside the extents: the
row-major address of the entry. -/
theorem Offset_entry (base : Int) (ty : ValueType) (size : List Int)
    (e0 e1 e2 o0 o1 o2 : Int) (order : List Nat) (hsize : size.length = 3)
    (l : List Int) (hl : l.length = 3) (p0 p1 p2 : Int)
    (hp : (MemoryLayout.mk size [e0, e1, e2] [o0, o1, o2] order).physicalCoordinates l
      = [p0, p1, p2])
    (h0 : 0 ≤ p0 + o0 ∧ p0 + o0 < e0) (h1 : 0 ≤ p1 + o1 ∧ p1 + o1 < e1)
    (h2 : 0 ≤ p2 + o2 ∧ p2 + o2 < e2) :
    Offset (Value.mk (some base) ty
        (some (MemoryLayout.mk size [e0, e1, e2] [o0, o1, o2] order))) l
      = Except.ok (Value.mk
          (some (base + ((p0 + o0) * (e1 * e2) + (p1 + o1) * e2 + (p2 + o2)))) ty
          (some (MemoryLayout.mk size [e0, e1, e2] [o0, o1, o2] order))) := by
  simp only [Offset, hl, MemoryLayout.NumDimensions, hsize, ne_eq, not_true_eq_false,
    if_false, hp, insideExtent, h0.1, h0.2, h1.1, h1.2, h2.1, h2.2, decide_True,
    Bool.and_self, Bool.not_true, Bool.false_eq_true, MemoryLayout.GetLogicalEntryOffset,
    entryOffset, cumulativeIncrement, List.prod_cons, List.prod_nil, mul_one, add_zero]
  congr 3
  ring


/-- The element handle of an active coordinate: its physical coordinates lie inside the
active sizes and its address is the row-major address. -/
theorem operatorCall_active (base : Int) (ty : ValueType)
    (s0 s1 s2 e0 e1 e2 o0 o1 o2 : Int) (order : List Nat) (horder : order.Perm [0, 1, 2])
    (hd0 : 0 ≤ s0 ∧ 0 ≤ o0 ∧ o0 + s0 ≤ e0) (hd1 : 0 ≤ s1 ∧ 0 ≤ o1 ∧ o1 + s1 ≤ e1)
    (hd2 : 0 ≤ s2 ∧ 0 ≤ o2 ∧ o2 + s2 ≤ e2) (r c ch : Int) :
    ∃ p0 p1 p2 : Int,
      (MemoryLayout.mk [s0, s1, s2] [e0, e1, e2] [o0, o1, o2] order).physicalCoordinates
        [r, c, ch] = [p0, p1, p2] ∧
      ((Tensor.mk (Value.mk (some base) ty
          (some (MemoryLayout.mk [s0, s1, s2] [e0, e1, e2] [o0, o1, o2] order)))).IsActive
          r c ch
        ↔ ((0 ≤ p0 ∧ p0 < s0) ∧ (0 ≤ p1 ∧ p1 < s1) ∧ (0 ≤ p2 ∧ p2 < s2))) ∧
      (((0 ≤ p0 ∧ p0 < s0) ∧ (0 ≤ p1 ∧ p1 < s1) ∧ (0 ≤ p2 ∧ p2 < s2)) →
        (Tensor.mk (Value.mk (some base) ty
          (some (MemoryLayout.mk [s0, s1, s2] [e0, e1, e2] [o0, o1, o2] order)))).operatorCall
          r c ch
        = Except.ok (Value.mk
            (some (base + ((p0 + o0) * (e1 * e2) + (p1 + o1) * e2 + (p2 + o2)))) ty
            (some ScalarLayout))) := by
  obtain ⟨-, -, -, hphys, -, hvalid⟩ := coordinates_roundtrip [s0, s1, s2] [e0, e1, e2]
    [o0, o1, o2] s0 s1 s2 rfl order horder
  obtain ⟨p0, p1, p2, hp⟩ := hphys r c ch
  refine ⟨p0, p1, p2, hp, ?_, ?_⟩
  · simpa only [Tensor.IsActive, Tensor.Rows, Tensor.Columns, Tensor.Channels,
      Tensor.GetLayout, Option.getD_some] using hvalid p0 p1 p2 r c ch hp
  · rintro ⟨h0, h1, h2⟩
    have hoff := Offset_entry base ty [s0, s1, s2] e0 e1 e2 o0 o1 o2 order rfl [r, c, ch] rfl
      p0 p1 p2 hp ⟨by omega, by omega⟩ ⟨by omega, by omega⟩ ⟨by omega, by omega⟩
    simp only [Tensor.operatorCall, hoff, Except.map, Value.SetLayout]


/-- The element-wise operator on a well-formed tensor with a scalar of the same type whose
storage is not an active element of the tensor: the loop finishes, every active element
becomes its previous value combined with the scalar, and nothing else changes. -/
theorem operatorAssign_spec {α : Type} (binaryOp : ValueBinaryOperation → α → α → α)
    (op : ValueBinaryOperation) (t : Tensor) (s : Value) (context : ComputeContext α)
    (v : α) (sAddress : Int) (hwf : t.WellFormed context.memory.length)
    (hs : s.data = some sAddress) (hv : context.read sAddress = some v)
    (htype : s.GetBaseType = t.Type_)
    (halias : ∀ r c ch, t.IsActive r c ch → t.elementAddress r c ch ≠ some sAddress) :
    ∃ context' : ComputeContext α,
      t.operatorAssign binaryOp op s context = (Except.ok t, context') ∧
      context'.memory.length = context.memory.length ∧
      context'.namedValues = context.namedValues ∧
      (∀ r c ch, t.IsActive r c ch →
        ∃ x, t.get context r c ch = some x ∧
          t.get context' r c ch = some (binaryOp op x v)) ∧
      (∀ a, (∀ r c ch, t.IsActive r c ch → t.elementAddress r c ch ≠ some a) →
        context'.read a = context.read a) := by
  obtain ⟨base, ty, s0, s1, s2, e0, e1, e2, o0, o1, o2, order, rfl, horder, hd0, hd1, hd2,
    hbase, hmem⟩ := WellFormed_concrete t _ hwf
  obtain ⟨hPL, hLP, -, hphys, hlog, -⟩ := coordinates_roundtrip [s0, s1, s2] [e0, e1, e2]
    [o0, o1, o2] s0 s1 s2 rfl order horder
  have hcall := operatorCall_active base ty s0 s1 s2 e0 e1 e2 o0 o1 o2 order horder hd0 hd1 hd2
  -- addresses of valid physical entries lie inside the storage
  have hbound : ∀ p0 p1 p2 : Int,
      ((0 ≤ p0 ∧ p0 < s0) ∧ (0 ≤ p1 ∧ p1 < s1) ∧ (0 ≤ p2 ∧ p2 < s2)) →
      0 ≤ base + ((p0 + o0) * (e1 * e2) + (p1 + o1) * e2 + (p2 + o2)) ∧
        base + ((p0 + o0) * (e1 * e2) + (p1 + o1) * e2 + (p2 + o2))
          < context.memory.length := by
    rintro p0 p1 p2 ⟨h0, h1, h2⟩
    have := entry_address_bounds e0 e1 e2 (p0 + o0) (p1 + o1) (p2 + o2)
      ⟨by omega, by omega⟩ ⟨by omega, by omega⟩ ⟨by omega, by omega⟩
    omega
  -- the scalar is not stored at the address of a valid entry
  have hsD : ¬ ∃ p0 p1 p2 : Int,
      ((0 ≤ p0 ∧ p0 < s0) ∧ (0 ≤ p1 ∧ p1 < s1) ∧ (0 ≤ p2 ∧ p2 < s2)) ∧
      sAddress = base + ((p0 + o0) * (e1 * e2) + (p1 + o1) * e2 + (p2 + o2)) := by
    rintro ⟨p0, p1, p2, hvalid, hEq⟩
    obtain ⟨r, c, ch, hrc⟩ := hlog p0 p1 p2
    obtain ⟨q0, q1, q2, hq, hact, hoc⟩ := hcall r c ch
    have hq' : [q0, q1, q2] = [p0, p1, p2] := by
      rw [← hq, ← hrc, hPL]
    simp only [List.cons.injEq, and_true] at hq'
    obtain ⟨rfl, rfl, rfl⟩ := hq'
    apply halias r c ch (hact.2 hvalid)
    simp only [Tensor.elementAddress, hoc hvalid, hEq]
  set L := MemoryLayout.mk [s0, s1, s2] [e0, e1, e2] [o0, o1, o2] order with hL
  set T := Tensor.mk (Value.mk (some base) ty (some L)) with hT
  have hloop := forEach_assign
    (fun (coordinates : List Int) (context : ComputeContext α) =>
      match T.operatorCall (coordinates.getD 0 0) (coordinates.getD 1 0)
          (coordinates.getD 2 0) with
      | Except.ok element => Scalar.operatorAssign binaryOp op element s context
      | Except.error e => (Except.error e, context))
    (fun l => base + (((L.physicalCoordinates l).getD 0 0 + o0) * (e1 * e2)
      + ((L.physicalCoordinates l).getD 1 0 + o1) * e2
      + ((L.physicalCoordinates l).getD 2 0 + o2)))
    (fun l =>
      match context.read (base + (((L.physicalCoordinates l).getD 0 0 + o0) * (e1 * e2)
          + ((L.physicalCoordinates l).getD 1 0 + o1) * e2
          + ((L.physicalCoordinates l).getD 2 0 + o2))) with
      | some x => binaryOp op x v
      | none => v)
    (fun l => ∃ p0 p1 p2 : Int, l = L.logicalCoordinates [p0, p1, p2] ∧
      ((0 ≤ p0 ∧ p0 < s0) ∧ (0 ≤ p1 ∧ p1 < s1) ∧ (0 ≤ p2 ∧ p2 < s2)))
    (fun a => ∃ p0 p1 p2 : Int,
      ((0 ≤ p0 ∧ p0 < s0) ∧ (0 ≤ p1 ∧ p1 < s1) ∧ (0 ≤ p2 ∧ p2 < s2)) ∧
      a = base + ((p0 + o0) * (e1 * e2) + (p1 + o1) * e2 + (p2 + o2)))
    context
    (by
      rintro l ⟨p0, p1, p2, rfl, hvalid⟩
      exact ⟨p0, p1, p2, hvalid, by simp [hPL]⟩)
    (by
      rintro l ⟨p0, p1, p2, rfl, hvalid⟩ c hlen hout hin
      obtain ⟨r, c', ch, hrc⟩ := hlog p0 p1 p2
      obtain ⟨q0, q1, q2, hq, hact, hoc⟩ := hcall r c' ch
      have hq' : [q0, q1, q2] = [p0, p1, p2] := by
        rw [← hq, ← hrc, hPL]
      simp only [List.cons.injEq, and_true] at hq'
      obtain ⟨rfl, rfl, rfl⟩ := hq'
      have hb := hbound q0 q1 q2 hvalid
      obtain ⟨x, hx⟩ := read_of_lt context _ hb.1 hb.2
      have hsc : c.read sAddress = some v := by rw [hout sAddress hsD, hv]
      simp only [hPL, List.getD_cons_zero, List.getD_cons_succ] at hin ⊢
      have hxc : c.read (base + ((q0 + o0) * (e1 * e2) + (q1 + o1) * e2 + (q2 + o2)))
          = some x := by rw [hin, hx]
      have hw := write_of_lt c (base + ((q0 + o0) * (e1 * e2) + (q1 + o1) * e2 + (q2 + o2)))
        (binaryOp op x v) hb.1 (by rw [hlen]; exact hb.2)
      refine ⟨_, by rw [hx]; exact hw, ?_⟩
      have hty : s.GetBaseType = ty := htype
      simp only [hrc, List.getD_cons_zero, List.getD_cons_succ, hoc hvalid,
        Scalar.operatorAssign, Value.GetBaseType, hs, hxc, hsc, hw]
      simp [Value.GetBaseType] at hty
      simp [hty])
    (T.GetLayout.physicalEntries.map T.GetLayout.logicalCoordinates)
    (by
      intro l hl
      simp only [hT, Tensor.GetLayout, Option.getD_some, List.mem_map] at hl
      obtain ⟨q, hq, rfl⟩ := hl
      obtain ⟨p0, p1, p2, rfl, hvalid⟩ := (mem_physicalEntries s0 s1 s2 _ _ _ q).1 hq
      exact ⟨p0, p1, p2, rfl, hvalid⟩)
    (by
      simp only [hT, Tensor.GetLayout, Option.getD_some, List.map_map]
      apply List.Nodup.map_on _ (nodup_physicalEntries L)
      intro q hq q' hq' heq
      obtain ⟨p0, p1, p2, rfl, h0, h1, h2⟩ := (mem_physicalEntries s0 s1 s2 _ _ _ q).1 hq
      obtain ⟨p0', p1', p2', rfl, h0', h1', h2'⟩ :=
        (mem_physicalEntries s0 s1 s2 _ _ _ q').1 hq'
      simp only [Function.comp_apply, hPL, List.getD_cons_zero, List.getD_cons_succ] at heq
      have := entry_address_injective e1 e2 (p0 + o0) (p1 + o1) (p2 + o2) (p0' + o0)
        (p1' + o1) (p2' + o2) ⟨by omega, by omega⟩ ⟨by omega, by omega⟩
        ⟨by omega, by omega⟩ ⟨by omega, by omega⟩ (by omega)
      obtain ⟨ha, hb, hc⟩ := this
      have e0' : p0 = p0' := by omega
      have e1' : p1 = p1' := by omega
      have e2' : p2 = p2' := by omega
      rw [e0', e1', e2'])
    context rfl (fun _ _ => rfl) (fun _ _ => rfl)
  obtain ⟨context', hrun, hlen', hnames', hval, hrest⟩ := hloop
  refine ⟨context', ?_, hlen', hnames', ?_, ?_⟩
  · have hty : s.GetBaseType = T.Type_ := htype
    simp only [Tensor.operatorAssign, hty, ne_eq, not_true_eq_false, if_false, Tensor.For]
    have hGL : T.GetLayout = L := rfl
    rw [hGL] at hrun
    rw [hrun]
  · intro r c ch hact
    obtain ⟨p0, p1, p2, hp, hiff, hoc⟩ := hcall r c ch
    have hvalid := hiff.1 hact
    have hb := hbound p0 p1 p2 hvalid
    obtain ⟨x, hx⟩ := read_of_lt context _ hb.1 hb.2
    have hmemL : L.logicalCoordinates [p0, p1, p2]
        ∈ T.GetLayout.physicalEntries.map T.GetLayout.logicalCoordinates := by
      simp only [hT, Tensor.GetLayout, Option.getD_some]
      exact List.mem_map_of_mem _
        ((mem_physicalEntries s0 s1 s2 _ _ _ [p0, p1, p2]).2 ⟨p0, p1, p2, rfl, hvalid⟩)
    have hfinal := hval _ hmemL
    simp only [hPL, List.getD_cons_zero, List.getD_cons_succ, hx] at hfinal
    refine ⟨x, ?_, ?_⟩
    · simp only [Tensor.get, hoc hvalid, Option.some_bind, hx]
    · simp only [Tensor.get, hoc hvalid, Option.some_bind, hfinal]
  · intro a ha
    apply hrest
    intro hmem'
    simp only [hT, Tensor.GetLayout, Option.getD_some, List.map_map, List.mem_map,
      Function.comp_apply] at hmem'
    obtain ⟨q, hq, hqa⟩ := hmem'
    obtain ⟨p0, p1, p2, rfl, hvalid⟩ := (mem_physicalEntries s0 s1 s2 _ _ _ q).1 hq
    simp only [hPL, List.getD_cons_zero, List.getD_cons_succ] at hqa
    obtain ⟨r, c, ch, hrc⟩ := hlog p0 p1 p2
    obtain ⟨q0, q1, q2, hq2, hact, hoc⟩ := hcall r c ch
    have hq' : [q0, q1, q2] = [p0, p1, p2] := by
      rw [← hq2, ← hrc, hPL]
    simp only [List.cons.injEq, and_true] at hq'
    obtain ⟨rfl, rfl, rfl⟩ := hq'
    apply ha r c ch (hact.2 hvalid)
    simp only [Tensor.elementAddress, hoc hvalid, hqa]

/-- `For` on a well-formed tensor visits exactly the active coordinates, each once. -/
theorem visited_spec (t : Tensor) (n : Nat) (hwf : t.WellFormed n) :
    t.visited.Nodup ∧
      (∀ l ∈ t.visited, ∃ r c ch : Int, l = [r, c, ch]) ∧
      (∀ r c ch : Int, [r, c, ch] ∈ t.visited ↔ t.IsActive r c ch) := by
  obtain ⟨base, ty, s0, s1, s2, e0, e1, e2, o0, o1, o2, order, rfl, horder, hd0, hd1, hd2,
    hbase, hmem⟩ := WellFormed_concrete t _ hwf
  obtain ⟨hPL, hLP, -, hphys, hlog, -⟩ := coordinates_roundtrip [s0, s1, s2] [e0, e1, e2]
    [o0, o1, o2] s0 s1 s2 rfl order horder
  have hcall := operatorCall_active base ty s0 s1 s2 e0 e1 e2 o0 o1 o2 order horder hd0 hd1 hd2
  simp only [Tensor.visited, Tensor.GetLayout, Option.getD_some]
  refine ⟨?_, ?_, ?_⟩
  · apply List.Nodup.map_on _ (nodup_physicalEntries _)
    intro q hq q' hq' heq
    obtain ⟨p0, p1, p2, rfl, -⟩ := (mem_physicalEntries s0 s1 s2 _ _ _ q).1 hq
    obtain ⟨p0', p1', p2', rfl, -⟩ := (mem_physicalEntries s0 s1 s2 _ _ _ q').1 hq'
    rw [← hPL p0 p1 p2, ← hPL p0' p1' p2', heq]
  · intro l hl
    obtain ⟨q, hq, rfl⟩ := List.mem_map.1 hl
    obtain ⟨p0, p1, p2, rfl, -⟩ := (mem_physicalEntries s0 s1 s2 _ _ _ q).1 hq
    exact hlog p0 p1 p2
  · intro r c ch
    obtain ⟨p0, p1, p2, hp, hiff, -⟩ := hcall r c ch
    rw [hiff]
    constructor
    · intro hl
      obtain ⟨q, hq, hqe⟩ := List.mem_map.1 hl
      obtain ⟨q0, q1, q2, rfl, hvalid⟩ := (mem_physicalEntries s0 s1 s2 _ _ _ q).1 hq
      have : [q0, q1, q2] = [p0, p1, p2] := by rw [← hPL q0 q1 q2, hqe, hp]
      simp only [List.cons.injEq, and_true] at this
      obtain ⟨rfl, rfl, rfl⟩ := this
      exact hvalid
    · intro hvalid
      apply List.mem_map.2
      refine ⟨[p0, p1, p2],
        (mem_physicalEntries s0 s1 s2 _ _ _ _).2 ⟨p0, p1, p2, rfl, hvalid⟩, ?_⟩
      rw [← hp, hLP]

/-! ## C15 -/

/-- C15 (as amended): for a well-formed tensor `t` and a scalar `s` of the same element
type whose storage is not one of the active elements of `t`, `t += s` succeeds and
returns `t` itself, so that `Rows`, `Columns` and `Channels` are unchanged; afterwards
every active element `t(r, c, ch)` equals its previous value plus `s`; the loop visits
every active coordinate exactly once and no other; and nothing but the active elements
of `t` has changed.  The same holds for `-=`, `*=` and `/=` with the corresponding
operator (`op`). -/
theorem C15_elementwise_update {α : Type} (binaryOp : ValueBinaryOperation → α → α → α)
    (op : ValueBinaryOperation) (t : Tensor) (s : Value) (context : ComputeContext α)
    (v : α) (sAddress : Int) (hwf : t.WellFormed context.memory.length)
    (hs : s.data = some sAddress) (hv : context.read sAddress = some v)
    (htype : s.GetBaseType = t.Type_)
    (halias : ∀ r c ch, t.IsActive r c ch → t.elementAddress r c ch ≠ some sAddress) :
    ∃ context' : ComputeContext α,
      t.operatorAssign binaryOp op s context = (Except.ok t, context') ∧
      (∀ r c ch, t.IsActive r c ch →
        ∃ x, t.get context r c ch = some x ∧
          t.get context' r c ch = some (binaryOp op x v)) ∧
      t.visited.Nodup ∧
      (∀ l ∈ t.visited, ∃ r c ch : Int, l = [r, c, ch]) ∧
      (∀ r c ch : Int, [r, c, ch] ∈ t.visited ↔ t.IsActive r c ch) ∧
      (∀ a, (∀ r c ch, t.IsActive r c ch → t.elementAddress r c ch ≠ some a) →
        context'.read a = context.read a) ∧
      context'.memory.length = context.memory.length ∧
      context'.namedValues = context.namedValues := by
  obtain ⟨context', hrun, hlen, hnames, hval, hrest⟩ :=
    operatorAssign_spec binaryOp op t s context v sAddress hwf hs hv htype halias
  obtain ⟨hnd, hform, hmem⟩ := visited_spec t _ hwf
  exact ⟨context', hrun, hval, hnd, hform, hmem, hrest, hlen, hnames⟩

/-- The example tensor is well formed in the example storage. -/
theorem exampleTensor_wellFormed : exampleTensor.WellFormed exampleContext.memory.length :=
  ⟨1, MemoryLayout.mk [1, 2, 2] [1, 2, 2] [0, 0, 0] [0, 1, 2], rfl, rfl, rfl, rfl, rfl,
    by decide, rfl, by decide, by decide⟩

/-- The active coordinates of the example tensor. -/
theorem exampleTensor_active (r c ch : Int) (h : exampleTensor.IsActive r c ch) :
    r = 0 ∧ (c = 0 ∨ c = 1) ∧ (ch = 0 ∨ ch = 1) := by
  simp only [Tensor.IsActive, Tensor.Rows, Tensor.Columns, Tensor.Channels, exampleTensor,
    Tensor.GetLayout, Option.getD_some, MemoryLayout.GetLogicalDimensionActiveSize,
    MemoryLayout.GetPhysicalDimension] at h
  simp [List.indexOf_cons] at h
  obtain ⟨hr, hc, hch⟩ := h
  exact ⟨by omega, by omega, by omega⟩

/-- The example scalar is not stored in the example tensor. -/
theorem exampleScalar_not_aliased (r c ch : Int) (h : exampleTensor.IsActive r c ch) :
    exampleTensor.elementAddress r c ch ≠ some 0 := by
  obtain ⟨rfl, hc, hch⟩ := exampleTensor_active r c ch h
  rcases hc with rfl | rfl <;> rcases hch with rfl | rfl <;> decide

/-- C15 (as amended) on the example tensor `1, 2, 3, 4` and the scalar `5`. -/
theorem C15_elementwise_update_witness :
    (exampleTensor.WellFormed exampleContext.memory.length ∧
      exampleScalar.data = some 0 ∧ exampleContext.read 0 = some 5 ∧
      exampleScalar.GetBaseType = exampleTensor.Type_ ∧
      (∀ r c ch, exampleTensor.IsActive r c ch →
        exampleTensor.elementAddress r c ch ≠ some 0)) ∧
    ∃ context' : ComputeContext Int,
      exampleTensor.operatorAssign intBinaryOp ValueBinaryOperation.add exampleScalar
          exampleContext = (Except.ok exampleTensor, context') ∧
      (∀ r c ch, exampleTensor.IsActive r c ch →
        ∃ x, exampleTensor.get exampleContext r c ch = some x ∧
          exampleTensor.get context' r c ch
            = some (intBinaryOp ValueBinaryOperation.add x 5)) ∧
      exampleTensor.visited.Nodup ∧
      (∀ l ∈ exampleTensor.visited, ∃ r c ch : Int, l = [r, c, ch]) ∧
      (∀ r c ch : Int, [r, c, ch] ∈ exampleTensor.visited ↔ exampleTensor.IsActive r c ch) ∧
      (∀ a, (∀ r c ch, exampleTensor.IsActive r c ch →
          exampleTensor.elementAddress r c ch ≠ some a) →
        context'.read a = exampleContext.read a) ∧
      context'.memory.length = exampleContext.memory.length ∧
      context'.namedValues = exampleContext.namedValues :=
  ⟨⟨exampleTensor_wellFormed, rfl, rfl, rfl, exampleScalar_not_aliased⟩,
    C15_elementwise_update intBinaryOp ValueBinaryOperation.add exampleTensor exampleScalar
      exampleContext 5 0 exampleTensor_wellFormed rfl rfl rfl exampleScalar_not_aliased⟩

/-- C15 as stated fails when the scalar is a handle to an element of the tensor itself:
with `s = t(0, 0, 0)` on the example tensor `1, 2, 3, 4`, the operation `t += s` first
makes `t(0, 0, 0)`, and with it `s`, equal to `2`, and then adds `2` to the other
elements.  Afterwards `t(0, 0, 1)` is `4`, not its previous value `2` plus the `1` that
`s` held before, and `t(0, 0, 0)` is `2`, not its previous value `1` plus the `2` that
`s` holds after. -/
theorem C15_counterexample :
    exampleTensor.WellFormed exampleContext.memory.length ∧
    exampleTensor.operatorCall 0 0 0 = Except.ok aliasingScalar ∧
    aliasingScalar.GetBaseType = exampleTensor.Type_ ∧
    aliasingScalar.data.bind exampleContext.read = some 1 ∧
    exampleTensor.get exampleContext 0 0 0 = some 1 ∧
    exampleTensor.get exampleContext 0 0 1 = some 2 ∧
    exampleTensor.operatorAssign intBinaryOp ValueBinaryOperation.add aliasingScalar
        exampleContext
      = (Except.ok exampleTensor, ComputeContext.mk [5, 2, 4, 5, 6] []) ∧
    aliasingScalar.data.bind (ComputeContext.mk [5, 2, 4, 5, 6] []).read = some (2 : Int) ∧
    exampleTensor.get (ComputeContext.mk [5, 2, 4, 5, 6] []) 0 0 1 = some (4 : Int) ∧
    (4 : Int) ≠ intBinaryOp ValueBinaryOperation.add 2 1 ∧
    exampleTensor.get (ComputeContext.mk [5, 2, 4, 5, 6] []) 0 0 0 = some (2 : Int) ∧
    (2 : Int) ≠ intBinaryOp ValueBinaryOperation.add 1 2 :=
  ⟨exampleTensor_wellFormed, rfl, rfl, rfl, rfl, rfl, rfl, rfl, rfl, by decide, rfl,
    by decide⟩

/-! ## C16 -/

/-- Storage appended behind the storage in use leaves the elements in use as they are. -/
theorem read_append {α : Type} (memory extra : List α) (names names' : List (Value × String))
    (a : Int) (h : a < memory.length) :
    (ComputeContext.mk (memory ++ extra) names).read a
      = (ComputeContext.mk memory names').read a := by
  simp only [ComputeContext.read]
  split
  · rename_i h0
    have : a.toNat < memory.length := by omega
    simp [List.getElem?_append_left this]
  · rfl

/-- The row-major addresses of the entries `For` visits are distinct. -/
theorem entry_addresses_nodup (base s0 s1 s2 e0 e1 e2 o0 o1 o2 : Int) (order : List Nat)
    (horder : order.Perm [0, 1, 2])
    (_hd0 : 0 ≤ s0 ∧ 0 ≤ o0 ∧ o0 + s0 ≤ e0) (hd1 : 0 ≤ s1 ∧ 0 ≤ o1 ∧ o1 + s1 ≤ e1)
    (hd2 : 0 ≤ s2 ∧ 0 ≤ o2 ∧ o2 + s2 ≤ e2) :
    (((MemoryLayout.mk [s0, s1, s2] [e0, e1, e2] [o0, o1, o2] order).physicalEntries.map
        (MemoryLayout.mk [s0, s1, s2] [e0, e1, e2] [o0, o1, o2] order).logicalCoordinates).map
      (fun l => base +
        ((((MemoryLayout.mk [s0, s1, s2] [e0, e1, e2] [o0, o1, o2] order).physicalCoordinates
            l).getD 0 0 + o0) * (e1 * e2)
        + (((MemoryLayout.mk [s0, s1, s2] [e0, e1, e2] [o0, o1, o2] order).physicalCoordinates
            l).getD 1 0 + o1) * e2
        + (((MemoryLayout.mk [s0, s1, s2] [e0, e1, e2] [o0, o1, o2] order).physicalCoordinates
            l).getD 2 0 + o2)))).Nodup := by
  obtain ⟨hPL, -, -, -, -, -⟩ := coordinates_roundtrip [s0, s1, s2] [e0, e1, e2]
    [o0, o1, o2] s0 s1 s2 rfl order horder
  simp only [List.map_map]
  apply List.Nodup.map_on _ (nodup_physicalEntries _)
  intro q hq q' hq' heq
  obtain ⟨p0, p1, p2, rfl, h0, h1, h2⟩ := (mem_physicalEntries s0 s1 s2 _ _ _ q).1 hq
  obtain ⟨p0', p1', p2', rfl, h0', h1', h2'⟩ :=
    (mem_physicalEntries s0 s1 s2 _ _ _ q').1 hq'
  simp only [Function.comp_apply, hPL, List.getD_cons_zero, List.getD_cons_succ] at heq
  have := entry_address_injective e1 e2 (p0 + o0) (p1 + o1) (p2 + o2) (p0' + o0)
    (p1' + o1) (p2' + o2) ⟨by omega, by omega⟩ ⟨by omega, by omega⟩
    ⟨by omega, by omega⟩ ⟨by omega, by omega⟩ (by omega)
  obtain ⟨ha, hb, hc⟩ := this
  have e0' : p0 = p0' := by omega
  have e1' : p1 = p1' := by omega
  have e2' : p2 = p2' := by omega
  rw [e0', e1', e2']

/-- `Tensor::Copy` of a well-formed tensor: the copy lies in fresh storage behind the
storage in use, has the type and the layout of the source and the same elements; the
storage in use is unchanged. -/
theorem Copy_spec {α : Type} (zero : α) (t : Tensor) (context : ComputeContext α)
    (hwf : t.WellFormed context.memory.length) :
    ∃ (copy : Tensor) (context' : ComputeContext α),
      t.Copy zero context = (Except.ok copy, context') ∧
      copy._value = Value.mk (some (context.memory.length : Int)) t.Type_ t._value.layout ∧
      copy.WellFormed context'.memory.length ∧
      context'.namedValues = context.namedValues ∧
      (∀ a : Int, a < context.memory.length → context'.read a = context.read a) ∧
      (∀ r c ch, t.IsActive r c ch →
        ∃ x, t.get context r c ch = some x ∧ copy.get context' r c ch = some x) ∧
      (∀ r c ch, t.IsActive r c ch →
        ∃ a : Int, copy.elementAddress r c ch = some a ∧ (context.memory.length : Int) ≤ a) := by
  obtain ⟨base, ty, s0, s1, s2, e0, e1, e2, o0, o1, o2, order, rfl, horder, hd0, hd1, hd2,
    hbase, hmem⟩ := WellFormed_concrete t _ hwf
  obtain ⟨hPL, hLP, -, hphys, hlog, -⟩ := coordinates_roundtrip [s0, s1, s2] [e0, e1, e2]
    [o0, o1, o2] s0 s1 s2 rfl order horder
  have hcall := operatorCall_active base ty s0 s1 s2 e0 e1 e2 o0 o1 o2 order horder hd0 hd1 hd2
  have hcall' := operatorCall_active (context.memory.length : Int) ty s0 s1 s2 e0 e1 e2 o0 o1 o2
    order horder hd0 hd1 hd2
  have he0 : 0 ≤ e0 := by omega
  have he1 : 0 ≤ e1 := by omega
  have he2 : 0 ≤ e2 := by omega
  have hsize : 0 ≤ e0 * (e1 * e2) := mul_nonneg he0 (mul_nonneg he1 he2)
  -- offsets of valid physical entries
  have hoff : ∀ p0 p1 p2 : Int,
      ((0 ≤ p0 ∧ p0 < s0) ∧ (0 ≤ p1 ∧ p1 < s1) ∧ (0 ≤ p2 ∧ p2 < s2)) →
      0 ≤ (p0 + o0) * (e1 * e2) + (p1 + o1) * e2 + (p2 + o2) ∧
        (p0 + o0) * (e1 * e2) + (p1 + o1) * e2 + (p2 + o2) < e0 * (e1 * e2) := by
    rintro p0 p1 p2 ⟨h0, h1, h2⟩
    exact entry_address_bounds e0 e1 e2 (p0 + o0) (p1 + o1) (p2 + o2)
      ⟨by omega, by omega⟩ ⟨by omega, by omega⟩ ⟨by omega, by omega⟩
  set L := MemoryLayout.mk [s0, s1, s2] [e0, e1, e2] [o0, o1, o2] order with hL
  set n : Int := (context.memory.length : Int) with hn
  set context₁ : ComputeContext α := ComputeContext.mk
    (context.memory ++ List.replicate (e0 * (e1 * e2)).toNat zero) context.namedValues
    with hc₁
  have hlen₁ : (context₁.memory.length : Int) = n + e0 * (e1 * e2) := by
    simp only [hc₁, List.length_append, List.length_replicate, Nat.cast_add, hn]
    rw [Int.toNat_of_nonneg hsize]
  have hold : ∀ a : Int, a < n → context₁.read a = context.read a := by
    intro a ha
    exact read_append context.memory _ _ _ a (by omega)
  have hloop := forEach_assign
    (fun (coordinates : List Int) (context : ComputeContext α) =>
      match Offset (Value.mk (some base) ty (some L)) coordinates,
        Offset (Value.mk (some n) ty (some L)) coordinates with
      | Except.ok sourceElement, Except.ok destinationElement =>
        match sourceElement.data.bind context.read with
        | some x =>
          match destinationElement.data.bind fun d => context.write d x with
          | some context' => (Except.ok (), context')
          | none => (Except.error Exception.memoryFault, context)
        | none => (Except.error Exception.memoryFault, context)
      | Except.error e, _ => (Except.error e, context)
      | _, Except.error e => (Except.error e, context))
    (fun l => n + (((L.physicalCoordinates l).getD 0 0 + o0) * (e1 * e2)
      + ((L.physicalCoordinates l).getD 1 0 + o1) * e2
      + ((L.physicalCoordinates l).getD 2 0 + o2)))
    (fun l =>
      match context.read (base + (((L.physicalCoordinates l).getD 0 0 + o0) * (e1 * e2)
          + ((L.physicalCoordinates l).getD 1 0 + o1) * e2
          + ((L.physicalCoordinates l).getD 2 0 + o2))) with
      | some x => x
      | none => zero)
    (fun l => ∃ p0 p1 p2 : Int, l = L.logicalCoordinates [p0, p1, p2] ∧
      ((0 ≤ p0 ∧ p0 < s0) ∧ (0 ≤ p1 ∧ p1 < s1) ∧ (0 ≤ p2 ∧ p2 < s2)))
    (fun a => n ≤ a)
    context₁
    (by
      rintro l ⟨p0, p1, p2, rfl, hvalid⟩
      have := hoff p0 p1 p2 hvalid
      simp only [hPL, List.getD_cons_zero, List.getD_cons_succ]
      omega)
    (by
      rintro l ⟨p0, p1, p2, rfl, hvalid⟩ c hlen hout hin
      obtain ⟨r, c', ch, hrc⟩ := hlog p0 p1 p2
      have hp : L.physicalCoordinates [r, c', ch] = [p0, p1, p2] := by rw [← hrc, hPL]
      have ho := hoff p0 p1 p2 hvalid
      have hsrc := Offset_entry base ty [s0, s1, s2] e0 e1 e2 o0 o1 o2 order rfl [r, c', ch]
        rfl p0 p1 p2 hp ⟨by omega, by omega⟩ ⟨by omega, by omega⟩ ⟨by omega, by omega⟩
      have hdst := Offset_entry n ty [s0, s1, s2] e0 e1 e2 o0 o1 o2 order rfl [r, c', ch]
        rfl p0 p1 p2 hp ⟨by omega, by omega⟩ ⟨by omega, by omega⟩ ⟨by omega, by omega⟩
      obtain ⟨x, hx⟩ := read_of_lt context
        (base + ((p0 + o0) * (e1 * e2) + (p1 + o1) * e2 + (p2 + o2))) (by omega) (by omega)
      have hxc : c.read (base + ((p0 + o0) * (e1 * e2) + (p1 + o1) * e2 + (p2 + o2)))
          = some x := by
        rw [hout _ (by omega), hold _ (by omega), hx]
      have hw := write_of_lt c (n + ((p0 + o0) * (e1 * e2) + (p1 + o1) * e2 + (p2 + o2))) x
        (by omega) (by rw [hlen]; omega)
      simp only [hPL, List.getD_cons_zero, List.getD_cons_succ, hx]
      refine ⟨_, hw, ?_⟩
      simp only [hrc, hsrc, hdst, Option.some_bind, hxc, hw])
    (L.physicalEntries.map L.logicalCoordinates)
    (by
      intro l hl
      obtain ⟨q, hq, rfl⟩ := List.mem_map.1 hl
      obtain ⟨p0, p1, p2, rfl, hvalid⟩ := (mem_physicalEntries s0 s1 s2 _ _ _ q).1 hq
      exact ⟨p0, p1, p2, rfl, hvalid⟩)
    (entry_addresses_nodup n s0 s1 s2 e0 e1 e2 o0 o1 o2 order horder hd0 hd1 hd2)
    context₁ rfl (fun _ _ => rfl) (fun _ _ => rfl)
  obtain ⟨context', hrun, hlen', hnames', hval, hrest⟩ := hloop
  have hcopy : (Tensor.mk (Value.mk (some base) ty (some L))).Copy zero context
      = (Except.ok (Tensor.mk (Value.mk (some n) ty (some L))), context') := by
    simp only [Tensor.Copy, Allocate, MemoryLayout.NumDimensions, Value.GetBaseType, hL,
      List.length_cons, List.length_nil, MemoryLayout.GetMemorySize, List.prod_cons,
      List.prod_nil, mul_one, CopyData]
    simp only [← hL, ← hc₁, ← hn] 
    have hemp : ("" : String).isEmpty = true := rfl
    simp [hrun, Tensor.new, Value.IsDefined, Value.IsConstrained, hL,
      MemoryLayout.NumDimensions, hemp]
  refine ⟨_, context', hcopy, rfl, ?_, ?_, ?_, ?_, ?_⟩
  · have hn0 : 0 ≤ n := Int.ofNat_nonneg _
    refine ⟨n, L, rfl, rfl, rfl, rfl, rfl, horder, ?_, hn0, ?_⟩
    · simp [hL, activeInsideExtent, hd0, hd1, hd2]
    · simp only [hL, MemoryLayout.GetMemorySize, List.prod_cons, List.prod_nil, mul_one]
      rw [hlen']
      omega
  · rw [hnames']
  · intro a ha
    rw [hrest a, hold a ha]
    intro hmem'
    simp only [List.map_map, List.mem_map, Function.comp_apply] at hmem'
    obtain ⟨q, hq, hqa⟩ := hmem'
    obtain ⟨p0, p1, p2, rfl, hvalid⟩ := (mem_physicalEntries s0 s1 s2 _ _ _ q).1 hq
    simp only [hPL, List.getD_cons_zero, List.getD_cons_succ] at hqa
    have := hoff p0 p1 p2 hvalid
    omega
  · intro r c ch hact
    obtain ⟨p0, p1, p2, hp, hiff, hoc⟩ := hcall r c ch
    obtain ⟨q0, q1, q2, hq, hiff', hoc'⟩ := hcall' r c ch
    have hqp : [q0, q1, q2] = [p0, p1, p2] := by rw [← hq, hp]
    simp only [List.cons.injEq, and_true] at hqp
    obtain ⟨rfl, rfl, rfl⟩ := hqp
    have hvalid := hiff.1 hact
    have ho := hoff q0 q1 q2 hvalid
    obtain ⟨x, hx⟩ := read_of_lt context
      (base + ((q0 + o0) * (e1 * e2) + (q1 + o1) * e2 + (q2 + o2))) (by omega) (by omega)
    have hmemL : L.logicalCoordinates [q0, q1, q2]
        ∈ L.physicalEntries.map L.logicalCoordinates :=
      List.mem_map_of_mem _
        ((mem_physicalEntries s0 s1 s2 _ _ _ [q0, q1, q2]).2 ⟨q0, q1, q2, rfl, hvalid⟩)
    have hfinal := hval _ hmemL
    simp only [hPL, List.getD_cons_zero, List.getD_cons_succ, hx] at hfinal
    refine ⟨x, ?_, ?_⟩
    · simp only [Tensor.get, hoc hvalid, Option.some_bind, hx]
    · simp only [Tensor.get, hoc' hvalid, Option.some_bind, hfinal]
  · intro r c ch hact
    obtain ⟨p0, p1, p2, hp, hiff, hoc⟩ := hcall r c ch
    obtain ⟨q0, q1, q2, hq, hiff', hoc'⟩ := hcall' r c ch
    have hqp : [q0, q1, q2] = [p0, p1, p2] := by rw [← hq, hp]
    simp only [List.cons.injEq, and_true] at hqp
    obtain ⟨rfl, rfl, rfl⟩ := hqp
    have hvalid := hiff.1 hact
    have ho := hoff q0 q1 q2 hvalid
    exact ⟨n + ((q0 + o0) * (e1 * e2) + (q1 + o1) * e2 + (q2 + o2)),
      by simp only [Tensor.elementAddress, hoc' hvalid], by omega⟩

/-- Reading an element of a tensor is reading the storage at its address. -/
theorem get_eq_read {α : Type} (t : Tensor) (context : ComputeContext α) (r c ch : Int) :
    t.get context r c ch = (t.elementAddress r c ch).bind context.read := by
  simp only [Tensor.get, Tensor.elementAddress]
  cases t.operatorCall r c ch <;> rfl

/-- The free operators on a well-formed tensor: the result is a fresh tensor holding the
elements of `t` combined with the scalar, and the storage in use is unchanged. -/
theorem operatorBinary_spec {α : Type} (zero : α)
    (binaryOp : ValueBinaryOperation → α → α → α) (op : ValueBinaryOperation) (t : Tensor)
    (s : Value) (context : ComputeContext α) (v : α) (sAddress : Int)
    (hwf : t.WellFormed context.memory.length) (hs : s.data = some sAddress)
    (hv : context.read sAddress = some v) (htype : s.GetBaseType = t.Type_) :
    ∃ (result : Tensor) (context' : ComputeContext α),
      t.operatorBinary zero binaryOp op s context = (Except.ok result, context') ∧
      result._value = Value.mk (some (context.memory.length : Int)) t.Type_ t._value.layout ∧
      (∀ r c ch, t.IsActive r c ch →
        ∃ x, t.get context r c ch = some x ∧ t.get context' r c ch = some x ∧
          result.get context' r c ch = some (binaryOp op x v)) ∧
      (∀ a : Int, a < context.memory.length → context'.read a = context.read a) ∧
      context'.namedValues = context.namedValues := by
  obtain ⟨copy, context₁, hcopy, hcv, hcwf, hnames₁, hold₁, hget₁, hfresh⟩ :=
    Copy_spec zero t context hwf
  have hsl := (lt_of_read context sAddress v hv).2
  have hact : ∀ r c ch, copy.IsActive r c ch ↔ t.IsActive r c ch := by
    intro r c ch
    simp only [Tensor.IsActive, Tensor.Rows, Tensor.Columns, Tensor.Channels,
      Tensor.GetLayout, hcv]
  have hfresh' : ∀ r c ch a, copy.IsActive r c ch → copy.elementAddress r c ch = some a →
      (context.memory.length : Int) ≤ a := by
    intro r c ch a hc ha
    obtain ⟨a', ha', hle⟩ := hfresh r c ch ((hact r c ch).1 hc)
    rw [ha'] at ha
    cases ha
    exact hle
  obtain ⟨context₂, hrun, hlen₂, hnames₂, hval, hrest⟩ :=
    operatorAssign_spec binaryOp op copy s context₁ v sAddress hcwf hs
      (by rw [hold₁ sAddress hsl, hv])
      (by rw [htype]; simp only [Tensor.Type_, hcv, Value.GetBaseType])
      (by
        intro r c ch hc ha
        have := hfresh' r c ch sAddress hc ha
        omega)
  have hold₂ : ∀ a : Int, a < context.memory.length → context₂.read a = context.read a := by
    intro a ha
    rw [hrest a, hold₁ a ha]
    intro r c ch hc hEq
    have := hfresh' r c ch a hc hEq
    omega
  refine ⟨copy, context₂, ?_, hcv, ?_, hold₂, by rw [hnames₂, hnames₁]⟩
  · simp only [Tensor.operatorBinary, hcopy, hrun]
  · intro r c ch ht
    obtain ⟨x, hx, hcx⟩ := hget₁ r c ch ht
    obtain ⟨y, hy, hfinal⟩ := hval r c ch ((hact r c ch).2 ht)
    rw [hcx] at hy
    cases hy
    refine ⟨x, hx, ?_, hfinal⟩
    rw [get_eq_read] at hx ⊢
    cases hadr : t.elementAddress r c ch with
    | none => rw [hadr] at hx; cases hx
    | some a =>
      rw [hadr] at hx
      simp only [Option.some_bind] at hx ⊢
      rw [hold₂ a (lt_of_read context a x hx).2, hx]

/-- C16: `Tensor::Copy` of a well-formed tensor returns a tensor in freshly allocated
storage (its elements lie behind all storage in use) that has the same element type and
layout as the source and element-wise equal contents, and leaves the storage in use
unchanged; consequently the free operators `t + s`, `t - s`, `t * s` and `t / s` (`op`)
leave every element of their operand `t` unchanged and return a tensor whose element at
each coordinate is the element of `t` combined with `s`. -/
theorem C16_copy_and_free_operators {α : Type} (zero : α)
    (binaryOp : ValueBinaryOperation → α → α → α) (op : ValueBinaryOperation) (t : Tensor)
    (s : Value) (context : ComputeContext α) (v : α) (sAddress : Int)
    (hwf : t.WellFormed context.memory.length) (hs : s.data = some sAddress)
    (hv : context.read sAddress = some v) (htype : s.GetBaseType = t.Type_) :
    (∃ (copy : Tensor) (context' : ComputeContext α),
      t.Copy zero context = (Except.ok copy, context') ∧
      copy.Type_ = t.Type_ ∧ copy._value.layout = t._value.layout ∧
      (∀ r c ch, t.IsActive r c ch →
        ∃ a : Int, copy.elementAddress r c ch = some a ∧ (context.memory.length : Int) ≤ a) ∧
      (∀ r c ch, t.IsActive r c ch →
        ∃ x, t.get context r c ch = some x ∧ copy.get context' r c ch = some x) ∧
      (∀ a : Int, a < context.memory.length → context'.read a = context.read a)) ∧
    (∃ (result : Tensor) (context' : ComputeContext α),
      t.operatorBinary zero binaryOp op s context = (Except.ok result, context') ∧
      result.Type_ = t.Type_ ∧ result._value.layout = t._value.layout ∧
      (∀ r c ch, t.IsActive r c ch →
        ∃ x, t.get context r c ch = some x ∧ t.get context' r c ch = some x ∧
          result.get context' r c ch = some (binaryOp op x v)) ∧
      (∀ a : Int, a < context.memory.length → context'.read a = context.read a)) := by
  constructor
  · obtain ⟨copy, context₁, hcopy, hcv, -, -, hold₁, hget₁, hfresh⟩ :=
      Copy_spec zero t context hwf
    exact ⟨copy, context₁, hcopy, by simp only [Tensor.Type_, hcv, Value.GetBaseType],
      by rw [hcv], hfresh, hget₁, hold₁⟩
  · obtain ⟨result, context₂, hrun, hrv, hval, hold₂, -⟩ :=
      operatorBinary_spec zero binaryOp op t s context v sAddress hwf hs hv htype
    exact ⟨result, context₂, hrun, by simp only [Tensor.Type_, hrv, Value.GetBaseType],
      by rw [hrv], hval, hold₂⟩

/-- C16 on the example tensor `1, 2, 3, 4` and the scalar `5`, with `*`: the product lies
behind the storage in use. -/
theorem C16_copy_and_free_operators_witness :
    (exampleTensor.WellFormed exampleContext.memory.length ∧
      exampleScalar.data = some 0 ∧ exampleContext.read 0 = some 5 ∧
      exampleScalar.GetBaseType = exampleTensor.Type_) ∧
    (exampleTensor.operatorBinary 0 intBinaryOp ValueBinaryOperation.multiply exampleScalar
        exampleContext).2.memory = [5, 1, 2, 3, 4, 5, 10, 15, 20] ∧
    ((∃ (copy : Tensor) (context' : ComputeContext Int),
      exampleTensor.Copy 0 exampleContext = (Except.ok copy, context') ∧
      copy.Type_ = exampleTensor.Type_ ∧ copy._value.layout = exampleTensor._value.layout ∧
      (∀ r c ch, exampleTensor.IsActive r c ch →
        ∃ a : Int, copy.elementAddress r c ch = some a ∧
          (exampleContext.memory.length : Int) ≤ a) ∧
      (∀ r c ch, exampleTensor.IsActive r c ch →
        ∃ x, exampleTensor.get exampleContext r c ch = some x ∧
          copy.get context' r c ch = some x) ∧
      (∀ a : Int, a < exampleContext.memory.length →
        context'.read a = exampleContext.read a)) ∧
    (∃ (result : Tensor) (context' : ComputeContext Int),
      exampleTensor.operatorBinary 0 intBinaryOp ValueBinaryOperation.multiply exampleScalar
          exampleContext = (Except.ok result, context') ∧
      result.Type_ = exampleTensor.Type_ ∧
      result._value.layout = exampleTensor._value.layout ∧
      (∀ r c ch, exampleTensor.IsActive r c ch →
        ∃ x, exampleTensor.get exampleContext r c ch = some x ∧
          exampleTensor.get context' r c ch = some x ∧
          result.get context' r c ch
            = some (intBinaryOp ValueBinaryOperation.multiply x 5)) ∧
      (∀ a : Int, a < exampleContext.memory.length →
        context'.read a = exampleContext.read a))) :=
  ⟨⟨exampleTensor_wellFormed, rfl, rfl, rfl⟩, by decide,
    C16_copy_and_free_operators 0 intBinaryOp ValueBinaryOperation.multiply exampleTensor
      exampleScalar exampleContext 5 0 exampleTensor_wellFormed rfl rfl rfl⟩

/-! ## C27 and C28 -/

/-- The bounds check of `SubTensor` comes first: when a count exceeds the size of its
dimension the index-out-of-range error is raised and nothing else happens. -/
theorem SubTensor_check {α : Type} (t : Tensor) (layout : MemoryLayout)
    (hlayout : t._value.layout = some layout)
    (row column channel numRows numColumns numChannels : Int) (context : ComputeContext α)
    (h : numRows > t.Rows ∨ numColumns > t.Columns ∨ numChannels > t.Channels) :
    t.SubTensor row column channel numRows numColumns numChannels context
      = (Except.error (Exception.InputException InputExceptionErrors.indexOutOfRange),
          context) := by
  simp only [Tensor.Rows, Tensor.Columns, Tensor.Channels, Tensor.GetLayout, hlayout,
    Option.getD_some] at h
  simp only [Tensor.SubTensor, hlayout, h, if_true]

/-- `Tensor::Tensor(Value)` never raises an index-out-of-range error. -/
theorem new_not_indexOutOfRange {α : Type} (value : Value) (name : String)
    (context : ComputeContext α) :
    (Tensor.new value name context).1
      ≠ Except.error (Exception.InputException InputExceptionErrors.indexOutOfRange) := by
  unfold Tensor.new
  split
  · intro h; cases h
  · split <;> (intro h; cases h)

/-- `Offset` never raises an index-out-of-range error. -/
theorem Offset_not_indexOutOfRange (begin : Value) (indices : List Int) :
    Offset begin indices
      ≠ Except.error (Exception.InputException InputExceptionErrors.indexOutOfRange) := by
  unfold Offset
  split
  · split
    · intro h; cases h
    · split <;> (intro h; cases h)
  · intro h; cases h

/-- When the counts pass the bounds check and the start coordinates lie inside the extent,
`SubTensor` returns the handle of the start element with the new layout. -/
theorem SubTensor_ok {α : Type} (t : Tensor) (base : Int) (layout : MemoryLayout)
    (hdata : t._value.data = some base) (hlayout : t._value.layout = some layout)
    (hdim : layout.NumDimensions = 3)
    (row column channel numRows numColumns numChannels : Int) (context : ComputeContext α)
    (hcheck : ¬ (numRows > t.Rows ∨ numColumns > t.Columns ∨ numChannels > t.Channels))
    (hstart : insideExtent (layout.physicalCoordinates [row, column, channel])
      layout.offset layout.extent = true) :
    t.SubTensor row column channel numRows numColumns numChannels context
      = (Except.ok (Tensor.mk (Value.mk
          (some (base + layout.GetLogicalEntryOffset [row, column, channel]))
          t._value.baseType
          (some (MemoryLayout.mk
            ((List.range 3).map fun (index : Nat) =>
              [numRows, numColumns, numChannels].getD (layout.dimensionOrder.getD index 0) 0)
            layout.extent [0, 0, 0] layout.dimensionOrder)))), context) := by
  rcases t with ⟨⟨data, ty, lay⟩⟩
  simp only at hdata hlayout
  subst hdata hlayout
  simp only [Tensor.Rows, Tensor.Columns, Tensor.Channels, Tensor.GetLayout,
    Option.getD_some] at hcheck
  have hemp : ("" : String).isEmpty = true := rfl
  have hlen : layout.size.length = 3 := hdim
  simp [Tensor.SubTensor, hcheck, Offset, hlen, hstart, Value.SetLayout, Tensor.new,
    Value.IsDefined, Value.IsConstrained, MemoryLayout.NumDimensions, hemp]

/-- The physical sizes `physicalDimensions[p] = logicalDimensions[dimensionOrder[p]]` map
back to the logical sizes, for each of the six dimension orders. -/
theorem physicalDimensions_logical (extent offset : List Int) (order : List Nat)
    (horder : order.Perm [0, 1, 2]) (numRows numColumns numChannels : Int) :
    (MemoryLayout.mk
        ((List.range 3).map fun (index : Nat) =>
          [numRows, numColumns, numChannels].getD (order.getD index 0) 0)
        extent offset order).GetLogicalDimensionActiveSize 0 = numRows ∧
    (MemoryLayout.mk
        ((List.range 3).map fun (index : Nat) =>
          [numRows, numColumns, numChannels].getD (order.getD index 0) 0)
        extent offset order).GetLogicalDimensionActiveSize 1 = numColumns ∧
    (MemoryLayout.mk
        ((List.range 3).map fun (index : Nat) =>
          [numRows, numColumns, numChannels].getD (order.getD index 0) 0)
        extent offset order).GetLogicalDimensionActiveSize 2 = numChannels := by
  have hrange : List.range 3 = [0, 1, 2] := by decide
  rcases perm3_cases order horder with h | h | h | h | h | h <;> subst h <;>
    simp [MemoryLayout.GetLogicalDimensionActiveSize, MemoryLayout.GetPhysicalDimension,
      List.indexOf_cons, hrange]

/-- C27: for a tensor with any of the six logical dimension orders, counts `numRows`,
`numColumns`, `numChannels` that pass the bounds check and start coordinates inside the
storage of the tensor, `Tensor::SubTensor` returns a tensor with `Rows() == numRows`,
`Columns() == numColumns` and `Channels() == numChannels`: the active sizes of its logical
dimensions are the three counts, so that the `size_t` values reported equal the counts
converted to `size_t`, and the counts themselves when these are not negative.  Its
physical sizes are `logicalDimensions[dimensionOrder[p]]`, its layout keeps the dimension
order and the extent of the source and has offset `(0, 0, 0)`; it is a handle of the same
element type to the element at the start coordinates, and the context is unchanged. -/
theorem C27_SubTensor_shape {α : Type} (t : Tensor) (base : Int) (layout : MemoryLayout)
    (hdata : t._value.data = some base) (hlayout : t._value.layout = some layout)
    (hdim : layout.NumDimensions = 3) (horder : layout.dimensionOrder.Perm [0, 1, 2])
    (row column channel numRows numColumns numChannels : Int) (context : ComputeContext α)
    (hcheck : ¬ (numRows > t.Rows ∨ numColumns > t.Columns ∨ numChannels > t.Channels))
    (hstart : insideExtent (layout.physicalCoordinates [row, column, channel])
      layout.offset layout.extent = true) :
    ∃ sub : Tensor,
      t.SubTensor row column channel numRows numColumns numChannels context
        = (Except.ok sub, context) ∧
      sub.Rows = numRows ∧ sub.Columns = numColumns ∧ sub.Channels = numChannels ∧
      (toSizeT sub.Rows = toSizeT numRows ∧ toSizeT sub.Columns = toSizeT numColumns ∧
        toSizeT sub.Channels = toSizeT numChannels) ∧
      (0 ≤ numRows → numRows < 2 ^ 64 → (toSizeT sub.Rows : Int) = numRows) ∧
      (0 ≤ numColumns → numColumns < 2 ^ 64 → (toSizeT sub.Columns : Int) = numColumns) ∧
      (0 ≤ numChannels → numChannels < 2 ^ 64 → (toSizeT sub.Channels : Int) = numChannels) ∧
      sub.GetLayout.size
        = [[numRows, numColumns, numChannels].getD (layout.dimensionOrder.getD 0 0) 0,
           [numRows, numColumns, numChannels].getD (layout.dimensionOrder.getD 1 0) 0,
           [numRows, numColumns, numChannels].getD (layout.dimensionOrder.getD 2 0) 0] ∧
      sub.GetLayout.dimensionOrder = layout.dimensionOrder ∧
      sub.GetLayout.extent = layout.extent ∧
      sub.GetLayout.offset = [0, 0, 0] ∧
      sub.Type_ = t.Type_ ∧
      sub._value.data = some (base + layout.GetLogicalEntryOffset [row, column, channel]) := by
  have hok := SubTensor_ok t base layout hdata hlayout hdim row column channel numRows
    numColumns numChannels context hcheck hstart
  obtain ⟨h0, h1, h2⟩ := physicalDimensions_logical layout.extent [0, 0, 0]
    layout.dimensionOrder horder numRows numColumns numChannels
  have hsize : ∀ x : Int, 0 ≤ x → x < 2 ^ 64 → (toSizeT x : Int) = x := by
    intro x hx0 hx1
    unfold toSizeT
    rw [Int.emod_eq_of_lt hx0 hx1]
    exact Int.toNat_of_nonneg hx0
  refine ⟨_, hok, h0, h1, h2,
    ⟨congrArg toSizeT h0, congrArg toSizeT h1, congrArg toSizeT h2⟩, ?_, ?_, ?_, ?_, rfl, rfl,
    rfl, rfl, rfl⟩
  · intro hx0 hx1
    exact (congrArg (fun x => (toSizeT x : Int)) h0).trans (hsize _ hx0 hx1)
  · intro hx0 hx1
    exact (congrArg (fun x => (toSizeT x : Int)) h1).trans (hsize _ hx0 hx1)
  · intro hx0 hx1
    exact (congrArg (fun x => (toSizeT x : Int)) h2).trans (hsize _ hx0 hx1)
  · simp only [Tensor.GetLayout, Option.getD_some]
    rfl

/-- C27 on the channel-major example tensor (order `(2, 0, 1)`, 3 rows, 4 columns, 2
channels): the sub-tensor of 2 rows, 3 columns and 1 channel starting at `(1, 1, 1)`. -/
theorem C27_SubTensor_shape_witness :
    (channelMajorTensor._value.data = some 0 ∧
      channelMajorTensor._value.layout
        = some (MemoryLayout.mk [2, 3, 4] [2, 3, 4] [0, 0, 0] [2, 0, 1]) ∧
      (MemoryLayout.mk [2, 3, 4] [2, 3, 4] [0, 0, 0] [2, 0, 1]).NumDimensions = 3 ∧
      (MemoryLayout.mk [2, 3, 4] [2, 3, 4] [0, 0, 0] [2, 0, 1]).dimensionOrder.Perm [0, 1, 2] ∧
      ¬ ((2 : Int) > channelMajorTensor.Rows ∨ (3 : Int) > channelMajorTensor.Columns ∨
          (1 : Int) > channelMajorTensor.Channels) ∧
      insideExtent
        ((MemoryLayout.mk [2, 3, 4] [2, 3, 4] [0, 0, 0] [2, 0, 1]).physicalCoordinates [1, 1, 1])
        (MemoryLayout.mk [2, 3, 4] [2, 3, 4] [0, 0, 0] [2, 0, 1]).offset
        (MemoryLayout.mk [2, 3, 4] [2, 3, 4] [0, 0, 0] [2, 0, 1]).extent = true) ∧
    ∃ sub : Tensor,
      channelMajorTensor.SubTensor 1 1 1 2 3 1 exampleContext = (Except.ok sub, exampleContext) ∧
      sub.Rows = 2 ∧ sub.Columns = 3 ∧ sub.Channels = 1 ∧
      (toSizeT sub.Rows = toSizeT 2 ∧ toSizeT sub.Columns = toSizeT 3 ∧
        toSizeT sub.Channels = toSizeT 1) ∧
      ((0 : Int) ≤ 2 → (2 : Int) < 2 ^ 64 → (toSizeT sub.Rows : Int) = 2) ∧
      ((0 : Int) ≤ 3 → (3 : Int) < 2 ^ 64 → (toSizeT sub.Columns : Int) = 3) ∧
      ((0 : Int) ≤ 1 → (1 : Int) < 2 ^ 64 → (toSizeT sub.Channels : Int) = 1) ∧
      sub.GetLayout.size
        = [[(2 : Int), 3, 1].getD
            ((MemoryLayout.mk [2, 3, 4] [2, 3, 4] [0, 0, 0] [2, 0, 1]).dimensionOrder.getD 0 0) 0,
           [(2 : Int), 3, 1].getD
            ((MemoryLayout.mk [2, 3, 4] [2, 3, 4] [0, 0, 0] [2, 0, 1]).dimensionOrder.getD 1 0) 0,
           [(2 : Int), 3, 1].getD
            ((MemoryLayout.mk [2, 3, 4] [2, 3, 4] [0, 0, 0] [2, 0, 1]).dimensionOrder.getD 2 0) 0] ∧
      sub.GetLayout.dimensionOrder
        = (MemoryLayout.mk [2, 3, 4] [2, 3, 4] [0, 0, 0] [2, 0, 1]).dimensionOrder ∧
      sub.GetLayout.extent = (MemoryLayout.mk [2, 3, 4] [2, 3, 4] [0, 0, 0] [2, 0, 1]).extent ∧
      sub.GetLayout.offset = [0, 0, 0] ∧
      sub.Type_ = channelMajorTensor.Type_ ∧
      sub._value.data
        = some (0 + (MemoryLayout.mk [2, 3, 4] [2, 3, 4] [0, 0, 0] [2, 0, 1]).GetLogicalEntryOffset
            [1, 1, 1]) :=
  ⟨⟨rfl, rfl, rfl, by decide, by decide, by decide⟩,
    C27_SubTensor_shape channelMajorTensor 0
      (MemoryLayout.mk [2, 3, 4] [2, 3, 4] [0, 0, 0] [2, 0, 1]) rfl rfl rfl (by decide) 1 1 1
      2 3 1 exampleContext (by decide) (by decide)⟩

/-- C28: for a tensor that has a layout, `Tensor::SubTensor` fails with an
index-out-of-range error if and only if `numRows > Rows()` or `numColumns > Columns()` or
`numChannels > Channels()`; in that case nothing else has happened; and the start
coordinates `row`, `column`, `channel` have no influence on whether this error is
raised. -/
theorem C28_SubTensor_bounds_check {α : Type} (t : Tensor) (layout : MemoryLayout)
    (hlayout : t._value.layout = some layout)
    (row column channel numRows numColumns numChannels : Int) (context : ComputeContext α) :
    ((t.SubTensor row column channel numRows numColumns numChannels context).1
        = Except.error (Exception.InputException InputExceptionErrors.indexOutOfRange)
      ↔ (numRows > t.Rows ∨ numColumns > t.Columns ∨ numChannels > t.Channels)) ∧
    ((numRows > t.Rows ∨ numColumns > t.Columns ∨ numChannels > t.Channels) →
      t.SubTensor row column channel numRows numColumns numChannels context
        = (Except.error (Exception.InputException InputExceptionErrors.indexOutOfRange),
            context)) ∧
    (∀ row' column' channel' : Int,
      ((t.SubTensor row column channel numRows numColumns numChannels context).1
          = Except.error (Exception.InputException InputExceptionErrors.indexOutOfRange)
        ↔ (t.SubTensor row' column' channel' numRows numColumns numChannels context).1
          = Except.error (Exception.InputException InputExceptionErrors.indexOutOfRange))) := by
  have hiff : ∀ r c ch : Int,
      ((t.SubTensor r c ch numRows numColumns numChannels context).1
          = Except.error (Exception.InputException InputExceptionErrors.indexOutOfRange)
        ↔ (numRows > t.Rows ∨ numColumns > t.Columns ∨ numChannels > t.Channels)) := by
    intro r c ch
    constructor
    · intro herr
      by_contra hcheck
      simp only [Tensor.Rows, Tensor.Columns, Tensor.Channels, Tensor.GetLayout, hlayout,
        Option.getD_some] at hcheck
      simp only [Tensor.SubTensor, hlayout, hcheck, if_false] at herr
      cases hoff : Offset t._value [r, c, ch] with
      | error e =>
        rw [hoff] at herr
        simp only at herr
        apply Offset_not_indexOutOfRange t._value [r, c, ch]
        injection herr with he
        rw [hoff, he]
      | ok v =>
        rw [hoff] at herr
        exact new_not_indexOutOfRange _ _ _ herr
    · intro hcheck
      rw [SubTensor_check t layout hlayout r c ch numRows numColumns numChannels context
        hcheck]
  refine ⟨hiff row column channel, ?_, ?_⟩
  · exact SubTensor_check t layout hlayout row column channel numRows numColumns numChannels
      context
  · intro row' column' channel'
    rw [hiff row column channel, hiff row' column' channel']

/-- C28 on the channel-major example tensor (3 rows): four rows starting at row 0 are
refused, and three rows starting at row 2 pass the check although they reach past the last
row. -/
theorem C28_SubTensor_bounds_check_witness :
    channelMajorTensor._value.layout
      = some (MemoryLayout.mk [2, 3, 4] [2, 3, 4] [0, 0, 0] [2, 0, 1]) ∧
    (((channelMajorTensor.SubTensor 0 0 0 4 1 1 exampleContext).1
        = Except.error (Exception.InputException InputExceptionErrors.indexOutOfRange)
      ↔ ((4 : Int) > channelMajorTensor.Rows ∨ (1 : Int) > channelMajorTensor.Columns ∨
          (1 : Int) > channelMajorTensor.Channels)) ∧
    (((4 : Int) > channelMajorTensor.Rows ∨ (1 : Int) > channelMajorTensor.Columns ∨
          (1 : Int) > channelMajorTensor.Channels) →
      channelMajorTensor.SubTensor 0 0 0 4 1 1 exampleContext
        = (Except.error (Exception.InputException InputExceptionErrors.indexOutOfRange),
            exampleContext)) ∧
    (∀ row' column' channel' : Int,
      ((channelMajorTensor.SubTensor 0 0 0 4 1 1 exampleContext).1
          = Except.error (Exception.InputException InputExceptionErrors.indexOutOfRange)
        ↔ (channelMajorTensor.SubTensor row' column' channel' 4 1 1 exampleContext).1
          = Except.error (Exception.InputException InputExceptionErrors.indexOutOfRange)))) :=
  ⟨rfl, C28_SubTensor_bounds_check channelMajorTensor
    (MemoryLayout.mk [2, 3, 4] [2, 3, 4] [0, 0, 0] [2, 0, 1]) rfl 0 0 0 4 1 1 exampleContext⟩

end value

namespace model

/-! ## C19 -/

/-- Truncating division of numerator by denominator is the floor of a non-negative
rational and the ceiling of a negative one. -/
theorem tdiv_num_den (q : ℚ) : q.num.tdiv q.den = if 0 ≤ q then ⌊q⌋ else ⌈q⌉ := by
  by_cases h : 0 ≤ q
  · have hn : 0 ≤ q.num := Rat.num_nonneg.2 h
    rw [if_pos h, Int.tdiv_eq_ediv hn (Int.ofNat_nonneg _), Rat.floor_def]
  · have hq : q < 0 := not_le.1 h
    have hn : q.num < 0 := Rat.num_neg.2 hq
    have hc : ⌈q⌉ = -⌊-q⌋ := by rw [Int.floor_neg, neg_neg]
    rw [if_neg h, hc, Rat.floor_def, Rat.neg_num, Rat.neg_den]
    have h1 : q.num.tdiv q.den = -((-q.num).tdiv q.den) := by
      rw [Int.neg_tdiv, neg_neg]
    rw [h1, Int.tdiv_eq_ediv (by omega) (Int.ofNat_nonneg _)]

/-- C19: `MapImpl::FromDouble<bool>(x)` is `false` exactly when `x` is zero (so `0` gives
`false` and `-5` gives `true`), and `FromDouble<int>(x)` truncates toward zero for every
`x` whose truncation is in the range of `int` (so `3.7` gives `3` and `-3.7` gives
`-3`). -/
theorem C19_FromDouble_casts :
    (∀ x : Double,
      FromDouble ElementType.bool x = some (Element.bool false) ↔ x = Double.finite 0) ∧
    (∀ x : Double, x ≠ Double.finite 0 →
      FromDouble ElementType.bool x = some (Element.bool true)) ∧
    FromDouble ElementType.bool (Double.finite 0) = some (Element.bool false) ∧
    FromDouble ElementType.bool (Double.finite (-5)) = some (Element.bool true) ∧
    (∀ q : ℚ, (-2147483649 : ℚ) < q → q < (2147483648 : ℚ) →
      FromDouble ElementType.int (Double.finite q)
        = some (Element.int (if 0 ≤ q then ⌊q⌋ else ⌈q⌉))) ∧
    FromDouble ElementType.int (Double.finite (37 / 10)) = some (Element.int 3) ∧
    FromDouble ElementType.int (Double.finite (-37 / 10)) = some (Element.int (-3)) := by
  have hint : ∀ q : ℚ, (-2147483649 : ℚ) < q → q < (2147483648 : ℚ) →
      FromDouble ElementType.int (Double.finite q)
        = some (Element.int (if 0 ≤ q then ⌊q⌋ else ⌈q⌉)) := by
    intro q hlo hhi
    have ht := tdiv_num_den q
    have hrange : -(2 : Int) ^ (32 - 1) ≤ q.num.tdiv q.den ∧
        q.num.tdiv q.den < (2 : Int) ^ (32 - 1) := by
      rw [ht]
      by_cases h : 0 ≤ q
      · rw [if_pos h]
        have h0 : 0 ≤ ⌊q⌋ := Int.floor_nonneg.2 h
        have h1 : ⌊q⌋ < 2147483648 := by
          rw [Int.floor_lt]
          exact_mod_cast hhi
        norm_num
        omega
      · rw [if_neg h]
        have hq : q ≤ 0 := le_of_lt (not_le.1 h)
        have h0 : ⌈q⌉ ≤ 0 := Int.ceil_le.2 (by exact_mod_cast hq)
        have h1 : -2147483649 < ⌈q⌉ := by
          rw [Int.lt_ceil]
          exact_mod_cast hlo
        norm_num
        omega
    rw [ht] at hrange
    simp only [FromDouble, Double.toInteger, ht]
    rw [if_pos hrange]
    rfl
  refine ⟨?_, ?_, by decide, by decide, hint, ?_, ?_⟩
  · intro x
    cases x with
    | finite q =>
      simp only [FromDouble, Double.neZero, Option.some.injEq, Element.bool.injEq,
        decide_eq_false_iff_not, ne_eq, not_not, Double.finite.injEq]
    | posInf => simp [FromDouble, Double.neZero]
    | negInf => simp [FromDouble, Double.neZero]
    | nan => simp [FromDouble, Double.neZero]
  · intro x hx
    cases x with
    | finite q =>
      have hq : q ≠ 0 := fun h => hx (by rw [h])
      simp [FromDouble, Double.neZero, hq]
    | posInf => simp [FromDouble, Double.neZero]
    | negInf => simp [FromDouble, Double.neZero]
    | nan => simp [FromDouble, Double.neZero]
  · rw [hint (37 / 10) (by norm_num) (by norm_num)]
    have h : (0 : ℚ) ≤ 37 / 10 := by norm_num
    rw [if_pos h]
    have : ⌊(37 / 10 : ℚ)⌋ = 3 := by
      rw [Int.floor_eq_iff]
      constructor <;> norm_num
    rw [this]
  · rw [hint (-37 / 10) (by norm_num) (by norm_num)]
    have h : ¬ (0 : ℚ) ≤ -37 / 10 := by norm_num
    rw [if_neg h]
    have : ⌈(-37 / 10 : ℚ)⌉ = -3 := by
      rw [Int.ceil_eq_iff]
      constructor <;> norm_num
    rw [this]

/-! ## C20 -/

/-- The guard leaves the active context as it found it, whatever the block does and however
it is left. -/
theorem withContextGuard_activeContext {β : Type} (context : Nat)
    (block : World → Except Exception β × World) (w : World) :
    (withContextGuard context block w).2.activeContext = w.activeContext := rfl

/-- C20: every guarded overload of `Map::ComputeOutput` (typed data vector, data vector by
elements, by index and by name, for values and for data vectors) leaves the active context
as it was before the call, for every model computation `compute` and every state, on
normal return and when the computation or the overload raises an error.  The computation
runs with the map's own context installed; nested guarded overloads (the data-vector
overload calling the typed one) install it again and restore it level by level. -/
theorem C20_context_restored (compute : ComputeFunction) (w : World)
    (valueType : ElementType) (elements : PortElementsBase) (index : Nat)
    (outputName : String) :
    (ComputeOutput_typed compute valueType elements w).2.activeContext = w.activeContext ∧
    (ComputeOutput_elements compute elements w).2.activeContext = w.activeContext ∧
    (ComputeOutput_index compute valueType index w).2.activeContext = w.activeContext ∧
    (ComputeOutput_dataVector_index compute index w).2.activeContext = w.activeContext ∧
    (ComputeOutput_name compute valueType outputName w).2.activeContext = w.activeContext ∧
    (ComputeOutput_dataVector_name compute outputName w).2.activeContext
      = w.activeContext ∧
    ComputeOutput_typed compute valueType elements w
      = ((compute valueType elements (World.mk w.map (some w.map.computeContext))).1,
         World.mk (compute valueType elements (World.mk w.map (some w.map.computeContext))).2.map
           w.activeContext) ∧
    (elements.portType = GetPortType valueType →
      ComputeOutput_elements compute elements w
        = ((compute valueType elements (World.mk w.map (some w.map.computeContext))).1,
           World.mk
             (compute valueType elements (World.mk w.map (some w.map.computeContext))).2.map
             w.activeContext)) ∧
    (elements.portType = PortType.none ∨ elements.portType = PortType.categorical →
      ComputeOutput_elements compute elements w
        = (Except.error (Exception.InputException value.InputExceptionErrors.invalidArgument),
           w)) ∧
    (w.map.GetOutput index
        = Except.error (Exception.other "GetOutput: index out of range") →
      ComputeOutput_index compute valueType index w
        = (Except.error (Exception.other "GetOutput: index out of range"), w)) := by
  refine ⟨rfl, rfl, rfl, rfl, rfl, rfl, rfl, ?_, ?_, ?_⟩
  · intro h
    cases valueType <;> simp only [GetPortType] at h <;>
      simp only [ComputeOutput_elements, withContextGuard, h, ComputeOutput_typed]
  · intro h
    rcases h with h | h <;> simp only [ComputeOutput_elements, withContextGuard, h]
  · intro h
    simp only [ComputeOutput_index, withContextGuard, h]

/-! ## C18 -/

/-- Setting the input of a node changes neither the outputs nor the number of inputs. -/
theorem SetNodeInput_outputs (index : Nat) (inputValues : List Element) (w : World) (k : Nat) :
    (SetNodeInput index inputValues w).map.GetOutput k = w.map.GetOutput k := rfl

/-- The base-two logarithm of a positive rational between two consecutive powers of two. -/
theorem log_eq_of_bounds (q : ℚ) (k : Int) (hq : 0 < q) (h1 : (2 : ℚ) ^ k ≤ q)
    (h2 : q < (2 : ℚ) ^ (k + 1)) : Int.log 2 q = k := by
  apply le_antisymm
  · have := (Int.lt_zpow_iff_log_lt (by norm_num : 1 < 2) hq).1 (by exact_mod_cast h2)
    omega
  · exact (Int.zpow_le_iff_le_log (by norm_num : 1 < 2) hq).1 (by exact_mod_cast h1)

/-- A rational less than one half away from an integer rounds to that integer. -/
theorem roundHalfEven_near (x : ℚ) (m : Int) (h1 : (m : ℚ) - 1 / 2 < x)
    (h2 : x < (m : ℚ) + 1 / 2) : roundHalfEven x = m := by
  by_cases hx : (m : ℚ) ≤ x
  · have hf : ⌊x⌋ = m := by
      rw [Int.floor_eq_iff]
      constructor <;> linarith
    have hlt : x - (m : ℚ) < 1 / 2 := by linarith
    simp only [roundHalfEven, hf, hlt, if_true]
  · have hx' : x < (m : ℚ) := not_le.1 hx
    have hf : ⌊x⌋ = m - 1 := by
      rw [Int.floor_eq_iff]
      push_cast
      constructor <;> linarith
    have hlt : ¬ x - ((m - 1 : Int) : ℚ) < 1 / 2 := by
      push_cast
      linarith
    have hgt : 1 / 2 < x - ((m - 1 : Int) : ℚ) := by
      push_cast
      linarith
    simp only [roundHalfEven, hf, hlt, hgt, if_true, if_false]
    ring

/-- An integer rounds to itself. -/
theorem roundHalfEven_intCast (m : Int) : roundHalfEven (m : ℚ) = m :=
  roundHalfEven_near _ m (by linarith) (by linarith)

/-- The rounding of a positive rational whose last place and rounded significand are
known. -/
theorem roundPositive_eq (q : ℚ) (e m : Int) (he : lastPlace q = e)
    (hm : roundHalfEven (q / (2 : ℚ) ^ e) = m)
    (hfinite : (m : ℚ) * (2 : ℚ) ^ e < (2 : ℚ) ^ (1024 : Nat)) :
    roundPositive q = Double.finite ((m : ℚ) * (2 : ℚ) ^ e) := by
  simp only [roundPositive, he, hm, not_le.2 hfinite, if_false]

/-- Every `double` produced by rounding is an infinity or an integer multiple of a power
of two. -/
theorem ofRat_dyadic (q : ℚ) :
    Double.ofRat q = Double.posInf ∨ Double.ofRat q = Double.negInf ∨
      ∃ m e : Int, Double.ofRat q = Double.finite ((m : ℚ) * (2 : ℚ) ^ e) := by
  have hpos : ∀ r : ℚ, roundPositive r = Double.posInf ∨
      ∃ m e : Int, roundPositive r = Double.finite ((m : ℚ) * (2 : ℚ) ^ e) := by
    intro r
    unfold roundPositive
    split
    · exact Or.inl rfl
    · exact Or.inr ⟨_, _, rfl⟩
  unfold Double.ofRat
  split
  · exact Or.inr (Or.inr ⟨0, 0, by norm_num⟩)
  · split
    · rcases hpos q with h | ⟨m, e, h⟩
      · exact Or.inl h
      · exact Or.inr (Or.inr ⟨m, e, h⟩)
    · rcases hpos (-q) with h | ⟨m, e, h⟩
      · exact Or.inr (Or.inl (by rw [h]; rfl))
      · refine Or.inr (Or.inr ⟨-m, e, ?_⟩)
        rw [h]
        simp only [Double.neg, Double.finite.injEq]
        push_cast
        ring

/-- An integer multiple of a power of two is the reciprocal of a natural number only if
that number is a power of two. -/
theorem dyadic_reciprocal (m e : Int) (n : Nat) (hn : n ≠ 0)
    (h : (m : ℚ) * (2 : ℚ) ^ e = 1 / (n : ℚ)) : ∃ j : Nat, n = 2 ^ j := by
  have hn' : (n : ℚ) ≠ 0 := by exact_mod_cast hn
  have h1 : (n : ℚ) * (m : ℚ) * (2 : ℚ) ^ e = 1 := by
    rw [mul_assoc, h]
    field_simp
  rcases Int.le_total 0 e with he | he
  · obtain ⟨k, rfl⟩ := Int.eq_ofNat_of_zero_le he
    have h2 : (n : Int) * m * 2 ^ k = 1 := by
      have : (((n : Int) * m * 2 ^ k : Int) : ℚ) = ((1 : Int) : ℚ) := by
        push_cast
        rw [← h1]
        norm_cast
      exact_mod_cast this
    have hdvd : (n : Int) ∣ 1 := ⟨m * 2 ^ k, by rw [← h2]; ring⟩
    have : n ∣ 1 := by exact_mod_cast hdvd
    exact ⟨0, by simpa using Nat.dvd_one.1 this⟩
  · obtain ⟨k, hk⟩ := Int.eq_ofNat_of_zero_le (neg_nonneg.2 he)
    have he' : e = -(k : Int) := by omega
    subst he'
    have h2 : (n : Int) * m = 2 ^ k := by
      have h3 : (n : ℚ) * (m : ℚ) = (2 : ℚ) ^ k := by
        have hpow : ((2 : ℚ) ^ (-(k : Int))) = ((2 : ℚ) ^ k)⁻¹ := by
          rw [zpow_neg, zpow_natCast]
        rw [hpow] at h1
        have h2k : ((2 : ℚ) ^ k) ≠ 0 := by positivity
        field_simp at h1
        linarith
      exact_mod_cast h3
    have hdvd : (n : Int) ∣ ((2 ^ k : Nat) : Int) := ⟨m, by push_cast; rw [← h2]⟩
    have hdvd' : n ∣ 2 ^ k := Int.natCast_dvd_natCast.1 hdvd
    obtain ⟨j, -, hj⟩ := (Nat.dvd_prime_pow Nat.prime_two).1 hdvd'
    exact ⟨j, hj⟩

/-- A rational that is an integer multiple of its last place is a `double`: rounding
returns it. -/
theorem roundPositive_exact (q : ℚ) (m : Int) (hq : q = (m : ℚ) * (2 : ℚ) ^ lastPlace q)
    (hfinite : q < (2 : ℚ) ^ (1024 : Nat)) : roundPositive q = Double.finite q := by
  have h2 : (2 : ℚ) ^ lastPlace q ≠ 0 := by positivity
  have hm : roundHalfEven (q / (2 : ℚ) ^ lastPlace q) = m := by
    have : q / (2 : ℚ) ^ lastPlace q = (m : ℚ) := by
      rw [div_eq_iff h2]
      exact hq
    rw [this]
    exact roundHalfEven_intCast m
  rw [roundPositive_eq q (lastPlace q) m rfl hm (by rw [← hq]; exact hfinite), ← hq]

/-- The conversion of a `size_t` below `2^53` to `double` is exact. -/
theorem ofNat_exact (n : Nat) (h : n < 2 ^ 53) : Double.ofNat n = Double.finite (n : ℚ) := by
  rcases Nat.eq_zero_or_pos n with h0 | hpos
  · subst h0
    simp [Double.ofNat, Double.ofRat]
  · have hq : (0 : ℚ) < (n : ℚ) := by exact_mod_cast hpos
    have hne : (n : ℚ) ≠ 0 := ne_of_gt hq
    have hlog0 : 0 ≤ Int.log 2 (n : ℚ) := by
      apply (Int.zpow_le_iff_le_log (by norm_num : 1 < 2) hq).1
      have : (1 : ℚ) ≤ (n : ℚ) := by exact_mod_cast hpos
      simpa using this
    have hlog1 : Int.log 2 (n : ℚ) < 53 := by
      apply (Int.lt_zpow_iff_log_lt (by norm_num : 1 < 2) hq).1
      have h' : (n : ℚ) < (2 : ℚ) ^ (53 : Nat) := by exact_mod_cast h
      have e : (((2 : Nat) : ℚ)) ^ (53 : Int) = (2 : ℚ) ^ (53 : Nat) := by norm_num
      rw [e]
      exact h'
    have hlast : lastPlace (n : ℚ) = Int.log 2 (n : ℚ) - 52 := by
      simp only [lastPlace]
      omega
    obtain ⟨k, hk⟩ := Int.eq_ofNat_of_zero_le (by omega : 0 ≤ 52 - Int.log 2 (n : ℚ))
    have hlast' : lastPlace (n : ℚ) = -(k : Int) := by omega
    simp only [Double.ofNat, Double.ofRat, hne, if_false, hq, if_true]
    apply roundPositive_exact (n : ℚ) ((n : Int) * 2 ^ k)
    · rw [hlast', zpow_neg, zpow_natCast]
      push_cast
      have : ((2 : ℚ) ^ k) ≠ 0 := by positivity
      field_simp
    · have h1 : (n : ℚ) < (2 : ℚ) ^ (53 : Nat) := by exact_mod_cast h
      have h2 : (2 : ℚ) ^ (53 : Nat) ≤ (2 : ℚ) ^ (1024 : Nat) :=
        pow_le_pow_right₀ (by norm_num) (by norm_num)
      linarith

/-- The quotient `1.0 / 2^j` is exact. -/
theorem div_one_pow_two (j : Nat) (hj : j ≤ 1022) :
    Double.div (Double.finite 1) (Double.finite ((2 : ℚ) ^ j))
      = Double.finite (1 / (2 : ℚ) ^ j) := by
  have h2j : ((2 : ℚ) ^ j) ≠ 0 := by positivity
  have hq : (0 : ℚ) < 1 / (2 : ℚ) ^ j := by positivity
  have hne : (1 : ℚ) / (2 : ℚ) ^ j ≠ 0 := ne_of_gt hq
  have hz : (1 : ℚ) / (2 : ℚ) ^ j = (2 : ℚ) ^ (-(j : Int)) := by
    rw [zpow_neg, zpow_natCast, one_div]
  have hlog : Int.log 2 ((1 : ℚ) / (2 : ℚ) ^ j) = -(j : Int) := by
    rw [hz]
    exact_mod_cast Int.log_zpow (R := ℚ) (by norm_num : 1 < 2) (-(j : Int))
  have hlast : lastPlace ((1 : ℚ) / (2 : ℚ) ^ j) = -(j : Int) - 52 := by
    simp only [lastPlace, hlog]
    omega
  simp only [Double.div, h2j, if_false, Double.ofRat, hne, hq, if_true]
  apply roundPositive_exact _ ((2 : Int) ^ 52)
  · rw [hlast, hz]
    have h52 : (((2 : Int) ^ 52 : Int) : ℚ) = (2 : ℚ) ^ (52 : Int) := by norm_num
    rw [h52, ← zpow_add₀ (by norm_num : (2 : ℚ) ≠ 0)]
    congr 1
    ring
  · have h1 : (1 : ℚ) / (2 : ℚ) ^ j ≤ 1 := by
      rw [div_le_one (by positivity)]
      exact one_le_pow₀ (by norm_num)
    have h2 : (1 : ℚ) < (2 : ℚ) ^ (1024 : Nat) := one_lt_pow₀ (by norm_num) (by norm_num)
    linarith

end model

namespace retargetTrainer

open model

/-! ## The class statistics -/

/-- The count of a key after `classCounts[key] += 1`. -/
theorem lookup_increment (classCounts : ClassCounts) (key k : Nat) :
    ((classCounts.increment key).lookup k).getD 0
      = (classCounts.lookup k).getD 0 + (if k = key then 1 else 0) := by
  induction classCounts with
  | nil =>
    by_cases h : k = key
    · subst h
      simp [ClassCounts.increment]
    · have hb : (k == key) = false := beq_eq_false_iff_ne.2 h
      simp [ClassCounts.increment, List.lookup_cons, h, hb]
  | cons entry rest ih =>
    rcases entry with ⟨a, count⟩
    by_cases ha : a = key
    · subst ha
      by_cases h : k = a
      · subst h
        simp [ClassCounts.increment]
      · have hb : (k == a) = false := beq_eq_false_iff_ne.2 h
        simp [ClassCounts.increment, List.lookup_cons, h, hb]
    · by_cases h : k = a
      · subst h
        have hk : ¬ k = key := ha
        simp [ClassCounts.increment, ha, hk]
      · simp only [ClassCounts.increment, ha, if_false, List.lookup_cons, beq_eq_false_iff_ne.2 h]
        exact ih

/-- The keys after `classCounts[key] += 1`: a new key is added once. -/
theorem keys_increment (classCounts : ClassCounts) (key : Nat) :
    (classCounts.increment key).map Prod.fst
      = if key ∈ classCounts.map Prod.fst then classCounts.map Prod.fst
        else classCounts.map Prod.fst ++ [key] := by
  induction classCounts with
  | nil => simp [ClassCounts.increment]
  | cons entry rest ih =>
    rcases entry with ⟨a, count⟩
    by_cases ha : a = key
    · subst ha
      simp [ClassCounts.increment]
    · have hne : ¬ key = a := fun h => ha h.symm
      simp only [ClassCounts.increment, ha, if_false, List.map_cons, ih, List.mem_cons, hne,
        false_or]
      split <;> simp

/-- The counts after the statistics loop, started from any map. -/
theorem foldl_increment_lookup {δ : Type} (multiclassDataset : AutoSupervisedMultiClassDataset δ) :
    ∀ (classCounts : ClassCounts) (k : Nat),
      ((multiclassDataset.foldl
          (fun classCounts example_ => classCounts.increment example_.metadata.classIndex)
          classCounts).lookup k).getD 0
        = (classCounts.lookup k).getD 0 + classCount multiclassDataset k := by
  induction multiclassDataset with
  | nil =>
    intro classCounts k
    simp [classCount]
  | cons example_ rest ih =>
    intro classCounts k
    rw [List.foldl_cons, ih, lookup_increment]
    simp only [classCount, List.countP_cons, decide_eq_true_eq]
    split_ifs <;> omega

/-- The keys after the statistics loop, started from any map with distinct keys. -/
theorem foldl_increment_keys {δ : Type} (multiclassDataset : AutoSupervisedMultiClassDataset δ) :
    ∀ (classCounts : ClassCounts), (classCounts.map Prod.fst).Nodup →
      ((multiclassDataset.foldl
          (fun classCounts example_ => classCounts.increment example_.metadata.classIndex)
          classCounts).map Prod.fst).Nodup ∧
      ∀ k, k ∈ (multiclassDataset.foldl
          (fun classCounts example_ => classCounts.increment example_.metadata.classIndex)
          classCounts).map Prod.fst
        ↔ k ∈ classCounts.map Prod.fst ∨
          k ∈ multiclassDataset.map fun example_ => example_.metadata.classIndex := by
  induction multiclassDataset with
  | nil =>
    intro classCounts hnd
    exact ⟨hnd, fun k => by simp⟩
  | cons example_ rest ih =>
    intro classCounts hnd
    have hkeys := keys_increment classCounts example_.metadata.classIndex
    have hnd' : ((classCounts.increment example_.metadata.classIndex).map Prod.fst).Nodup := by
      rw [hkeys]
      split
      · exact hnd
      · rename_i hnot
        rw [List.nodup_append]
        refine ⟨hnd, List.nodup_singleton _, ?_⟩
        intro a ha hb
        rw [List.mem_singleton] at hb
        subst hb
        exact hnot ha
    obtain ⟨h1, h2⟩ := ih _ hnd'
    refine ⟨h1, ?_⟩
    intro k
    rw [List.foldl_cons, h2 k, hkeys]
    split
    · rename_i hmem
      simp only [List.map_cons, List.mem_cons]
      constructor
      · rintro (h | h)
        · exact Or.inl h
        · exact Or.inr (Or.inr h)
      · rintro (h | h | h)
        · exact Or.inl h
        · exact Or.inl (h ▸ hmem)
        · exact Or.inr h
    · simp only [List.mem_append, List.mem_singleton, List.map_cons, List.mem_cons]
      tauto

/-- The statistics map holds, for every class index, the number of examples of that
class. -/
theorem countClasses_lookup {δ : Type} (multiclassDataset : AutoSupervisedMultiClassDataset δ)
    (k : Nat) :
    ((countClasses multiclassDataset).lookup k).getD 0 = classCount multiclassDataset k := by
  simp [countClasses, foldl_increment_lookup]

/-- The statistics map has one entry per class index that occurs. -/
theorem countClasses_length {δ : Type}
    (multiclassDataset : AutoSupervisedMultiClassDataset δ) :
    (countClasses multiclassDataset).length = (classIndices multiclassDataset).card := by
  obtain ⟨hnd, hmem⟩ := foldl_increment_keys multiclassDataset [] List.nodup_nil
  have hset : ((countClasses multiclassDataset).map Prod.fst).toFinset
      = classIndices multiclassDataset := by
    ext k
    simp only [List.mem_toFinset, classIndices, countClasses]
    rw [hmem k]
    simp
  have hnd' : ((countClasses multiclassDataset).map Prod.fst).Nodup := hnd
  rw [← hset, List.toFinset_card_of_nodup hnd', List.length_map]

/-- Reading `classCounts[key]` yields the count of the key and changes no count. -/
theorem subscript_spec (classCounts : ClassCounts) (key : Nat) :
    (classCounts.subscript key).1 = (classCounts.lookup key).getD 0 ∧
    ∀ k, ((classCounts.subscript key).2.lookup k).getD 0 = (classCounts.lookup k).getD 0 := by
  unfold ClassCounts.subscript
  split
  · rename_i count h
    simp [h]
  · rename_i h
    refine ⟨by simp [h], ?_⟩
    intro k
    simp only [List.lookup_append]
    cases hk : classCounts.lookup k with
    | some v => simp
    | none =>
      by_cases hkey : k = key
      · subst hkey
        simp
      · have hb : (k == key) = false := beq_eq_false_iff_ne.2 hkey
        simp [List.lookup_cons, hkey, hb]

/-- The loop of `CreateDatasetsForOneVersusRest` builds, for each index, the binary dataset
with the weights of the counts of that index. -/
theorem createDatasets_eq {δ : Type} (multiclassDataset : AutoSupervisedMultiClassDataset δ)
    (totalCount : Nat) (count : Nat → Nat) :
    ∀ (indices : List Nat) (classCounts : ClassCounts),
      (∀ k, (classCounts.lookup k).getD 0 = count k) →
      createDatasets multiclassDataset totalCount indices classCounts
        = indices.map fun i =>
            binaryDataset i (caseWeight (count i)) (caseWeight (totalCount - count i))
              multiclassDataset := by
  intro indices
  induction indices with
  | nil =>
    intro classCounts _
    rfl
  | cons i rest ih =>
    intro classCounts hcount
    obtain ⟨h1, h2⟩ := subscript_spec classCounts i
    obtain ⟨h3, h4⟩ := subscript_spec (classCounts.subscript i).2 i
    have hinv : ∀ k, (((classCounts.subscript i).2.subscript i).2.lookup k).getD 0 = count k := by
      intro k
      rw [h4 k, h2 k, hcount k]
    simp only [createDatasets, List.map_cons]
    rw [ih _ hinv, h1, h3, h2 i, hcount i]

/-- `CreateDatasetsForOneVersusRest` returns one dataset per class index that occurs; the
dataset at position `i` is the binary dataset of class `i`, whose weights come from the
number of examples of class `i` and the number of the others. -/
theorem CreateDatasetsForOneVersusRest_eq {δ : Type}
    (multiclassDataset : AutoSupervisedMultiClassDataset δ) :
    CreateDatasetsForOneVersusRest multiclassDataset
      = (List.range (classIndices multiclassDataset).card).map fun i =>
          binaryDataset i (caseWeight (classCount multiclassDataset i))
            (caseWeight (multiclassDataset.length - classCount multiclassDataset i))
            multiclassDataset := by
  simp only [CreateDatasetsForOneVersusRest]
  rw [createDatasets_eq multiclassDataset multiclassDataset.length
    (classCount multiclassDataset) _ _ (countClasses_lookup multiclassDataset),
    countClasses_length]

/-- The binary dataset of a class: one example per input example, in order, on the same
data vector, labelled `1.0` with the positive weight for the class and `-1.0` with the
negative weight otherwise. -/
theorem binaryDataset_spec {δ : Type} (i : Nat) (weightPositiveCase weightNegativeCase : Double)
    (multiclassDataset : AutoSupervisedMultiClassDataset δ) :
    (binaryDataset i weightPositiveCase weightNegativeCase multiclassDataset).length
      = multiclassDataset.length ∧
    (binaryDataset i weightPositiveCase weightNegativeCase multiclassDataset).map
        (fun binaryExample => binaryExample.dataVector)
      = multiclassDataset.map (fun example_ => example_.dataVector) ∧
    ∀ (k : Nat) (example_ : Example δ ClassIndexWeight), multiclassDataset[k]? = some example_ →
      ∃ binaryExample : Example δ WeightLabel,
        (binaryDataset i weightPositiveCase weightNegativeCase multiclassDataset)[k]?
          = some binaryExample ∧
        binaryExample.dataVector = example_.dataVector ∧
        (example_.metadata.classIndex = i →
          binaryExample.metadata = WeightLabel.mk weightPositiveCase (Double.finite 1)) ∧
        (example_.metadata.classIndex ≠ i →
          binaryExample.metadata = WeightLabel.mk weightNegativeCase (Double.finite (-1))) := by
  refine ⟨by simp [binaryDataset], ?_, ?_⟩
  · simp only [binaryDataset, List.map_map]
    apply List.map_congr_left
    intro example_ _
    simp only [Function.comp]
    split <;> rfl
  · intro k example_ hk
    by_cases hclass : example_.metadata.classIndex = i
    · refine ⟨Example.mk example_.dataVector (WeightLabel.mk weightPositiveCase (Double.finite 1)),
        ?_, rfl, fun _ => rfl, fun h => absurd hclass h⟩
      simp [binaryDataset, List.getElem?_map, hk, hclass]
    · refine ⟨Example.mk example_.dataVector
          (WeightLabel.mk weightNegativeCase (Double.finite (-1))),
        ?_, rfl, fun h => absurd h hclass, fun _ => rfl⟩
      simp [binaryDataset, List.getElem?_map, hk, hclass]

/-- A class of an example of the dataset has at least one example, and the examples of the
other classes are at least one fewer than all. -/
theorem classCount_bounds {δ : Type} (multiclassDataset : AutoSupervisedMultiClassDataset δ)
    (i : Nat) :
    classCount multiclassDataset i ≤ multiclassDataset.length ∧
    ∀ (k : Nat) (example_ : Example δ ClassIndexWeight), multiclassDataset[k]? = some example_ →
      (example_.metadata.classIndex = i → 1 ≤ classCount multiclassDataset i) ∧
      (example_.metadata.classIndex ≠ i →
        1 ≤ multiclassDataset.length - classCount multiclassDataset i) := by
  refine ⟨List.countP_le_length _, ?_⟩
  intro k example_ hk
  have hmem : example_ ∈ multiclassDataset := List.getElem?_mem hk
  constructor
  · intro hclass
    exact List.countP_pos_iff.2 ⟨example_, hmem, by simpa using hclass⟩
  · intro hclass
    have hle : classCount multiclassDataset i ≤ multiclassDataset.length :=
      List.countP_le_length _
    have hne : classCount multiclassDataset i ≠ multiclassDataset.length := by
      intro heq
      have hall := List.countP_eq_length.1 heq example_ hmem
      exact hclass (by simpa using hall)
    omega

/-- The weight of a count that is not zero is the quotient `1.0 / count`. -/
theorem caseWeight_of_pos (count : Nat) (h : 1 ≤ count) :
    caseWeight count = Double.div (Double.finite 1) (Double.ofNat count) := by
  have : count ≠ 0 := by omega
  simp [caseWeight, this]

/-- The quotient `1.0 / n` is the exact reciprocal only if `n` is a power of two. -/
theorem div_one_exact_only_if (n : Nat) (hn : 0 < n)
    (h : Double.div (Double.finite 1) (Double.ofNat n) = Double.finite (1 / (n : ℚ))) :
    ∃ j : Nat, n = 2 ^ j := by
  have hn0 : n ≠ 0 := by omega
  have hq : (1 : ℚ) / (n : ℚ) ≠ 0 := by
    have : (0 : ℚ) < (n : ℚ) := by exact_mod_cast hn
    positivity
  rcases ofRat_dyadic (n : ℚ) with hinf | hinf | ⟨m, e, hfin⟩
  · rw [Double.ofNat, hinf] at h
    simp only [Double.div, Double.finite.injEq] at h
    exact absurd h.symm hq
  · rw [Double.ofNat, hinf] at h
    simp only [Double.div, Double.finite.injEq] at h
    exact absurd h.symm hq
  · rw [Double.ofNat, hfin] at h
    simp only [Double.div] at h
    split at h
    · split at h
      · cases h
      · split at h <;> cases h
    · rcases ofRat_dyadic (1 / ((m : ℚ) * (2 : ℚ) ^ e)) with hinf | hinf | ⟨m', e', hfin'⟩
      · rw [hinf] at h
        cases h
      · rw [hinf] at h
        cases h
      · rw [hfin'] at h
        exact dyadic_reciprocal m' e' n hn0 (Double.finite.inj h)

/-- The quotient `1.0 / n` for a power of two `n` below `2^53` is the exact reciprocal. -/
theorem div_one_exact_of_pow_two (j : Nat) (hj : j ≤ 52) :
    Double.div (Double.finite 1) (Double.ofNat (2 ^ j)) = Double.finite (1 / (2 : ℚ) ^ j) := by
  have hlt : 2 ^ j < 2 ^ 53 := Nat.pow_lt_pow_right (by norm_num) (by omega)
  rw [ofNat_exact (2 ^ j) hlt]
  push_cast
  exact div_one_pow_two j (by omega)

/-- The quotient `1.0 / 3.0`: the significand `6004799503160661` at the last place
`2^-54`. -/
theorem div_one_three :
    Double.div (Double.finite 1) (Double.ofNat 3)
      = Double.finite (6004799503160661 / 18014398509481984) := by
  have h3 : Double.ofNat 3 = Double.finite 3 := by
    have := ofNat_exact 3 (by norm_num)
    simpa using this
  have hlog : Int.log 2 ((1 : ℚ) / 3) = -2 :=
    log_eq_of_bounds _ _ (by norm_num) (by norm_num) (by norm_num)
  have hlast : lastPlace ((1 : ℚ) / 3) = -54 := by
    simp only [lastPlace, hlog]
    decide
  have hround : roundHalfEven ((1 : ℚ) / 3 / (2 : ℚ) ^ (-54 : Int)) = 6004799503160661 := by
    apply roundHalfEven_near <;> norm_num
  have hpos := roundPositive_eq ((1 : ℚ) / 3) (-54) 6004799503160661 hlast hround
    (by norm_num)
  rw [h3]
  simp only [Double.div, Double.ofRat]
  norm_num
  rw [hpos]
  norm_num

/-! ## C22 -/

/-- C22 (as amended): every dataset `i` that `CreateDatasetsForOneVersusRest` returns has
one example per example of the multi-class input, in the same order and on the same data
vector.  An input example of class `i` gets label `1.0` and the weight `1.0 / count`, the
`double` quotient, for the number of input examples of class `i`; every other example
gets label `-1.0` and the weight `1.0 / count` for the number of input examples not of
class `i`.  For a count below `2^53` this quotient is the `double` nearest to the
reciprocal; it is the exact reciprocal for the powers of two and for no other count. -/
theorem C22_one_versus_rest_examples {δ : Type}
    (multiclassDataset : AutoSupervisedMultiClassDataset δ) (i : Nat)
    (dataset : AutoSupervisedDataset δ)
    (hdataset : (CreateDatasetsForOneVersusRest multiclassDataset)[i]? = some dataset) :
    dataset.length = multiclassDataset.length ∧
    dataset.map (fun binaryExample => binaryExample.dataVector)
      = multiclassDataset.map (fun example_ => example_.dataVector) ∧
    classCount multiclassDataset i ≤ multiclassDataset.length ∧
    (∀ (k : Nat) (example_ : Example δ ClassIndexWeight),
      multiclassDataset[k]? = some example_ →
      ∃ binaryExample : Example δ WeightLabel,
        dataset[k]? = some binaryExample ∧
        binaryExample.dataVector = example_.dataVector ∧
        (example_.metadata.classIndex = i →
          binaryExample.metadata.label = Double.finite 1 ∧
          1 ≤ classCount multiclassDataset i ∧
          binaryExample.metadata.weight
            = Double.div (Double.finite 1) (Double.ofNat (classCount multiclassDataset i))) ∧
        (example_.metadata.classIndex ≠ i →
          binaryExample.metadata.label = Double.finite (-1) ∧
          1 ≤ multiclassDataset.length - classCount multiclassDataset i ∧
          binaryExample.metadata.weight
            = Double.div (Double.finite 1)
                (Double.ofNat (multiclassDataset.length - classCount multiclassDataset i)))) ∧
    (∀ n : Nat, 0 < n → n < 2 ^ 53 →
      Double.div (Double.finite 1) (Double.ofNat n) = Double.ofRat (1 / (n : ℚ))) ∧
    (∀ j : Nat, j ≤ 52 →
      Double.div (Double.finite 1) (Double.ofNat (2 ^ j)) = Double.finite (1 / (2 : ℚ) ^ j)) ∧
    (∀ n : Nat, 0 < n →
      Double.div (Double.finite 1) (Double.ofNat n) = Double.finite (1 / (n : ℚ)) →
      ∃ j : Nat, n = 2 ^ j) := by
  rw [CreateDatasetsForOneVersusRest_eq, List.getElem?_map] at hdataset
  have hi : (List.range (classIndices multiclassDataset).card)[i]? = some i := by
    cases hr : (List.range (classIndices multiclassDataset).card)[i]? with
    | none => rw [hr] at hdataset; cases hdataset
    | some v =>
      have := List.getElem?_eq_some_iff.1 hr
      obtain ⟨hlt, hv⟩ := this
      rw [List.getElem_range] at hv
      rw [hv]
  rw [hi] at hdataset
  simp only [Option.map_some', Option.some.injEq] at hdataset
  subst hdataset
  obtain ⟨hlen, hdata, hexamples⟩ := binaryDataset_spec i
    (caseWeight (classCount multiclassDataset i))
    (caseWeight (multiclassDataset.length - classCount multiclassDataset i)) multiclassDataset
  obtain ⟨hle, hcounts⟩ := classCount_bounds multiclassDataset i
  refine ⟨hlen, hdata, hle, ?_, ?_, div_one_exact_of_pow_two, div_one_exact_only_if⟩
  · intro k example_ hk
    obtain ⟨binaryExample, hget, hvec, hpos, hneg⟩ := hexamples k example_ hk
    obtain ⟨hc1, hc2⟩ := hcounts k example_ hk
    refine ⟨binaryExample, hget, hvec, ?_, ?_⟩
    · intro hclass
      rw [hpos hclass]
      exact ⟨rfl, hc1 hclass, caseWeight_of_pos _ (hc1 hclass)⟩
    · intro hclass
      rw [hneg hclass]
      exact ⟨rfl, hc2 hclass, caseWeight_of_pos _ (hc2 hclass)⟩
  · intro n hn hlt
    have hne : (n : ℚ) ≠ 0 := by
      have : (0 : ℚ) < (n : ℚ) := by exact_mod_cast hn
      exact ne_of_gt this
    rw [ofNat_exact n hlt]
    simp only [Double.div, hne, if_false]

/-- The example dataset has three examples of class 0, and two class indices. -/
theorem threeToOne_counts :
    classCount threeToOne 0 = 3 ∧ (classIndices threeToOne).card = 2 := by
  constructor
  · simp [classCount, threeToOne, multiClassExample]
  · decide

/-- The first dataset returned for the example dataset. -/
theorem threeToOne_first :
    (CreateDatasetsForOneVersusRest threeToOne)[0]?
      = some (binaryDataset 0 (caseWeight 3) (caseWeight 1) threeToOne) := by
  rw [CreateDatasetsForOneVersusRest_eq, threeToOne_counts.2]
  simp only [List.getElem?_map]
  have h0 : (List.range 2)[0]? = some 0 := by decide
  rw [h0]
  simp only [Option.map_some', threeToOne_counts.1]
  rfl

/-- C22 (as amended) on the example dataset, three examples of class 0 and one of class 1,
and its first binary dataset. -/
theorem C22_one_versus_rest_examples_witness :
    (CreateDatasetsForOneVersusRest threeToOne)[0]?
      = some (binaryDataset 0 (caseWeight 3) (caseWeight 1) threeToOne) ∧
    (binaryDataset 0 (caseWeight 3) (caseWeight 1) threeToOne).length = threeToOne.length ∧
    (binaryDataset 0 (caseWeight 3) (caseWeight 1) threeToOne).map
        (fun binaryExample => binaryExample.dataVector)
      = threeToOne.map (fun example_ => example_.dataVector) :=
  ⟨threeToOne_first,
    (C22_one_versus_rest_examples threeToOne 0 _ threeToOne_first).1,
    (C22_one_versus_rest_examples threeToOne 0 _ threeToOne_first).2.1⟩

/-- C22 as stated fails on the example dataset: class 0 has three examples, and in the
dataset of class 0 the first example, which is of class 0, has the weight `1.0 / 3.0`.
That is the `double` `6004799503160661 / 2^54`, not the exact reciprocal `1 / 3`, which
is no `double`. -/
theorem C22_counterexample :
    classCount threeToOne 0 = 3 ∧
    threeToOne[0]? = some (multiClassExample 10 0) ∧
    (multiClassExample 10 0).metadata.classIndex = 0 ∧
    ∃ (dataset : AutoSupervisedDataset Nat) (binaryExample : Example Nat WeightLabel),
      (CreateDatasetsForOneVersusRest threeToOne)[0]? = some dataset ∧
      dataset[0]? = some binaryExample ∧
      binaryExample.metadata.weight
        = Double.finite (6004799503160661 / 18014398509481984) ∧
      binaryExample.metadata.weight ≠ Double.finite (1 / 3) := by
  refine ⟨threeToOne_counts.1, rfl, rfl, _, _, threeToOne_first, rfl, ?_, ?_⟩
  · show caseWeight 3 = _
    rw [caseWeight_of_pos 3 (by norm_num), div_one_three]
  · show caseWeight 3 ≠ _
    rw [caseWeight_of_pos 3 (by norm_num), div_one_three]
    intro h
    have := Double.finite.inj h
    norm_num at this

/-! ## C23 -/

/-- C23 (as amended): for every multi-class dataset, `CreateDatasetsForOneVersusRest`
returns `n` datasets, `n` being the number of distinct class indices in the input, and for
every `i < n` the dataset at position `i` is the binary dataset of the class index `i`:
exactly the examples of class `i` carry label `1.0` in it.  So a class index `x` that
occurs has its binary dataset when `x < n`, and every class index has one when the class
indices are all below `n`, that is, when they are `0, ..., n - 1`. -/
theorem C23_one_dataset_per_class_position {δ : Type}
    (multiclassDataset : AutoSupervisedMultiClassDataset δ) :
    (CreateDatasetsForOneVersusRest multiclassDataset).length
      = (classIndices multiclassDataset).card ∧
    (∀ i : Nat, i < (classIndices multiclassDataset).card →
      ∃ dataset : AutoSupervisedDataset δ,
        (CreateDatasetsForOneVersusRest multiclassDataset)[i]? = some dataset ∧
        dataset.length = multiclassDataset.length ∧
        ∀ (k : Nat) (example_ : Example δ ClassIndexWeight),
          multiclassDataset[k]? = some example_ →
          ∃ binaryExample : Example δ WeightLabel,
            dataset[k]? = some binaryExample ∧
            (binaryExample.metadata.label = Double.finite 1
              ↔ example_.metadata.classIndex = i)) ∧
    ((∀ x ∈ classIndices multiclassDataset, x < (classIndices multiclassDataset).card) →
      ∀ x ∈ classIndices multiclassDataset,
        ∃ dataset : AutoSupervisedDataset δ,
          (CreateDatasetsForOneVersusRest multiclassDataset)[x]? = some dataset ∧
          ∀ (k : Nat) (example_ : Example δ ClassIndexWeight),
            multiclassDataset[k]? = some example_ →
            ∃ binaryExample : Example δ WeightLabel,
              dataset[k]? = some binaryExample ∧
              (binaryExample.metadata.label = Double.finite 1
                ↔ example_.metadata.classIndex = x)) := by
  have hmain : ∀ i : Nat, i < (classIndices multiclassDataset).card →
      ∃ dataset : AutoSupervisedDataset δ,
        (CreateDatasetsForOneVersusRest multiclassDataset)[i]? = some dataset ∧
        dataset.length = multiclassDataset.length ∧
        ∀ (k : Nat) (example_ : Example δ ClassIndexWeight),
          multiclassDataset[k]? = some example_ →
          ∃ binaryExample : Example δ WeightLabel,
            dataset[k]? = some binaryExample ∧
            (binaryExample.metadata.label = Double.finite 1
              ↔ example_.metadata.classIndex = i) := by
    intro i hi
    obtain ⟨hlen, -, hexamples⟩ := binaryDataset_spec i
      (caseWeight (classCount multiclassDataset i))
      (caseWeight (multiclassDataset.length - classCount multiclassDataset i))
      multiclassDataset
    refine ⟨_, ?_, hlen, ?_⟩
    · rw [CreateDatasetsForOneVersusRest_eq, List.getElem?_map,
        List.getElem?_range hi]
      rfl
    · intro k example_ hk
      obtain ⟨binaryExample, hget, -, hpos, hneg⟩ := hexamples k example_ hk
      refine ⟨binaryExample, hget, ?_⟩
      by_cases hclass : example_.metadata.classIndex = i
      · rw [hpos hclass]
        exact ⟨fun _ => hclass, fun _ => rfl⟩
      · rw [hneg hclass]
        constructor
        · intro h
          have := Double.finite.inj h
          norm_num at this
        · intro h
          exact absurd h hclass
  refine ⟨?_, hmain, ?_⟩
  · rw [CreateDatasetsForOneVersusRest_eq, List.length_map, List.length_range]
  · intro hdense x hx
    obtain ⟨dataset, hget, -, hlabels⟩ := hmain x (hdense x hx)
    exact ⟨dataset, hget, hlabels⟩

/-- C23 as stated fails on the dataset with one example of class 0 and one of class 5: two
datasets are returned, those of the class indices 0 and 1, and in neither of them the
example of class 5 carries label `1.0`; there is no binary dataset for class 5. -/
theorem C23_counterexample :
    5 ∈ classIndices sparseClasses ∧
    sparseClasses[1]? = some (multiClassExample 11 5) ∧
    (CreateDatasetsForOneVersusRest sparseClasses).length = 2 ∧
    ∀ dataset ∈ CreateDatasetsForOneVersusRest sparseClasses,
      ∀ binaryExample : Example Nat WeightLabel, dataset[1]? = some binaryExample →
        binaryExample.metadata.label ≠ Double.finite 1 := by
  have hcard : (classIndices sparseClasses).card = 2 := by decide
  refine ⟨by decide, rfl, ?_, ?_⟩
  · rw [CreateDatasetsForOneVersusRest_eq, List.length_map, List.length_range, hcard]
  · intro dataset hmem binaryExample hget
    rw [CreateDatasetsForOneVersusRest_eq, hcard] at hmem
    obtain ⟨i, hi, rfl⟩ := List.mem_map.1 hmem
    have hi2 : i < 2 := List.mem_range.1 hi
    have hne : ¬ (5 : Nat) = i := by omega
    simp only [binaryDataset, sparseClasses, multiClassExample, List.map_cons, List.map_nil,
      hne, if_false] at hget
    have hget' := hget
    simp only [List.getElem?_cons_succ, List.getElem?_cons_zero, Option.some.injEq] at hget'
    subst hget'
    intro h
    have := Double.finite.inj h
    norm_num at this

/-! ## C21 -/

/-- C21, the code at a map with one `double` output: `AppendTrainedLinearPredictorToMap`
creates the new map, with the input of the map and the output of the appended nodes, but
`GetRetargetedModel` returns the default-constructed map `model::Map()`, without inputs
and outputs, and not the new map; and whenever `GetRetargetedModel` returns, for any
library, predictor and map, it returns that empty map. -/
theorem C21_GetRetargetedModel_returns_empty_map :
    GetOutputType exampleWorld.map 0 = Except.ok PortType.real ∧
    AppendTrainedLinearPredictorToMap exampleLibrary ElementType.double examplePredictor
        exampleWorld.map 2
      = Except.ok (Map.mk [InputNodeBase.mk PortType.real 2 []]
          [("output", PortElementsBase.mk PortType.real 3)] 0) ∧
    GetRetargetedModel exampleLibrary examplePredictor exampleWorld.map
      = Except.ok (Map.mk [] [] 0) ∧
    Map.mk [] [] 0
      ≠ Map.mk [InputNodeBase.mk PortType.real 2 []]
          [("output", PortElementsBase.mk PortType.real 3)] 0 ∧
    (∀ (library : Library) (trainedPredictor : LinearPredictor) (map result : Map),
      GetRetargetedModel library trainedPredictor map = Except.ok result →
        result = emptyMap) := by
  refine ⟨rfl, rfl, rfl, by decide, ?_⟩
  intro library trainedPredictor map result h
  unfold GetRetargetedModel at h
  split at h
  · cases h
  · split at h
    · cases h
    · dsimp only at h
      split at h
      · cases h
      · cases h
        rfl
    · dsimp only at h
      split at h
      · cases h
      · cases h
        rfl
    · cases h

end retargetTrainer
